import Mathlib

/-!
# Parallel multi-try k-way FM refinement: driver and shared state

A shallow embedding of `multitry_kway_fm.cpp` and of the shared-state part of
`thread_data_factory` (`multitry_kway_fm.h`), followed by theorems about the two entry
points `perform_refinement` / `perform_refinement_around_parts`, about the localized
search `start_more_locallized_search`, and about the two reset operations.

Conventions of the embedding.

* `int` / `EdgeWeight` values are integers of `ℤ`; `unsigned`, `uint32_t`, `NodeID`,
  `PartitionID` values are natural numbers.
* The cells of the factory's `Cvector<AtomicWrapper<_>>` members are addressed by index:
  a member is a map from the index to the value held by the cell.
* Code that is not part of the two source files (the graph, the boundary, the per-thread
  data, the random generator, the commit pass `apply_moves`, the worker bodies) enters as
  a record of collaborator operations, `Collaborators`.
* Loops without a bound in the source (`while (!queue.empty())`) take a fuel argument; a
  run that uses up its fuel ends with `Outcome.out_of_fuel`.
* Time measurements (`CLOCK_*`, the `time_*` accumulators) are left out.
-/

namespace MultitryKwayFM

/-! ## Data model -/

abbrev NodeID := Nat
abbrev PartitionID := Nat

/-- The enumeration `KWayStopRule`. The source names one enumerator,
`KWAY_ADAPTIVE_STOP_RULE`; every other enumerator is `other n`. -/
inductive KWayStopRule where
  | KWAY_ADAPTIVE_STOP_RULE
  | other (n : Nat)
  deriving DecidableEq

/-- The fields of `PartitionConfig` that the two source files read or write. The
declaration of `PartitionConfig` is not among the sources, so the type `A` of
`kway_adaptive_limits_alpha` is a parameter (the locals that save and set it are
`unsigned`). -/
structure PartitionConfig (A : Type) where
  num_threads : Nat
  local_multitry_rounds : Nat
  kway_stop_rule : KWayStopRule
  kway_adaptive_limits_alpha : A

/-- The argument `touched_blocks` (`std::unordered_map<PartitionID, PartitionID>`), as an
association list. -/
abbrev TouchedBlocks := List (PartitionID × PartitionID)

/-- The mutable state a refinement call works on: the collaborators' state `ext` (graph,
boundary and per-thread data, of type `X`), the members of `thread_data_factory` that the
sources write, and the number of values drawn so far from `random_functions`. -/
structure World (X : Type) where
  ext : X
  queue : List NodeID
  m_moved_idx : NodeID → Bool
  m_parts_weights : PartitionID → Int
  m_parts_sizes : PartitionID → Nat
  m_moved_count : Nat → Int
  m_reset_counter : Nat
  m_time_stamp : Nat
  num_threads_finished : Nat
  random_draws : Nat

/-- The assertions of `multitry_kway_fm.cpp` and of `multitry_kway_fm.h`, named after the
asserted condition. -/
inductive Assertion where
  | transpositions_nonempty
  | real_gain_improvement_nonneg
  | total_gain_improvement_nonneg
  | overall_improvement_nonneg
  | proc_stats_same_size
  deriving DecidableEq

/-- How a call ends: it returns a value, a failed assertion aborts the program, an index
outside a vector is read (undefined behaviour), or the fuel of the model runs out. -/
inductive Outcome (α : Type) where
  | returned (a : α)
  | aborted (which : Assertion)
  | undefined_behaviour
  | out_of_fuel
  deriving DecidableEq

/-- What `kway_graph_refinement_core::apply_moves` hands back: the pair it returns, the
out-parameters `reactivated_vertices` and `touched_blocks`, and the state it leaves. -/
structure CommitResult (X : Type) where
  real_gain_improvement : Int
  real_nodes_movement : Nat
  reactivated_vertices : List NodeID
  touched_blocks : TouchedBlocks
  world : World X

/-- The operations the two source files call but do not define.

* `alpha_to_unsigned`, `alpha_of_unsigned`: the conversions between the type of
  `config.kway_adaptive_limits_alpha` and `unsigned` that the assignments of lines 24, 26
  and 49 (61, 63 and 95) perform; both are the identity when the field is `unsigned`.
* `assert_true_active`: whether `ASSERT_TRUE` is compiled in.
* `get_partition_count`, `getBlockWeight`, `getBlockNoNodes`, `setup_start_nodes_all`,
  `setup_start_nodes_around_blocks`: `graph_access` and `complete_boundary`.
* `nextInt k lb ub`: the value of the `k`-th call of `random_functions::nextInt`, made
  with the arguments `lb` and `ub`.
* `run_tasks config init_neighbors w`: the parallel phase, i.e. the worker lambda of lines
  131 to 199 run by `config.num_threads` workers up to the join; `none` when a worker's
  `ALWAYS_ASSERT(td.transpositions.size() > 0)` fails.
* `upper_bound_gain_improvement x id`: the counter of that name of thread `id`.
* `apply_moves`: the commit pass. -/
structure Collaborators (A X : Type) where
  alpha_to_unsigned : A → Nat
  alpha_of_unsigned : Nat → A
  assert_true_active : Bool
  get_partition_count : X → Nat
  getBlockWeight : X → PartitionID → Int
  getBlockNoNodes : X → PartitionID → Nat
  setup_start_nodes_all : X → List NodeID
  setup_start_nodes_around_blocks : X → PartitionID → PartitionID → List NodeID
  nextInt : Nat → Nat → Nat → Nat
  run_tasks : PartitionConfig A → Bool → World X → Option (World X)
  upper_bound_gain_improvement : X → Nat → Int
  apply_moves : PartitionConfig A → Bool → TouchedBlocks → World X → CommitResult X

/-! ## Machine integers

`int` is taken as 32 bits wide, two's complement. -/

/-- The value of an `int` object that is given the integer `x`: the value in
`[-2^31, 2^31 - 1]` congruent to `x` modulo `2^32`. -/
def int_wrap (x : Int) : Int := (x + 2147483648) % 4294967296 - 2147483648

/-- The sum `a + b` of two `int` values as the machine computes it: on overflow the
result wraps around (the language leaves the overflow of a signed `int` undefined). -/
def int_add (a b : Int) : Int := int_wrap (a + b)

/-- The integer `x` is a value of `int`. -/
def fits_int (x : Int) : Prop := -2147483648 ≤ x ∧ x ≤ 2147483647

instance (x : Int) : Decidable (fits_int x) := by
  unfold fits_int
  exact inferInstance

/-- No addition of the loop `acc += x` over the elements `x` of `l`, in order, from
`acc = 0`, overflows: every running sum is a value of `int`. -/
def no_int_overflow (l : List Int) : Prop := ∀ k, k ≤ l.length → fits_int (l.take k).sum

instance (l : List Int) : Decidable (no_int_overflow l) := by
  unfold no_int_overflow
  exact inferInstance

/-! ## Shared state: `thread_data_factory` -/

/-- The loop `for (i = 0; i < n; ++i) body`. -/
def for_range {σ : Type} (n : Nat) (body : Nat → σ → σ) (s : σ) : σ :=
  (List.range n).foldl (fun acc i => body i acc) s

/-- One iteration of the loop of `partial_reset_global_data` (lines 78 and 79). -/
def store_block {A X : Type} (env : Collaborators A X) (block : PartitionID)
    (w : World X) : World X :=
  { w with
    m_parts_weights := Function.update w.m_parts_weights block (env.getBlockWeight w.ext block)
    m_parts_sizes := Function.update w.m_parts_sizes block (env.getBlockNoNodes w.ext block) }

/-- `thread_data_factory::partial_reset_global_data` (lines 76 to 86). -/
def partial_reset_global_data {A X : Type} (env : Collaborators A X) (w : World X) :
    World X :=
  let w1 := for_range (env.get_partition_count w.ext) (store_block env) w
  { w1 with m_reset_counter := 0, m_time_stamp := 0, queue := [], num_threads_finished := 0 }

/-- One iteration of the first loop of `reset_global_data` (line 70). -/
def store_moved_count {X : Type} (id : Nat) (w : World X) : World X :=
  { w with m_moved_count := Function.update w.m_moved_count id 0 }

/-- `thread_data_factory::reset_global_data` (lines 68 to 74). -/
def reset_global_data {A X : Type} (env : Collaborators A X) (config : PartitionConfig A)
    (w : World X) : World X :=
  partial_reset_global_data env (for_range config.num_threads store_moved_count w)

/-- `thread_data_factory::is_moved` (lines 64 to 66). -/
def is_moved {X : Type} (w : World X) (node : NodeID) : Bool :=
  w.m_moved_idx node

/-! ## The localized search: `multitry_kway_fm::start_more_locallized_search` -/

/-- The state in which a run of `start_more_locallized_search` ends, with its locals
`upper_bound_gain_improvement` and `touched_blocks`, and the list of the values
`real_gain_improvement` that its commit passes returned, in order (`real_gains`, kept
for the statements only). -/
structure SearchRun (X : Type) where
  outcome : Outcome Int
  world : World X
  touched_blocks : TouchedBlocks
  upper_bound_gain_improvement : Int
  real_gains : List Int

/-- `m_factory.queue.push(node)`. -/
def queue_push {X : Type} (node : NodeID) (w : World X) : World X :=
  { w with queue := w.queue ++ [node] }

/-- The body of the seeding loop (lines 116 to 122) on a non-empty `todolist`: draw
`random_idx`, push `todolist[random_idx]`, swap it with the back and pop the back.
`none` when `random_idx` is not an index of `todolist`. -/
def seed_step {A X : Type} (env : Collaborators A X) (todolist : List NodeID)
    (w : World X) : Option (List NodeID × World X) :=
  let random_idx := env.nextInt w.random_draws 0 (todolist.length - 1)
  match todolist[random_idx]? with
  | none => none
  | some node =>
    some ((todolist.set random_idx (todolist.getLastD node)).dropLast,
          queue_push node { w with random_draws := w.random_draws + 1 })

/-- The seeding loop `while (!todolist.empty())` (lines 115 to 123); each iteration
removes one element, so `todolist.length` iterations are enough. -/
def seed_queue {A X : Type} (env : Collaborators A X) :
    Nat → List NodeID → World X → Outcome (World X)
  | _, [], w => Outcome.returned w
  | 0, _ :: _, _ => Outcome.out_of_fuel
  | fuel + 1, v :: rest, w =>
    match seed_step env (v :: rest) w with
    | none => Outcome.undefined_behaviour
    | some (todolist1, w1) => seed_queue env fuel todolist1 w1

/-- The local `todolist` and the world after `n` iterations of the body of the seeding
loop (lines 115 to 123) from the state `(todolist, w)`; `none` when the loop makes fewer
than `n` iterations (its guard `!todolist.empty()` fails earlier) or when `random_idx` is
not an index of `todolist` in one of them. -/
def seed_iterations {A X : Type} (env : Collaborators A X) :
    Nat → List NodeID → World X → Option (List NodeID × World X)
  | 0, todolist, w => some (todolist, w)
  | _ + 1, [], _ => none
  | n + 1, v :: rest, w =>
    match seed_step env (v :: rest) w with
    | none => none
    | some (todolist1, w1) => seed_iterations env n todolist1 w1

/-- Lines 210 to 213: the sum of the workers' `upper_bound_gain_improvement`, thread 0
first, then threads `1 .. num_threads - 1`. The source reads these counters before the
futures are joined; the local they are added to is used nowhere else. -/
def sum_upper_bounds {A X : Type} (env : Collaborators A X) (config : PartitionConfig A)
    (x : X) : Int :=
  for_range (config.num_threads - 1)
    (fun i acc => acc + env.upper_bound_gain_improvement x (i + 1))
    (env.upper_bound_gain_improvement x 0)

/-- Lines 230 to 232: push every reactivated vertex. -/
def push_all {X : Type} (vertices : List NodeID) (w : World X) : World X :=
  vertices.foldl (fun acc vertex => queue_push vertex acc) w

/-- Lines 239 and 240: `ALWAYS_ASSERT(total_gain_improvement >= 0)` and the return. -/
def finish_search {X : Type} (w : World X) (touched_blocks : TouchedBlocks)
    (upper_bound total : Int) (gains : List Int) : SearchRun X :=
  { outcome := if 0 ≤ total then Outcome.returned total
               else Outcome.aborted Assertion.total_gain_improvement_nonneg
    world := w
    touched_blocks := touched_blocks
    upper_bound_gain_improvement := upper_bound
    real_gains := gains }

/-- The loop `while (!m_factory.queue.empty())` of lines 130 to 237 followed by lines 239
and 240. One iteration: the parallel phase, the sum of the upper bounds, the commit pass
`apply_moves`, `total_gain_improvement += real_gain_improvement`,
`partial_reset_global_data`, the push of the reactivated vertices and
`ALWAYS_ASSERT(real_gain_improvement >= 0)`. The first argument is the fuel: the number
of iterations the run may make. The two accumulators are integers here;
`parallel_phases_int` is the same loop with the accumulators as `int` objects. -/
def parallel_phases {A X : Type} (env : Collaborators A X) (config : PartitionConfig A)
    (init_neighbors compute_touched_blocks : Bool) :
    Nat → World X → TouchedBlocks → Int → Int → List Int → SearchRun X
  | 0, w, touched_blocks, upper_bound, total, gains =>
    if w.queue.isEmpty then finish_search w touched_blocks upper_bound total gains
    else ⟨Outcome.out_of_fuel, w, touched_blocks, upper_bound, gains⟩
  | fuel + 1, w, touched_blocks, upper_bound, total, gains =>
    if w.queue.isEmpty then finish_search w touched_blocks upper_bound total gains
    else
      match env.run_tasks config init_neighbors w with
      | none =>
        ⟨Outcome.aborted Assertion.transpositions_nonempty, w, touched_blocks, upper_bound,
          gains⟩
      | some w1 =>
        let upper_bound1 := upper_bound + sum_upper_bounds env config w1.ext
        let c := env.apply_moves config compute_touched_blocks touched_blocks w1
        let total1 := total + c.real_gain_improvement
        let w2 := push_all c.reactivated_vertices (partial_reset_global_data env c.world)
        let gains1 := gains ++ [c.real_gain_improvement]
        if 0 ≤ c.real_gain_improvement then
          parallel_phases env config init_neighbors compute_touched_blocks fuel w2
            c.touched_blocks upper_bound1 total1 gains1
        else
          ⟨Outcome.aborted Assertion.real_gain_improvement_nonneg, w2, c.touched_blocks,
            upper_bound1, gains1⟩

/-- `multitry_kway_fm::start_more_locallized_search` (lines 101 to 241):
`reset_global_data`, the seeding loop, then the loop over the parallel phases. `fuel`
bounds the number of parallel phases. The configuration of the factory is taken to be the
one of the call; `start_more_locallized_search_int` keeps the two apart. -/
def start_more_locallized_search {A X : Type} (env : Collaborators A X)
    (config : PartitionConfig A) (init_neighbors compute_touched_blocks : Bool)
    (touched_blocks : TouchedBlocks) (todolist : List NodeID) (fuel : Nat)
    (w : World X) : SearchRun X :=
  let w0 := reset_global_data env config w
  match seed_queue env todolist.length todolist w0 with
  | Outcome.returned w1 =>
    parallel_phases env config init_neighbors compute_touched_blocks fuel w1
      touched_blocks 0 0 []
  | Outcome.aborted a => ⟨Outcome.aborted a, w0, touched_blocks, 0, []⟩
  | Outcome.undefined_behaviour => ⟨Outcome.undefined_behaviour, w0, touched_blocks, 0, []⟩
  | Outcome.out_of_fuel => ⟨Outcome.out_of_fuel, w0, touched_blocks, 0, []⟩

/-- The collaborators `env` with other values `f` for the workers' counters
`upper_bound_gain_improvement` (what the chains reported as improvement). -/
def with_upper_bounds {A X : Type} (env : Collaborators A X) (f : X → Nat → Int) :
    Collaborators A X :=
  { env with upper_bound_gain_improvement := f }

/-! ## The entry points -/

/-- One executed round of an entry point: the start nodes the boundary gave and the run
of the localized search on them (kept for the statements only). -/
structure RoundRecord (X : Type) where
  start_nodes : List NodeID
  search : SearchRun X

/-- The state in which the rounds loop of an entry point ends; `outcome` holds
`overall_improvement`. -/
structure RoundsRun (X : Type) where
  outcome : Outcome Int
  world : World X
  touched_blocks : TouchedBlocks
  rounds : List (RoundRecord X)

/-- The rounds loop of the two entry points: lines 30 to 45 with
`setup := setup_start_nodes_all` and `compute_touched_blocks := false` (a fresh
`touched_blocks` in every round), lines 67 to 93 with
`setup := setup_start_nodes_around_blocks _ lhs rhs` and `compute_touched_blocks := true`
(the caller's `touched_blocks`). The first explicit argument after `fuel` is the number of
rounds still allowed. The accumulator `overall_improvement` is an integer here;
`refinement_rounds_int` is the same loop with the accumulator as an `int` object. -/
def refinement_rounds {A X : Type} (env : Collaborators A X) (config : PartitionConfig A)
    (init_neighbors : Bool) (setup : X → List NodeID) (compute_touched_blocks : Bool)
    (fuel : Nat) :
    Nat → World X → TouchedBlocks → Int → List (RoundRecord X) → RoundsRun X
  | 0, w, touched_blocks, overall_improvement, log =>
    ⟨Outcome.returned overall_improvement, w, touched_blocks, log⟩
  | n + 1, w, touched_blocks, overall_improvement, log =>
    let start_nodes := setup w.ext
    if start_nodes.length = 0 then
      ⟨Outcome.returned overall_improvement, w, touched_blocks, log⟩
    else
      let r := start_more_locallized_search env config init_neighbors compute_touched_blocks
        (if compute_touched_blocks then touched_blocks else []) start_nodes fuel w
      let touched_blocks1 := if compute_touched_blocks then r.touched_blocks else touched_blocks
      let log1 := log ++ [⟨start_nodes, r⟩]
      match r.outcome with
      | Outcome.returned improvement =>
        if improvement = 0 then
          ⟨Outcome.returned overall_improvement, r.world, touched_blocks1, log1⟩
        else
          refinement_rounds env config init_neighbors setup compute_touched_blocks fuel n
            r.world touched_blocks1 (overall_improvement + improvement) log1
      | Outcome.aborted a => ⟨Outcome.aborted a, r.world, touched_blocks1, log1⟩
      | Outcome.undefined_behaviour =>
        ⟨Outcome.undefined_behaviour, r.world, touched_blocks1, log1⟩
      | Outcome.out_of_fuel => ⟨Outcome.out_of_fuel, r.world, touched_blocks1, log1⟩

/-- The state in which an entry point ends: its result, the configuration, the world, the
caller's `touched_blocks`, and the rounds it executed. -/
structure RefinementRun (A X : Type) where
  outcome : Outcome Int
  config : PartitionConfig A
  world : World X
  touched_blocks : TouchedBlocks
  rounds : List (RoundRecord X)

/-- Lines 24 to 27 (61 to 64): the configuration in force during the rounds. -/
def override_config {A X : Type} (env : Collaborators A X) (config : PartitionConfig A)
    (alpha : Nat) : PartitionConfig A :=
  { config with
    kway_adaptive_limits_alpha := env.alpha_of_unsigned alpha
    kway_stop_rule := KWayStopRule.KWAY_ADAPTIVE_STOP_RULE }

/-- Lines 49 and 50 (95 and 96): the configuration after `tmp_alpha` and `tmp_stop`,
saved from `config` on entry, are written back into `current`. -/
def restore_config {A X : Type} (env : Collaborators A X) (config current : PartitionConfig A) :
    PartitionConfig A :=
  { current with
    kway_adaptive_limits_alpha :=
      env.alpha_of_unsigned (env.alpha_to_unsigned config.kway_adaptive_limits_alpha)
    kway_stop_rule := config.kway_stop_rule }

/-- `multitry_kway_fm::perform_refinement` (lines 21 to 54). `ASSERT_TRUE` comes before
the configuration is restored. -/
def perform_refinement {A X : Type} (env : Collaborators A X) (config : PartitionConfig A)
    (w : World X) (rounds : Nat) (init_neighbors : Bool) (alpha : Nat) (fuel : Nat) :
    RefinementRun A X :=
  let config1 := override_config env config alpha
  let r := refinement_rounds env config1 init_neighbors env.setup_start_nodes_all false fuel
    rounds w [] 0 []
  match r.outcome with
  | Outcome.returned overall_improvement =>
    if env.assert_true_active && decide (overall_improvement < 0) then
      ⟨Outcome.aborted Assertion.overall_improvement_nonneg, config1, r.world, [], r.rounds⟩
    else
      ⟨Outcome.returned overall_improvement, restore_config env config config1, r.world, [],
        r.rounds⟩
  | Outcome.aborted a => ⟨Outcome.aborted a, config1, r.world, [], r.rounds⟩
  | Outcome.undefined_behaviour => ⟨Outcome.undefined_behaviour, config1, r.world, [], r.rounds⟩
  | Outcome.out_of_fuel => ⟨Outcome.out_of_fuel, config1, r.world, [], r.rounds⟩

/-- `multitry_kway_fm::perform_refinement_around_parts` (lines 56 to 99). The
configuration is restored before `ASSERT_TRUE`. -/
def perform_refinement_around_parts {A X : Type} (env : Collaborators A X)
    (config : PartitionConfig A) (w : World X) (init_neighbors : Bool) (alpha : Nat)
    (lhs rhs : PartitionID) (touched_blocks : TouchedBlocks) (fuel : Nat) :
    RefinementRun A X :=
  let config1 := override_config env config alpha
  let r := refinement_rounds env config1 init_neighbors
    (fun x => env.setup_start_nodes_around_blocks x lhs rhs) true fuel
    config1.local_multitry_rounds w touched_blocks 0 []
  match r.outcome with
  | Outcome.returned overall_improvement =>
    if env.assert_true_active && decide (overall_improvement < 0) then
      ⟨Outcome.aborted Assertion.overall_improvement_nonneg, restore_config env config config1,
        r.world, r.touched_blocks, r.rounds⟩
    else
      ⟨Outcome.returned overall_improvement, restore_config env config config1, r.world,
        r.touched_blocks, r.rounds⟩
  | Outcome.aborted a => ⟨Outcome.aborted a, config1, r.world, r.touched_blocks, r.rounds⟩
  | Outcome.undefined_behaviour =>
    ⟨Outcome.undefined_behaviour, config1, r.world, r.touched_blocks, r.rounds⟩
  | Outcome.out_of_fuel => ⟨Outcome.out_of_fuel, config1, r.world, r.touched_blocks, r.rounds⟩

/-! ## The search and the entry points with their `int` accumulators

In the definitions above the locals `upper_bound_gain_improvement`,
`total_gain_improvement` and `overall_improvement` are integers. The definitions of this
section are the same loops with these locals as `int` objects: every `+=` on them is an
`int_add`. They also keep the configuration `m_config` of the factory, which
`reset_global_data` reads (header, line 69), apart from the configuration `config` of the
call. `parallel_phases_int_eq` relates the two loops over the parallel phases. -/

/-- The loop `while (!m_factory.queue.empty())` of lines 130 to 237 followed by lines 239
and 240, as `parallel_phases`, with `int` accumulators: lines 210 to 213 add the workers'
`upper_bound_gain_improvement` to the local one by one, thread 0 first; line 226 is
`total_gain_improvement += real_gain_improvement`. -/
def parallel_phases_int {A X : Type} (env : Collaborators A X) (config : PartitionConfig A)
    (init_neighbors compute_touched_blocks : Bool) :
    Nat → World X → TouchedBlocks → Int → Int → List Int → SearchRun X
  | 0, w, touched_blocks, upper_bound, total, gains =>
    if w.queue.isEmpty then finish_search w touched_blocks upper_bound total gains
    else ⟨Outcome.out_of_fuel, w, touched_blocks, upper_bound, gains⟩
  | fuel + 1, w, touched_blocks, upper_bound, total, gains =>
    if w.queue.isEmpty then finish_search w touched_blocks upper_bound total gains
    else
      match env.run_tasks config init_neighbors w with
      | none =>
        ⟨Outcome.aborted Assertion.transpositions_nonempty, w, touched_blocks, upper_bound,
          gains⟩
      | some w1 =>
        let upper_bound1 := for_range (config.num_threads - 1)
          (fun i acc => int_add acc (env.upper_bound_gain_improvement w1.ext (i + 1)))
          (int_add upper_bound (env.upper_bound_gain_improvement w1.ext 0))
        let c := env.apply_moves config compute_touched_blocks touched_blocks w1
        let total1 := int_add total c.real_gain_improvement
        let w2 := push_all c.reactivated_vertices (partial_reset_global_data env c.world)
        let gains1 := gains ++ [c.real_gain_improvement]
        if 0 ≤ c.real_gain_improvement then
          parallel_phases_int env config init_neighbors compute_touched_blocks fuel w2
            c.touched_blocks upper_bound1 total1 gains1
        else
          ⟨Outcome.aborted Assertion.real_gain_improvement_nonneg, w2, c.touched_blocks,
            upper_bound1, gains1⟩

/-- `multitry_kway_fm::start_more_locallized_search` (lines 101 to 241) with `int`
accumulators: `reset_global_data` of the factory (with its `m_config`), the seeding loop,
then the loop over the parallel phases. `fuel` bounds the number of parallel phases. -/
def start_more_locallized_search_int {A X : Type} (env : Collaborators A X)
    (config m_config : PartitionConfig A) (init_neighbors compute_touched_blocks : Bool)
    (touched_blocks : TouchedBlocks) (todolist : List NodeID) (fuel : Nat)
    (w : World X) : SearchRun X :=
  let w0 := reset_global_data env m_config w
  match seed_queue env todolist.length todolist w0 with
  | Outcome.returned w1 =>
    parallel_phases_int env config init_neighbors compute_touched_blocks fuel w1
      touched_blocks 0 0 []
  | Outcome.aborted a => ⟨Outcome.aborted a, w0, touched_blocks, 0, []⟩
  | Outcome.undefined_behaviour => ⟨Outcome.undefined_behaviour, w0, touched_blocks, 0, []⟩
  | Outcome.out_of_fuel => ⟨Outcome.out_of_fuel, w0, touched_blocks, 0, []⟩

/-- The rounds loop of the two entry points, as `refinement_rounds`, with the `int`
accumulator: `overall_improvement += improvement` (lines 43 and 92) is an `int_add`. -/
def refinement_rounds_int {A X : Type} (env : Collaborators A X)
    (config m_config : PartitionConfig A) (init_neighbors : Bool) (setup : X → List NodeID)
    (compute_touched_blocks : Bool) (fuel : Nat) :
    Nat → World X → TouchedBlocks → Int → List (RoundRecord X) → RoundsRun X
  | 0, w, touched_blocks, overall_improvement, log =>
    ⟨Outcome.returned overall_improvement, w, touched_blocks, log⟩
  | n + 1, w, touched_blocks, overall_improvement, log =>
    let start_nodes := setup w.ext
    if start_nodes.length = 0 then
      ⟨Outcome.returned overall_improvement, w, touched_blocks, log⟩
    else
      let r := start_more_locallized_search_int env config m_config init_neighbors
        compute_touched_blocks (if compute_touched_blocks then touched_blocks else [])
        start_nodes fuel w
      let touched_blocks1 := if compute_touched_blocks then r.touched_blocks else touched_blocks
      let log1 := log ++ [⟨start_nodes, r⟩]
      match r.outcome with
      | Outcome.returned improvement =>
        if improvement = 0 then
          ⟨Outcome.returned overall_improvement, r.world, touched_blocks1, log1⟩
        else
          refinement_rounds_int env config m_config init_neighbors setup
            compute_touched_blocks fuel n r.world touched_blocks1
            (int_add overall_improvement improvement) log1
      | Outcome.aborted a => ⟨Outcome.aborted a, r.world, touched_blocks1, log1⟩
      | Outcome.undefined_behaviour =>
        ⟨Outcome.undefined_behaviour, r.world, touched_blocks1, log1⟩
      | Outcome.out_of_fuel => ⟨Outcome.out_of_fuel, r.world, touched_blocks1, log1⟩

/-- `multitry_kway_fm::perform_refinement` (lines 21 to 54) with the `int` accumulator.
`ASSERT_TRUE` comes before the configuration is restored. -/
def perform_refinement_int {A X : Type} (env : Collaborators A X)
    (config m_config : PartitionConfig A) (w : World X) (rounds : Nat)
    (init_neighbors : Bool) (alpha : Nat) (fuel : Nat) : RefinementRun A X :=
  let config1 := override_config env config alpha
  let r := refinement_rounds_int env config1 m_config init_neighbors
    env.setup_start_nodes_all false fuel rounds w [] 0 []
  match r.outcome with
  | Outcome.returned overall_improvement =>
    if env.assert_true_active && decide (overall_improvement < 0) then
      ⟨Outcome.aborted Assertion.overall_improvement_nonneg, config1, r.world, [], r.rounds⟩
    else
      ⟨Outcome.returned overall_improvement, restore_config env config config1, r.world, [],
        r.rounds⟩
  | Outcome.aborted a => ⟨Outcome.aborted a, config1, r.world, [], r.rounds⟩
  | Outcome.undefined_behaviour => ⟨Outcome.undefined_behaviour, config1, r.world, [], r.rounds⟩
  | Outcome.out_of_fuel => ⟨Outcome.out_of_fuel, config1, r.world, [], r.rounds⟩

/-- `multitry_kway_fm::perform_refinement_around_parts` (lines 56 to 99) with the `int`
accumulator. The configuration is restored before `ASSERT_TRUE`. -/
def perform_refinement_around_parts_int {A X : Type} (env : Collaborators A X)
    (config m_config : PartitionConfig A) (w : World X) (init_neighbors : Bool)
    (alpha : Nat) (lhs rhs : PartitionID) (touched_blocks : TouchedBlocks) (fuel : Nat) :
    RefinementRun A X :=
  let config1 := override_config env config alpha
  let r := refinement_rounds_int env config1 m_config init_neighbors
    (fun x => env.setup_start_nodes_around_blocks x lhs rhs) true fuel
    config1.local_multitry_rounds w touched_blocks 0 []
  match r.outcome with
  | Outcome.returned overall_improvement =>
    if env.assert_true_active && decide (overall_improvement < 0) then
      ⟨Outcome.aborted Assertion.overall_improvement_nonneg, restore_config env config config1,
        r.world, r.touched_blocks, r.rounds⟩
    else
      ⟨Outcome.returned overall_improvement, restore_config env config config1, r.world,
        r.touched_blocks, r.rounds⟩
  | Outcome.aborted a => ⟨Outcome.aborted a, config1, r.world, r.touched_blocks, r.rounds⟩
  | Outcome.undefined_behaviour =>
    ⟨Outcome.undefined_behaviour, config1, r.world, r.touched_blocks, r.rounds⟩
  | Outcome.out_of_fuel => ⟨Outcome.out_of_fuel, config1, r.world, r.touched_blocks, r.rounds⟩

/-- What a run of the loop over the parallel phases with integer accumulators shows when
the accumulators are `int` objects: the local sum of the upper bounds wraps, and the
total is read at lines 239 and 240 as the `int` it is. -/
def SearchRun.as_int {X : Type} (r : SearchRun X) : SearchRun X :=
  { r with
    outcome :=
      match r.outcome with
      | Outcome.returned total =>
        if 0 ≤ int_wrap total then Outcome.returned (int_wrap total)
        else Outcome.aborted Assertion.total_gain_improvement_nonneg
      | Outcome.aborted a => Outcome.aborted a
      | Outcome.undefined_behaviour => Outcome.undefined_behaviour
      | Outcome.out_of_fuel => Outcome.out_of_fuel
    upper_bound_gain_improvement := int_wrap r.upper_bound_gain_improvement }

/-! ## The worker task: the lambda of lines 131 to 199

The lambda is embedded as the code of one worker: what the other workers do to the
shared state while it runs is part of the state the collaborator operations hand back.
`try_pop` takes the front of the queue. Counters of type `uint32_t` that only count
vertices and moves are natural numbers. -/

/-- A record of a per-thread transposition log. The declaration of
`thread_data_refinement_core` is not among the sources; the shape of the record is the
one of the data model: vertex, block it leaves, block it enters, gain at the time of the
move. The lambda uses the number of records only. -/
structure Transposition where
  vertex : NodeID
  from_block : PartitionID
  to_block : PartitionID
  gain : Int
  deriving DecidableEq

/-- The members of `thread_data_refinement_core` that the lambda reads or writes. -/
structure thread_data where
  start_nodes : List NodeID
  step_limit : Int
  upper_bound_gain_improvement : Int
  transpositions : List Transposition
  min_cut_indices : List (Int × Nat)
  moved : List NodeID
  tried_movements : Nat
  stop_faction_of_nodes_moved : Nat
  deriving DecidableEq

/-- The operations the lambda calls but the sources do not define.

* `number_of_nodes`, `out_edges`: `graph_access`; `out_edges x v` lists the pairs
  (target, weight) of the out-edges of `v` in the order of `forall_out_edges`.
* `reset_thread_data`, `get_local_partition`: `thread_data_refinement_core`.
* `compute_gain td w v from_block`: the value `td.compute_gain(v, from_block, maxgainer,
  extdeg)` leaves in `extdeg`; the lambda never reads `maxgainer` or the returned gain.
* `single_kway_refinement_round id td w`: one speculative chain of thread `id`; it
  returns `(improvement, min_cut_index, tried_movements)` and leaves the thread data and
  the shared state changed. -/
structure WorkerCollaborators (X : Type) where
  number_of_nodes : X → Nat
  out_edges : X → NodeID → List (NodeID × Int)
  reset_thread_data : thread_data → thread_data
  get_local_partition : thread_data → World X → NodeID → PartitionID
  compute_gain : thread_data → World X → NodeID → PartitionID → Int
  single_kway_refinement_round : Nat → thread_data → World X →
    (Int × Int × Nat) × thread_data × World X

/-- The running state of a worker: its thread data, the shared world, the local
`nodes_processed` (a `uint32_t`), and the number of lines `buf error improvement < 0` it has printed
(kept for the statements only). -/
structure WorkerState (X : Type) where
  td : thread_data
  world : World X
  nodes_processed : Nat
  buf_errors : Nat

/-- The state in which a worker task ends; `outcome` holds the returned
`nodes_processed`. -/
structure TaskRun (X : Type) where
  outcome : Outcome Nat
  state : WorkerState X

/-- Lines 153 to 160: one out-edge of the seed. The gain of `target` is computed with
`from_block`, the block of the seed. -/
def visit_neighbor {X : Type} (ops : WorkerCollaborators X) (from_block : PartitionID)
    (w : World X) (td : thread_data) (target : NodeID) : thread_data :=
  if w.m_moved_idx target = false then
    if 0 < ops.compute_gain td w target from_block then
      { td with start_nodes := td.start_nodes ++ [target] }
    else td
  else td

/-- Lines 147 to 162: the start set of the seed `node`, whose block is `from_block`. -/
def build_start_nodes {X : Type} (ops : WorkerCollaborators X) (init_neighbors : Bool)
    (node : NodeID) (from_block : PartitionID) (td : thread_data) (w : World X) :
    thread_data :=
  if init_neighbors then
    ((ops.out_edges w.ext node).map Prod.fst).foldl (visit_neighbor ops from_block w)
      { td with start_nodes := [node] }
  else { td with start_nodes := [node] }

/-- Lines 141 to 182: the handling of one popped seed by thread `id`. `none` when
`ALWAYS_ASSERT(td.transpositions.size() > 0)` fails. -/
def handle_seed {X : Type} (ops : WorkerCollaborators X) (id : Nat) (init_neighbors : Bool)
    (node : NodeID) (st : WorkerState X) : Option (WorkerState X) :=
  let from_block := ops.get_local_partition st.td st.world node
  let extdeg := ops.compute_gain st.td st.world node from_block
  if st.world.m_moved_idx node = false ∧ 0 < extdeg then
    let td1 := build_start_nodes ops init_neighbors node from_block st.td st.world
    let nodes_processed1 := (st.nodes_processed + td1.start_nodes.length) % 4294967296
    let chain := ops.single_kway_refinement_round id td1 st.world
    let improvement := chain.1.1
    let min_cut_index := chain.1.2.1
    let tried_movements := chain.1.2.2
    let td2 := chain.2.1
    let w2 := chain.2.2
    let buf_errors1 := if improvement < 0 then st.buf_errors + 1 else st.buf_errors
    let td3 := { td2 with
      upper_bound_gain_improvement := td2.upper_bound_gain_improvement + improvement }
    if 0 < td3.transpositions.length then
      let td4 := { td3 with
        min_cut_indices := td3.min_cut_indices ++
          [(min_cut_index, td3.transpositions.length - 1)] }
      let w3 := { w2 with
        m_moved_count :=
          Function.update w2.m_moved_count id (w2.m_moved_count id + td4.moved.length) }
      let td5 := { td4 with tried_movements := td4.tried_movements + tried_movements }
      some ⟨td5, w3, nodes_processed1, buf_errors1⟩
    else none
  else some st

/-- The condition of line 146 for the seed `node`: it is not claimed and `compute_gain`,
called with its block in the local view, leaves a positive `extdeg`. -/
def starts_chain {X : Type} (ops : WorkerCollaborators X) (node : NodeID)
    (st : WorkerState X) : Prop :=
  st.world.m_moved_idx node = false ∧
    0 < ops.compute_gain st.td st.world node (ops.get_local_partition st.td st.world node)

/-- The thread data with the start set of the seed `node` (lines 147 to 162). -/
def seed_start_nodes {X : Type} (ops : WorkerCollaborators X) (init_neighbors : Bool)
    (node : NodeID) (st : WorkerState X) : thread_data :=
  build_start_nodes ops init_neighbors node (ops.get_local_partition st.td st.world node)
    st.td st.world

/-- What the chain started from the seed `node` hands back (lines 170 and 171). -/
def seed_chain {X : Type} (ops : WorkerCollaborators X) (id : Nat) (init_neighbors : Bool)
    (node : NodeID) (st : WorkerState X) : (Int × Int × Nat) × thread_data × World X :=
  ops.single_kway_refinement_round id (seed_start_nodes ops init_neighbors node st) st.world

/-- Lines 184 to 188: the sum of the move-counters of all threads, added up in the `int`
local `overall_movement`. -/
def overall_movement {X : Type} (num_threads : Nat) (w : World X) : Int :=
  for_range num_threads (fun id acc => int_add acc (w.m_moved_count id)) 0

/-- The `double` nearest to `0.05` is `double_0_05 / 2 ^ 56`
(bit pattern `0x3FA999999999999A`). -/
def double_0_05 : Nat := 3602879701896397

/-- The number of binary digits of a natural number. -/
def bit_length_aux : Nat → Nat → Nat
  | 0, _ => 0
  | fuel + 1, n => if n = 0 then 0 else bit_length_aux fuel (n / 2) + 1

/-- The number of binary digits of `n`. -/
def bit_length (n : Nat) : Nat := bit_length_aux n n

/-- The multiple of `u` nearest to `n`, divided by `u`; of two nearest ones, the even
one (round to nearest, ties to even). -/
def round_half_even (n u : Nat) : Nat :=
  if 2 * (n % u) < u then n / u
  else if u < 2 * (n % u) then n / u + 1
  else if (n / u) % 2 = 0 then n / u
  else n / u + 1

/-- The `double` product `0.05 * n` of line 190, as a numerator over `2 ^ 56`: the exact
product of the two doubles, rounded to 53 significant bits (IEEE 754 binary64, round to
nearest, ties to even; `n` is converted to `double` without error). -/
def double_mul_0_05 (n : Nat) : Nat :=
  round_half_even (double_0_05 * n) (2 ^ (bit_length (double_0_05 * n) - 53))
    * 2 ^ (bit_length (double_0_05 * n) - 53)

/-- The test of line 190, `overall_movement > 0.05 * G.number_of_nodes()`: the `int` is
converted to `double` without error and compared with the `double` product. -/
def exceeds_fraction (movement : Int) (number_of_nodes : Nat) : Bool :=
  decide ((double_mul_0_05 number_of_nodes : Int) < movement * 72057594037927936)

/-- Lines 192 and 193: the early return. -/
def stop_early {X : Type} (st : WorkerState X) : TaskRun X :=
  ⟨Outcome.returned st.nodes_processed,
    { st with
      td := { st.td with
        stop_faction_of_nodes_moved := st.td.stop_faction_of_nodes_moved + 1 } }⟩

/-- The loop `while (m_factory.queue.try_pop(node))` of lines 140 to 195 and the return
of line 198. The first argument is the fuel: the number of seeds the run may pop. -/
def task_loop {X : Type} (ops : WorkerCollaborators X) (id : Nat) (init_neighbors : Bool)
    (num_threads : Nat) : Nat → WorkerState X → TaskRun X
  | 0, st =>
    match st.world.queue with
    | [] => ⟨Outcome.returned st.nodes_processed, st⟩
    | _ :: _ => ⟨Outcome.out_of_fuel, st⟩
  | fuel + 1, st =>
    match st.world.queue with
    | [] => ⟨Outcome.returned st.nodes_processed, st⟩
    | node :: rest =>
      match handle_seed ops id init_neighbors node
          { st with world := { st.world with queue := rest } } with
      | none =>
        ⟨Outcome.aborted Assertion.transpositions_nonempty,
          { st with world := { st.world with queue := rest } }⟩
      | some st1 =>
        if exceeds_fraction (overall_movement num_threads st1.world)
            (ops.number_of_nodes st1.world.ext) then
          stop_early st1
        else task_loop ops id init_neighbors num_threads fuel st1

/-- The lambda `task` of lines 131 to 199, run by thread `id` on its thread data `td`. -/
def task {X : Type} (ops : WorkerCollaborators X) (id : Nat) (init_neighbors : Bool)
    (num_threads : Nat) (local_step_limit : Int) (fuel : Nat) (td : thread_data)
    (w : World X) : TaskRun X :=
  task_loop ops id init_neighbors num_threads fuel
    ⟨{ ops.reset_thread_data td with step_limit := local_step_limit }, w, 0, 0⟩

/-- Modelled from the spec: the value that `compute_gain(v, from, &best_target, &extdeg)`
of the missing `thread_data_refinement_core` leaves in `extdeg`, namely `Σ_{b≠from}
ext(v,b)`: the sum of the weights of the out-edges `edges` of `v` whose target is, in the
local view `local_block`, in a block other than `from_block`. -/
def spec_extdeg (edges : List (NodeID × Int)) (local_block : NodeID → PartitionID)
    (from_block : PartitionID) : Int :=
  ((edges.filter fun e => local_block e.1 ≠ from_block).map Prod.snd).sum

/-- The start set in the words of the specification: the seed, followed (when
`init_neighbors`) by the out-neighbours of the seed, in edge order, that are not claimed
and are boundary vertices, i.e. have a positive external degree with respect to their own
block in the local view of the worker. -/
def claimed_start_nodes {X : Type} (ops : WorkerCollaborators X) (init_neighbors : Bool)
    (node : NodeID) (td : thread_data) (w : World X) : List NodeID :=
  node ::
    (if init_neighbors then
      ((ops.out_edges w.ext node).map Prod.fst).filter fun n =>
        w.m_moved_idx n = false ∧
          0 < spec_extdeg (ops.out_edges w.ext n) (ops.get_local_partition td w)
            (ops.get_local_partition td w n)
    else [])

/-! ## The commit pass, from the specification

`kway_graph_refinement_core::apply_moves`, `graph_access` and `complete_boundary` are not
among the sources. The definitions of this section follow the specification: the data
model (§3), the commit pass (§4.5) and the balance constraint of the gain oracle
(§4.3). -/

/-- Modelled from the spec: the authoritative partition state of the missing
`graph_access` / `complete_boundary` (§3): the block of every vertex, the sum
`block_weight[b]` of the vertex weights of every block and the number `block_size[b]` of
its vertices. -/
structure SpecPartition where
  block_of : NodeID → PartitionID
  block_weight : PartitionID → Int
  block_size : PartitionID → Nat

/-- Modelled from the spec: the read-only data the missing commit pass works with: the
vertex weights, the limit `Lmax` of the balance constraint, and the gain oracle over the
authoritative state, which gives the best target block and the gain of a vertex. -/
structure SpecGraph where
  vertex_weight : NodeID → Nat
  Lmax : Int
  recompute : SpecPartition → NodeID → PartitionID × Int

/-- Modelled from the spec: what a worker hands to the missing commit pass (§3): its
transposition log and its min-cut indices, one pair `(prefix, last_index)` for each
completed chain. -/
structure SpecWorkerLog where
  transpositions : List Transposition
  min_cut_indices : List (Int × Nat)

/-- Modelled from the spec: the running state of the missing commit pass (§4.5): the
authoritative partition, the vertices committed in this pass, the running real gain, the
number of accepted moves, the reactivated vertices and `touched_blocks`. -/
structure SpecCommit where
  partition : SpecPartition
  committed : List NodeID
  real_gain : Int
  moves : Nat
  reactivated : List NodeID
  touched_blocks : TouchedBlocks

/-- Modelled from the spec: the application of an accepted move to the authoritative
state (§4.5, step 2b, of the missing `apply_moves`): the vertex changes its block, its
weight leaves the block weight of its block and enters the one of the target. -/
def spec_move (g : SpecGraph) (p : SpecPartition) (v : NodeID) (target : PartitionID) :
    SpecPartition :=
  { block_of := Function.update p.block_of v target
    block_weight :=
      Function.update
        (Function.update p.block_weight (p.block_of v)
          (p.block_weight (p.block_of v) - g.vertex_weight v))
        target
        (Function.update p.block_weight (p.block_of v)
          (p.block_weight (p.block_of v) - g.vertex_weight v) target + g.vertex_weight v)
    block_size :=
      Function.update
        (Function.update p.block_size (p.block_of v) (p.block_size (p.block_of v) - 1))
        target
        (Function.update p.block_size (p.block_of v) (p.block_size (p.block_of v) - 1) target
          + 1) }

/-- Modelled from the spec: the condition of §4.5, step 2b, of the missing `apply_moves`
for the record `r`: the recomputed target is still `r.to_block`, the balance constraint
`block_weight[to] + vertex_weight[v] ≤ Lmax` holds, and the vertex was not committed
before in this pass. -/
def spec_accepts (g : SpecGraph) (st : SpecCommit) (r : Transposition) : Prop :=
  (g.recompute st.partition r.vertex).1 = r.to_block ∧
    st.partition.block_weight r.to_block + g.vertex_weight r.vertex ≤ g.Lmax ∧
    r.vertex ∉ st.committed

instance (g : SpecGraph) (st : SpecCommit) (r : Transposition) :
    Decidable (spec_accepts g st r) := by
  unfold spec_accepts
  exact inferInstance

/-- Modelled from the spec: §4.5, step 2, of the missing `apply_moves` for one record of
a committed prefix: accept (apply the move, add the recomputed gain) or reject (the
vertex is reactivated). -/
def spec_commit_record (g : SpecGraph) (compute_touched_blocks : Bool) (st : SpecCommit)
    (r : Transposition) : SpecCommit :=
  if spec_accepts g st r then
    { partition := spec_move g st.partition r.vertex r.to_block
      committed := r.vertex :: st.committed
      real_gain := st.real_gain + (g.recompute st.partition r.vertex).2
      moves := st.moves + 1
      reactivated := st.reactivated
      touched_blocks :=
        if compute_touched_blocks then
          st.touched_blocks ++ [(st.partition.block_of r.vertex, r.to_block)]
        else st.touched_blocks }
  else { st with reactivated := st.reactivated ++ [r.vertex] }

/-- Modelled from the spec: §4.5, steps 1 to 3, of the missing `apply_moves` for one
chain of a worker: the records `[chain_start, prefix]` of the log are walked in order,
the vertices of the records `(prefix, last_index]` are reactivated; the next chain
starts after `last_index`. -/
def spec_commit_chain (g : SpecGraph) (compute_touched_blocks : Bool)
    (log : List Transposition) (st : SpecCommit × Nat) (chain : Int × Nat) :
    SpecCommit × Nat :=
  ({ ((log.drop st.2).take (chain.1 + 1 - st.2).toNat).foldl
        (spec_commit_record g compute_touched_blocks) st.1 with
      reactivated :=
        (((log.drop st.2).take (chain.1 + 1 - st.2).toNat).foldl
          (spec_commit_record g compute_touched_blocks) st.1).reactivated ++
        ((log.drop (max st.2 (chain.1 + 1).toNat)).take
          (chain.2 + 1 - max st.2 (chain.1 + 1).toNat)).map Transposition.vertex },
    chain.2 + 1)

/-- Modelled from the spec: the missing `apply_moves` for one worker: its chains in the
order they were produced. -/
def spec_commit_worker (g : SpecGraph) (compute_touched_blocks : Bool) (st : SpecCommit)
    (worker : SpecWorkerLog) : SpecCommit :=
  (worker.min_cut_indices.foldl
    (spec_commit_chain g compute_touched_blocks worker.transpositions) (st, 0)).1

/-- Modelled from the spec: the commit pass §4.5 (the missing
`kway_graph_refinement_core::apply_moves`): the workers in ascending thread id, from the
authoritative partition `p`, with no vertex committed yet. -/
def spec_apply_moves (g : SpecGraph) (compute_touched_blocks : Bool)
    (touched_blocks : TouchedBlocks) (logs : List SpecWorkerLog) (p : SpecPartition) :
    SpecCommit :=
  logs.foldl (spec_commit_worker g compute_touched_blocks) ⟨p, [], 0, 0, [], touched_blocks⟩

/-- Modelled from the spec: the state of the missing collaborators: the authoritative
partition and the logs of the workers, by thread id. -/
structure SpecExt where
  partition : SpecPartition
  logs : List SpecWorkerLog

/-- Modelled from the spec: the collaborators with the missing commit pass and the
missing boundary of block weights as the specification has them. The commit pass is
`spec_apply_moves`; the block weights and sizes are those of the authoritative partition;
the workers are those of `base`, kept from writing the authoritative partition (§5: the
authoritative partition is accessed by the commit phase only); every other operation is
the one of `base`. -/
def spec_env {A : Type} (g : SpecGraph) (base : Collaborators A SpecExt) :
    Collaborators A SpecExt :=
  { base with
    getBlockWeight := fun x b => x.partition.block_weight b
    getBlockNoNodes := fun x b => x.partition.block_size b
    run_tasks := fun config init_neighbors w =>
      (base.run_tasks config init_neighbors w).map fun w1 =>
        { w1 with ext := { w1.ext with partition := w.ext.partition } }
    apply_moves := fun _ compute_touched_blocks touched_blocks w =>
      { real_gain_improvement :=
          (spec_apply_moves g compute_touched_blocks touched_blocks w.ext.logs
            w.ext.partition).real_gain
        real_nodes_movement :=
          (spec_apply_moves g compute_touched_blocks touched_blocks w.ext.logs
            w.ext.partition).moves
        reactivated_vertices :=
          (spec_apply_moves g compute_touched_blocks touched_blocks w.ext.logs
            w.ext.partition).reactivated
        touched_blocks :=
          (spec_apply_moves g compute_touched_blocks touched_blocks w.ext.logs
            w.ext.partition).touched_blocks
        world :=
          { w with
            ext := { w.ext with
              partition :=
                (spec_apply_moves g compute_touched_blocks touched_blocks w.ext.logs
                  w.ext.partition).partition } } } }

/-- The block weights of `q` are, block by block, at most those of `p` or at most
`Lmax`: a block within the limit in `p` is within the limit in `q`, and a block over the
limit in `p` is not heavier in `q`. -/
def balance_kept (Lmax : Int) (p q : SpecPartition) : Prop :=
  ∀ b, q.block_weight b ≤ max (p.block_weight b) Lmax

/-! ## Statistics: `thread_data_factory::statistics_type`

The `double` members hold times and averages of times and are left out; `uint32_t` and
`size_t` members are natural numbers with the wrap-around of their additions made
explicit. -/

/-- The sum of two `uint32_t` values. -/
def add_u32 (a b : Nat) : Nat := (a + b) % 4294967296

/-- The sum of two `size_t` values (64 bits). -/
def add_size_t (a b : Nat) : Nat := (a + b) % 18446744073709551616

/-- `statistics_type::proc_stat` (lines 379 to 416), integer members. -/
structure proc_stat where
  proc_id : Nat
  tried_movements : Nat
  accepted_movements : Nat
  scaned_neighbours : Nat
  performed_gain : Int
  unperformed_gain : Int
  stop_empty_queue : Nat
  stop_stopping_rule : Nat
  stop_max_number_of_swaps : Nat
  stop_faction_of_nodes_moved : Nat

/-- A value-initialised `proc_stat`: every member is 0. -/
def proc_stat.zero : proc_stat :=
  ⟨0, 0, 0, 0, 0, 0, 0, 0, 0, 0⟩

/-- `proc_stat::operator+=` (lines 396 to 415). -/
def proc_stat.add_assign (self ps : proc_stat) : proc_stat :=
  { proc_id := ps.proc_id
    tried_movements := add_u32 self.tried_movements ps.tried_movements
    accepted_movements := add_u32 self.accepted_movements ps.accepted_movements
    scaned_neighbours := add_u32 self.scaned_neighbours ps.scaned_neighbours
    performed_gain := int_add self.performed_gain ps.performed_gain
    unperformed_gain := int_add self.unperformed_gain ps.unperformed_gain
    stop_empty_queue := add_u32 self.stop_empty_queue ps.stop_empty_queue
    stop_stopping_rule := add_u32 self.stop_stopping_rule ps.stop_stopping_rule
    stop_max_number_of_swaps := add_u32 self.stop_max_number_of_swaps ps.stop_max_number_of_swaps
    stop_faction_of_nodes_moved :=
      add_u32 self.stop_faction_of_nodes_moved ps.stop_faction_of_nodes_moved }

/-- `statistics_type` (lines 351 to 453), integer members and `proc_stats`. -/
structure statistics_type where
  total_tried_movements : Nat
  total_accepted_movements : Nat
  total_scanned_neighbours : Nat
  total_num_part_accesses : Nat
  total_performed_gain : Int
  total_unperformed_gain : Int
  total_stop_empty_queue : Nat
  total_stop_stopping_rule : Nat
  total_stop_max_number_of_swaps : Nat
  total_stop_faction_of_nodes_moved : Nat
  proc_stats : List proc_stat

/-- A default-constructed `statistics_type`: every member is 0, no `proc_stats`. -/
def statistics_type.zero : statistics_type :=
  ⟨0, 0, 0, 0, 0, 0, 0, 0, 0, 0, []⟩

/-- `statistics_type::operator+=` (lines 420 to 452): the totals are added, then
`ALWAYS_ASSERT(proc_stats.size() == stat.proc_stats.size())` (`none` when it fails), then
the per-thread records are added index by index. -/
def statistics_type.add_assign (self stat : statistics_type) : Option statistics_type :=
  if self.proc_stats.length = stat.proc_stats.length then
    some
      { total_tried_movements := add_u32 self.total_tried_movements stat.total_tried_movements
        total_accepted_movements :=
          add_u32 self.total_accepted_movements stat.total_accepted_movements
        total_scanned_neighbours :=
          add_u32 self.total_scanned_neighbours stat.total_scanned_neighbours
        total_num_part_accesses :=
          add_size_t self.total_num_part_accesses stat.total_num_part_accesses
        total_performed_gain := int_add self.total_performed_gain stat.total_performed_gain
        total_unperformed_gain :=
          int_add self.total_unperformed_gain stat.total_unperformed_gain
        total_stop_empty_queue := add_u32 self.total_stop_empty_queue stat.total_stop_empty_queue
        total_stop_stopping_rule :=
          add_u32 self.total_stop_stopping_rule stat.total_stop_stopping_rule
        total_stop_max_number_of_swaps :=
          add_u32 self.total_stop_max_number_of_swaps stat.total_stop_max_number_of_swaps
        total_stop_faction_of_nodes_moved :=
          add_u32 self.total_stop_faction_of_nodes_moved stat.total_stop_faction_of_nodes_moved
        proc_stats := List.zipWith proc_stat.add_assign self.proc_stats stat.proc_stats }
  else none

/-- The loop `for (auto& st : m_statistics) stat += st;` (lines 245 to 247). -/
def accumulate_statistics : statistics_type → List statistics_type → Option statistics_type
  | stat, [] => some stat
  | stat, st :: rest =>
    match stat.add_assign st with
    | none => none
    | some stat1 => accumulate_statistics stat1 rest

/-- `thread_data_factory::get_performed_gain` (lines 237 to 250) on the static vector
`m_statistics`. -/
def get_performed_gain (m_statistics : List statistics_type) : Outcome Int :=
  match m_statistics with
  | [] => Outcome.returned 0
  | front :: _ =>
    match accumulate_statistics
        { statistics_type.zero with
          proc_stats := List.replicate front.proc_stats.length proc_stat.zero }
        m_statistics with
    | none => Outcome.aborted Assertion.proc_stats_same_size
    | some stat => Outcome.returned stat.total_performed_gain

/-- The counters of a `thread_data_refinement_core` that `print_iteration_statistics`
reads. -/
structure thread_counters where
  tried_movements : Nat
  accepted_movements : Nat
  scaned_neighbours : Nat
  performed_gain : Int
  unperformed_gain : Int
  stop_empty_queue : Nat
  stop_stopping_rule : Nat
  stop_max_number_of_swaps : Nat
  stop_faction_of_nodes_moved : Nat
  num_part_accesses : Nat

/-- One iteration of the loop of `print_iteration_statistics` (lines 146 to 198): the
totals take the counters of thread `id`, and a `proc_stat` for the thread is pushed (its
stop counters stay 0: the source does not set them). The totals are written into `stat`
after the loop (lines 200 to 210); here they are kept in `stat` all along. -/
def record_thread (m_thread_data : Nat → thread_counters) (id : Nat)
    (stat : statistics_type) : statistics_type :=
  { total_tried_movements :=
      add_u32 stat.total_tried_movements (m_thread_data id).tried_movements
    total_accepted_movements :=
      add_u32 stat.total_accepted_movements (m_thread_data id).accepted_movements
    total_scanned_neighbours :=
      add_u32 stat.total_scanned_neighbours (m_thread_data id).scaned_neighbours
    total_num_part_accesses :=
      add_size_t stat.total_num_part_accesses (m_thread_data id).num_part_accesses
    total_performed_gain := int_add stat.total_performed_gain (m_thread_data id).performed_gain
    total_unperformed_gain :=
      int_add stat.total_unperformed_gain (m_thread_data id).unperformed_gain
    total_stop_empty_queue :=
      add_u32 stat.total_stop_empty_queue (m_thread_data id).stop_empty_queue
    total_stop_stopping_rule :=
      add_u32 stat.total_stop_stopping_rule (m_thread_data id).stop_stopping_rule
    total_stop_max_number_of_swaps :=
      add_u32 stat.total_stop_max_number_of_swaps (m_thread_data id).stop_max_number_of_swaps
    total_stop_faction_of_nodes_moved :=
      add_u32 stat.total_stop_faction_of_nodes_moved
        (m_thread_data id).stop_faction_of_nodes_moved
    proc_stats := stat.proc_stats ++
      [{ proc_stat.zero with
         proc_id := id
         tried_movements := (m_thread_data id).tried_movements
         accepted_movements := (m_thread_data id).accepted_movements
         scaned_neighbours := (m_thread_data id).scaned_neighbours
         performed_gain := (m_thread_data id).performed_gain
         unperformed_gain := (m_thread_data id).unperformed_gain }] }

/-- `thread_data_factory::print_iteration_statistics` (lines 104 to 235), without the
output: the entry built from the counters of the threads `0 .. num_threads - 1` is
pushed onto `m_statistics`. -/
def print_iteration_statistics (num_threads : Nat) (m_thread_data : Nat → thread_counters)
    (m_statistics : List statistics_type) : List statistics_type :=
  m_statistics ++ [for_range num_threads (record_thread m_thread_data) statistics_type.zero]

/-! ## Quantities of a run, for the statements -/

/-- The improvement the search of a round returned; 0 when that search did not return. -/
def RoundRecord.improvement {X : Type} (record : RoundRecord X) : Int :=
  match record.search.outcome with
  | Outcome.returned v => v
  | _ => 0

/-- The sum of the improvements returned by the searches of the rounds of `log`. -/
def sum_improvements {X : Type} (log : List (RoundRecord X)) : Int :=
  (log.map RoundRecord.improvement).sum

/-- The sum of the real gains of every commit pass of every round of `log`. -/
def sum_real_gains {X : Type} (log : List (RoundRecord X)) : Int :=
  (log.map fun record => record.search.real_gains.sum).sum

/-- The search of the round returned a non-zero improvement. -/
def made_progress {X : Type} (record : RoundRecord X) : Prop :=
  ∃ v, record.search.outcome = Outcome.returned v ∧ v ≠ 0

/-! ## A concrete instance

The path `0 – 1 – 2 – 3` with unit edge weights and two blocks; the state of the
collaborators is the block of each vertex. The instance is used to run the definitions
on concrete inputs. -/

/-- The edge cut of the path `0 – 1 – 2 – 3` under the block assignment `blocks`. -/
def path_cut (blocks : List PartitionID) : Int :=
  (if blocks.getD 0 0 = blocks.getD 1 0 then 0 else 1) +
  (if blocks.getD 1 0 = blocks.getD 2 0 then 0 else 1) +
  (if blocks.getD 2 0 = blocks.getD 3 0 then 0 else 1)

/-- The vertices of the path that have a neighbour in another block. -/
def path_boundary (blocks : List PartitionID) : List NodeID :=
  (List.range 4).filter fun v =>
    (decide (0 < v) && decide (blocks.getD (v - 1) 0 ≠ blocks.getD v 0)) ||
    (decide (v < 3) && decide (blocks.getD (v + 1) 0 ≠ blocks.getD v 0))

/-- The candidate of the commit pass of the instance: the blocks of the vertices 1 and 2
exchanged. -/
def path_exchange (blocks : List PartitionID) : List PartitionID :=
  (blocks.set 1 (blocks.getD 2 0)).set 2 (blocks.getD 1 0)

/-- The commit pass of the instance: the exchange is applied when it lowers the cut, and
the real gain is the decrease of the cut; no vertex is reactivated. -/
def path_apply_moves (touched_blocks : TouchedBlocks) (w : World (List PartitionID)) :
    CommitResult (List PartitionID) :=
  if path_cut (path_exchange w.ext) < path_cut w.ext then
    { real_gain_improvement := path_cut w.ext - path_cut (path_exchange w.ext)
      real_nodes_movement := 2
      reactivated_vertices := []
      touched_blocks := touched_blocks
      world := { w with ext := path_exchange w.ext } }
  else
    { real_gain_improvement := 0
      real_nodes_movement := 0
      reactivated_vertices := []
      touched_blocks := touched_blocks
      world := w }

/-- The collaborators of the instance: the workers consume every seed, the `k`-th random
index is the lower bound, and the block weights are the numbers of vertices. -/
def path_env : Collaborators Nat (List PartitionID) where
  alpha_to_unsigned := id
  alpha_of_unsigned := id
  assert_true_active := true
  get_partition_count := fun _ => 2
  getBlockWeight := fun blocks b => (blocks.count b : Int)
  getBlockNoNodes := fun blocks b => blocks.count b
  setup_start_nodes_all := path_boundary
  setup_start_nodes_around_blocks := fun blocks lhs rhs =>
    (path_boundary blocks).filter fun v => blocks.getD v 0 = lhs || blocks.getD v 0 = rhs
  nextInt := fun _ lb _ => lb
  run_tasks := fun _ _ w => some { w with queue := [] }
  upper_bound_gain_improvement := fun _ _ => 0
  apply_moves := fun _ _ touched_blocks w => path_apply_moves touched_blocks w

/-- A configuration of the instance: one thread, five rounds around parts, a stop rule
other than the adaptive one, `alpha = 7`. -/
def path_config : PartitionConfig Nat :=
  { num_threads := 1
    local_multitry_rounds := 5
    kway_stop_rule := KWayStopRule.other 0
    kway_adaptive_limits_alpha := 7 }

/-- The configuration of the instance with no round allowed around parts. -/
def path_config_no_rounds : PartitionConfig Nat :=
  { path_config with local_multitry_rounds := 0 }

/-- The world of the instance with the block assignment `blocks`: empty queue, no vertex
claimed, every counter zero. -/
def path_world (blocks : List PartitionID) : World (List PartitionID) :=
  { ext := blocks
    queue := []
    m_moved_idx := fun _ => false
    m_parts_weights := fun _ => 0
    m_parts_sizes := fun _ => 0
    m_moved_count := fun _ => 0
    m_reset_counter := 0
    m_time_stamp := 0
    num_threads_finished := 0
    random_draws := 0 }

/-- The world of the instance as a parallel phase can leave it: a worker has claimed
vertex 1, every thread has counted 3 moves, the tentative block weights and sizes are
stale, and vertex 2 is still queued. -/
def path_world_claimed (blocks : List PartitionID) : World (List PartitionID) :=
  { path_world blocks with
    m_moved_idx := fun v => decide (v = 1)
    m_moved_count := fun _ => 3
    m_parts_weights := fun _ => 9
    m_parts_sizes := fun _ => 9
    queue := [2] }

/-- The instance with a commit pass that returns the real gain `-1`. -/
def losing_env : Collaborators Nat (List PartitionID) :=
  { path_env with apply_moves := fun _ _ touched_blocks w => ⟨-1, 1, [], touched_blocks, w⟩ }

/-- The instance with workers that consume one seed and leave the others in the queue,
and a commit pass that returns the real gain 0, accepts no move and reactivates the
vertices 3, 0 and 3. -/
def requeue_env : Collaborators Nat (List PartitionID) :=
  { path_env with
    run_tasks := fun _ _ w => some { w with queue := w.queue.drop 1 }
    apply_moves := fun _ _ touched_blocks w => ⟨0, 0, [3, 0, 3], touched_blocks, w⟩ }

/-- The world of the instance with the seeds `[1, 2]` in the queue. -/
def path_world_seeded (blocks : List PartitionID) : World (List PartitionID) :=
  { path_world blocks with queue := [1, 2] }

/-- The counters of the two threads of the statistics example: thread 0 performed the
gain 5, thread 1 the gain -2. -/
def example_counters (id : Nat) : thread_counters :=
  if id = 0 then ⟨10, 4, 30, 5, 1, 0, 0, 0, 0, 7⟩ else ⟨8, 3, 20, -2, 0, 0, 0, 0, 0, 9⟩

/-- The statistics vector of the example after two `print_iteration_statistics` with two
threads. -/
def example_statistics : List statistics_type :=
  print_iteration_statistics 2 example_counters
    (print_iteration_statistics 2 example_counters [])

/-! ## A concrete instance with one worker

The path `0 – 1 – 2 – 3` again; the state of the collaborators is the block of each
vertex and the thread data of the only thread. -/

/-- The state of the collaborators of the one-worker instance. -/
structure PathState where
  blocks : List PartitionID
  td : thread_data

/-- The out-edges of the path `0 – 1 – 2 – 3`, unit weights. -/
def path_edges (v : NodeID) : List (NodeID × Int) :=
  if v = 0 then [(1, 1)]
  else if v = 1 then [(0, 1), (2, 1)]
  else if v = 2 then [(1, 1), (3, 1)]
  else if v = 3 then [(2, 1)]
  else []

/-- The chain of the instance: every start node that is not claimed is claimed and
logged as moved to the other block; the chain reports an improvement of `-1` for each of
these moves, the index before its first record as min-cut index, and as many tried
movements as start nodes. -/
def path_chain (_id : Nat) (td : thread_data) (w : World PathState) :
    (Int × Int × Nat) × thread_data × World PathState :=
  ((-((td.start_nodes.filter fun v => w.m_moved_idx v = false).length : Int),
      (td.transpositions.length : Int) - 1,
      td.start_nodes.length),
    { td with
      transpositions := td.transpositions ++
        (td.start_nodes.filter fun v => w.m_moved_idx v = false).map fun v =>
          ⟨v, w.ext.blocks.getD v 0, 1 - w.ext.blocks.getD v 0, -1⟩
      moved := td.start_nodes.filter fun v => w.m_moved_idx v = false },
    { w with
      m_moved_idx := fun v =>
        w.m_moved_idx v || (td.start_nodes.filter fun u => w.m_moved_idx u = false).contains v })

/-- The operations of the worker of the instance: the local view is the shared
partition, the gain oracle is the one modelled from the specification, and
`reset_thread_data` clears the start nodes, the log, the min-cut indices and the moved
vertices. -/
def path_worker : WorkerCollaborators PathState where
  number_of_nodes := fun _ => 4
  out_edges := fun _ v => path_edges v
  reset_thread_data := fun td =>
    { td with start_nodes := [], transpositions := [], min_cut_indices := [], moved := [] }
  get_local_partition := fun _ w v => w.ext.blocks.getD v 0
  compute_gain := fun _ w v from_block =>
    spec_extdeg (path_edges v) (fun u => w.ext.blocks.getD u 0) from_block
  single_kway_refinement_round := path_chain

/-- Thread data with empty vectors and counters at 0. -/
def thread_data.zero : thread_data :=
  ⟨[], 0, 0, [], [], [], 0, 0⟩

/-- The world of the one-worker instance with the block assignment `blocks` and the
seeds `seeds` in the queue. -/
def worker_world (blocks : List PartitionID) (seeds : List NodeID) : World PathState :=
  { ext := ⟨blocks, thread_data.zero⟩
    queue := seeds
    m_moved_idx := fun _ => false
    m_parts_weights := fun _ => 0
    m_parts_sizes := fun _ => 0
    m_moved_count := fun _ => 0
    m_reset_counter := 0
    m_time_stamp := 0
    num_threads_finished := 0
    random_draws := 0 }

/-- The parallel phase of the one-worker instance: `task(0)` on the thread data of
thread 0, with `local_step_limit = 50`; the fuel is the length of the queue, which the
chain of the instance does not extend. -/
def worker_phase (config : PartitionConfig Nat) (init_neighbors : Bool)
    (w : World PathState) : Option (World PathState) :=
  match (task path_worker 0 init_neighbors config.num_threads 50 w.queue.length w.ext.td w)
      with
  | ⟨Outcome.aborted _, _⟩ => none
  | ⟨_, st⟩ => some { st.world with ext := { st.world.ext with td := st.td } }

/-- The collaborators of the one-worker instance: the boundary and the commit pass of
`path_env` on the blocks, and the worker task as the parallel phase. -/
def worker_env : Collaborators Nat PathState where
  alpha_to_unsigned := id
  alpha_of_unsigned := id
  assert_true_active := true
  get_partition_count := fun _ => 2
  getBlockWeight := fun x b => (x.blocks.count b : Int)
  getBlockNoNodes := fun x b => x.blocks.count b
  setup_start_nodes_all := fun x => path_boundary x.blocks
  setup_start_nodes_around_blocks := fun x lhs rhs =>
    (path_boundary x.blocks).filter fun v => x.blocks.getD v 0 = lhs || x.blocks.getD v 0 = rhs
  nextInt := fun _ lb _ => lb
  run_tasks := worker_phase
  upper_bound_gain_improvement := fun x id =>
    if id = 0 then x.td.upper_bound_gain_improvement else 0
  apply_moves := fun _ _ touched_blocks w =>
    if path_cut (path_exchange w.ext.blocks) < path_cut w.ext.blocks then
      { real_gain_improvement := path_cut w.ext.blocks - path_cut (path_exchange w.ext.blocks)
        real_nodes_movement := 2
        reactivated_vertices := []
        touched_blocks := touched_blocks
        world := { w with ext := { w.ext with blocks := path_exchange w.ext.blocks } } }
    else
      { real_gain_improvement := 0
        real_nodes_movement := 0
        reactivated_vertices := []
        touched_blocks := touched_blocks
        world := w }

/-- The one-worker instance with a commit pass that rejects every logged move: it
returns the real gain 0, accepts no move and reactivates the vertices of the worker's
transposition log. -/
def reject_env : Collaborators Nat PathState :=
  { worker_env with
    apply_moves := fun _ _ touched_blocks w =>
      ⟨0, 0, w.ext.td.transpositions.map Transposition.vertex, touched_blocks, w⟩ }

/-! ## An instance with the commit pass of the specification

The path `0 – 1 – 2 – 3` with unit vertex and edge weights and two blocks, with the commit
pass `spec_apply_moves`. A worker logs, for every seed, the move to the other block when it
lowers the cut and the target has room; the gain oracle of the commit pass gives the other
block when the move lowers the cut of the authoritative partition. -/

/-- The blocks of the four vertices of the path in the partition `p`. -/
def spec_path_blocks (p : SpecPartition) : List PartitionID :=
  [p.block_of 0, p.block_of 1, p.block_of 2, p.block_of 3]

/-- The decrease of the cut of the path when the vertex `v` moves to the other block. -/
def spec_path_gain (p : SpecPartition) (v : NodeID) : Int :=
  path_cut (spec_path_blocks p) - path_cut ((spec_path_blocks p).set v (1 - p.block_of v))

/-- The graph data of the instance with the limit `Lmax`. -/
def spec_path_graph (Lmax : Int) : SpecGraph :=
  { vertex_weight := fun _ => 1
    Lmax := Lmax
    recompute := fun p v =>
      if 0 < spec_path_gain p v then (1 - p.block_of v, spec_path_gain p v)
      else (p.block_of v, 0) }

/-- The log of the worker of the instance for the seeds `queue`: one chain, every record
of which is in the prefix to commit. -/
def spec_path_log (Lmax : Int) (p : SpecPartition) (queue : List NodeID) : SpecWorkerLog :=
  { transpositions :=
      queue.filterMap fun v =>
        if 0 < spec_path_gain p v ∧ p.block_weight (1 - p.block_of v) + 1 ≤ Lmax then
          some ⟨v, p.block_of v, 1 - p.block_of v, spec_path_gain p v⟩
        else none
    min_cut_indices :=
      if (queue.filterMap fun v =>
          if 0 < spec_path_gain p v ∧ p.block_weight (1 - p.block_of v) + 1 ≤ Lmax then
            some (⟨v, p.block_of v, 1 - p.block_of v, spec_path_gain p v⟩ : Transposition)
          else none).length = 0 then []
      else
        [(((queue.filterMap fun v =>
            if 0 < spec_path_gain p v ∧ p.block_weight (1 - p.block_of v) + 1 ≤ Lmax then
              some (⟨v, p.block_of v, 1 - p.block_of v, spec_path_gain p v⟩ : Transposition)
            else none).length : Int) - 1,
          (queue.filterMap fun v =>
            if 0 < spec_path_gain p v ∧ p.block_weight (1 - p.block_of v) + 1 ≤ Lmax then
              some (⟨v, p.block_of v, 1 - p.block_of v, spec_path_gain p v⟩ : Transposition)
            else none).length - 1)] }

/-- The collaborators of the instance before `spec_env` puts the commit pass and the
block weights of the specification in: one worker, which consumes every seed and leaves
its log; the `k`-th random index is the upper bound. -/
def spec_path_base (Lmax : Int) : Collaborators Nat SpecExt where
  alpha_to_unsigned := id
  alpha_of_unsigned := id
  assert_true_active := true
  get_partition_count := fun _ => 2
  getBlockWeight := fun _ _ => 0
  getBlockNoNodes := fun _ _ => 0
  setup_start_nodes_all := fun x => path_boundary (spec_path_blocks x.partition)
  setup_start_nodes_around_blocks := fun x lhs rhs =>
    (path_boundary (spec_path_blocks x.partition)).filter fun v =>
      x.partition.block_of v = lhs || x.partition.block_of v = rhs
  nextInt := fun _ _ ub => ub
  run_tasks := fun _ _ w =>
    some { w with
      queue := []
      ext := { w.ext with logs := [spec_path_log Lmax w.ext.partition w.queue] } }
  upper_bound_gain_improvement := fun _ _ => 0
  apply_moves := fun _ _ touched_blocks w => ⟨0, 0, [], touched_blocks, w⟩

/-- The partition of the path with the block assignment `blocks`. -/
def spec_path_partition (blocks : List PartitionID) : SpecPartition :=
  { block_of := fun v => blocks.getD v 0
    block_weight := fun b => (blocks.count b : Int)
    block_size := fun b => blocks.count b }

/-- The world of the instance with the block assignment `blocks`: no log, empty queue, no
vertex claimed, every counter zero. -/
def spec_path_world (blocks : List PartitionID) : World SpecExt :=
  { ext := ⟨spec_path_partition blocks, []⟩
    queue := []
    m_moved_idx := fun _ => false
    m_parts_weights := fun _ => 0
    m_parts_sizes := fun _ => 0
    m_moved_count := fun _ => 0
    m_reset_counter := 0
    m_time_stamp := 0
    num_threads_finished := 0
    random_draws := 0 }

/-- The collaborators of the path instance with random indices that vary: the `k`-th
draw from `[lb, ub]` is `(2 * k + 1) % (ub + 1)`. -/
def shuffle_env : Collaborators Nat (List PartitionID) :=
  { path_env with nextInt := fun k _ ub => (2 * k + 1) % (ub + 1) }

/-- A value with a fraction, for a field of a floating type: `whole`, plus one half when
`half` is set. -/
structure Halves where
  whole : Nat
  half : Bool
  deriving DecidableEq

/-- The collaborators of the path instance for a field `kway_adaptive_limits_alpha` with
fractional values: the conversion to `unsigned` drops the fraction, the conversion from
`unsigned` is exact. -/
def halves_env : Collaborators Halves (List PartitionID) where
  alpha_to_unsigned := fun a => a.whole % 4294967296
  alpha_of_unsigned := fun n => ⟨n, false⟩
  assert_true_active := true
  get_partition_count := path_env.get_partition_count
  getBlockWeight := path_env.getBlockWeight
  getBlockNoNodes := path_env.getBlockNoNodes
  setup_start_nodes_all := path_env.setup_start_nodes_all
  setup_start_nodes_around_blocks := path_env.setup_start_nodes_around_blocks
  nextInt := path_env.nextInt
  run_tasks := fun _ _ w => some { w with queue := [] }
  upper_bound_gain_improvement := fun _ _ => 0
  apply_moves := fun _ _ touched_blocks w => path_apply_moves touched_blocks w

/-- The configuration of the instance `halves_env`: as `path_config`, with
`kway_adaptive_limits_alpha = 3/2`. -/
def halves_config : PartitionConfig Halves :=
  { num_threads := 1
    local_multitry_rounds := 5
    kway_stop_rule := KWayStopRule.other 0
    kway_adaptive_limits_alpha := ⟨1, true⟩ }

/-! ## The reset operations -/

theorem for_range_zero {σ : Type} (body : Nat → σ → σ) (s : σ) : for_range 0 body s = s := rfl

theorem for_range_succ {σ : Type} (n : Nat) (body : Nat → σ → σ) (s : σ) :
    for_range (n + 1) body s = body n (for_range n body s) := by
  simp [for_range, List.range_succ, List.foldl_append]

/-- Writing cell `n` after the cells below `n` gives the cells below `n + 1`. -/
theorem update_below {β : Type} (f g : Nat → β) (n : Nat) :
    Function.update (fun b => if b < n then g b else f b) n (g n) =
      fun b => if b < n + 1 then g b else f b := by
  funext b
  by_cases hb : b = n
  · subst hb; simp
  · rw [Function.update_noteq hb]
    by_cases h1 : b < n
    · have h2 : b < n + 1 := by omega
      simp [h1, h2]
    · have h2 : ¬ b < n + 1 := by omega
      simp [h1, h2]

/-- The loop of `partial_reset_global_data` writes the cells below the bound and nothing
else. -/
theorem for_range_store_block {A X : Type} (env : Collaborators A X) (n : Nat) (w : World X) :
    for_range n (store_block env) w =
      { w with
        m_parts_weights := fun b => if b < n then env.getBlockWeight w.ext b else w.m_parts_weights b
        m_parts_sizes := fun b => if b < n then env.getBlockNoNodes w.ext b else w.m_parts_sizes b } := by
  induction n with
  | zero => simp [for_range_zero]
  | succ n ih =>
    rw [for_range_succ, ih]
    simp only [store_block]
    rw [update_below w.m_parts_weights (env.getBlockWeight w.ext) n,
      update_below w.m_parts_sizes (env.getBlockNoNodes w.ext) n]

/-- The first loop of `reset_global_data` writes the counters below the bound and nothing
else. -/
theorem for_range_store_moved_count {X : Type} (n : Nat) (w : World X) :
    for_range n store_moved_count w =
      { w with m_moved_count := fun id => if id < n then 0 else w.m_moved_count id } := by
  induction n with
  | zero => simp [for_range_zero]
  | succ n ih =>
    rw [for_range_succ, ih]
    simp only [store_moved_count]
    rw [update_below w.m_moved_count (fun _ => 0) n]

theorem partial_reset_global_data_eq {A X : Type} (env : Collaborators A X) (w : World X) :
    partial_reset_global_data env w =
      { w with
        m_parts_weights := fun b =>
          if b < env.get_partition_count w.ext then env.getBlockWeight w.ext b
          else w.m_parts_weights b
        m_parts_sizes := fun b =>
          if b < env.get_partition_count w.ext then env.getBlockNoNodes w.ext b
          else w.m_parts_sizes b
        m_reset_counter := 0
        m_time_stamp := 0
        queue := []
        num_threads_finished := 0 } := by
  simp only [partial_reset_global_data, for_range_store_block]

theorem partial_reset_global_data_ext {A X : Type} (env : Collaborators A X) (w : World X) :
    (partial_reset_global_data env w).ext = w.ext := by
  rw [partial_reset_global_data_eq]

theorem reset_global_data_ext {A X : Type} (env : Collaborators A X)
    (config : PartitionConfig A) (w : World X) :
    (reset_global_data env config w).ext = w.ext := by
  rw [reset_global_data, partial_reset_global_data_ext, for_range_store_moved_count]

/-! ## The localized search -/

theorem push_all_ext {X : Type} (vertices : List NodeID) (w : World X) :
    (push_all vertices w).ext = w.ext := by
  induction vertices generalizing w with
  | nil => rfl
  | cons v rest ih => simp only [push_all, List.foldl_cons] at ih ⊢; rw [ih]; rfl

theorem push_all_queue {X : Type} (vertices : List NodeID) (w : World X) :
    (push_all vertices w).queue = w.queue ++ vertices := by
  induction vertices generalizing w with
  | nil => simp [push_all]
  | cons v rest ih =>
    simp only [push_all, List.foldl_cons] at ih ⊢
    rw [ih]; simp [queue_push]

/-- The loop over the parallel phases stops at an empty queue. -/
theorem parallel_phases_empty {A X : Type} (env : Collaborators A X)
    (config : PartitionConfig A) (i c : Bool) (fuel : Nat) (w : World X)
    (tb : TouchedBlocks) (ub total : Int) (gains : List Int)
    (hq : w.queue.isEmpty = true) :
    parallel_phases env config i c fuel w tb ub total gains =
      finish_search w tb ub total gains := by
  cases fuel <;> simp [parallel_phases, hq]

/-- Without fuel a non-empty queue ends the run of the model. -/
theorem parallel_phases_zero {A X : Type} (env : Collaborators A X)
    (config : PartitionConfig A) (i c : Bool) (w : World X)
    (tb : TouchedBlocks) (ub total : Int) (gains : List Int)
    (hq : w.queue.isEmpty = false) :
    parallel_phases env config i c 0 w tb ub total gains =
      ⟨Outcome.out_of_fuel, w, tb, ub, gains⟩ := by
  simp [parallel_phases, hq]

/-- A failed worker assertion ends the run. -/
theorem parallel_phases_tasks_abort {A X : Type} (env : Collaborators A X)
    (config : PartitionConfig A) (i c : Bool) (fuel : Nat) (w : World X)
    (tb : TouchedBlocks) (ub total : Int) (gains : List Int)
    (hq : w.queue.isEmpty = false) (ht : env.run_tasks config i w = none) :
    parallel_phases env config i c (fuel + 1) w tb ub total gains =
      ⟨Outcome.aborted Assertion.transpositions_nonempty, w, tb, ub, gains⟩ := by
  simp [parallel_phases, hq, ht]

/-- One iteration whose commit pass returns a non-negative real gain. -/
theorem parallel_phases_step {A X : Type} (env : Collaborators A X)
    (config : PartitionConfig A) (i c : Bool) (fuel : Nat) (w w1 : World X)
    (tb : TouchedBlocks) (ub total : Int) (gains : List Int)
    (hq : w.queue.isEmpty = false) (ht : env.run_tasks config i w = some w1)
    (hg : 0 ≤ (env.apply_moves config c tb w1).real_gain_improvement) :
    parallel_phases env config i c (fuel + 1) w tb ub total gains =
      parallel_phases env config i c fuel
        (push_all (env.apply_moves config c tb w1).reactivated_vertices
          (partial_reset_global_data env (env.apply_moves config c tb w1).world))
        (env.apply_moves config c tb w1).touched_blocks
        (ub + sum_upper_bounds env config w1.ext)
        (total + (env.apply_moves config c tb w1).real_gain_improvement)
        (gains ++ [(env.apply_moves config c tb w1).real_gain_improvement]) := by
  simp [parallel_phases, hq, ht, hg]

/-- One iteration whose commit pass returns a negative real gain. -/
theorem parallel_phases_step_neg {A X : Type} (env : Collaborators A X)
    (config : PartitionConfig A) (i c : Bool) (fuel : Nat) (w w1 : World X)
    (tb : TouchedBlocks) (ub total : Int) (gains : List Int)
    (hq : w.queue.isEmpty = false) (ht : env.run_tasks config i w = some w1)
    (hg : ¬ 0 ≤ (env.apply_moves config c tb w1).real_gain_improvement) :
    parallel_phases env config i c (fuel + 1) w tb ub total gains =
      ⟨Outcome.aborted Assertion.real_gain_improvement_nonneg,
        push_all (env.apply_moves config c tb w1).reactivated_vertices
          (partial_reset_global_data env (env.apply_moves config c tb w1).world),
        (env.apply_moves config c tb w1).touched_blocks,
        ub + sum_upper_bounds env config w1.ext,
        gains ++ [(env.apply_moves config c tb w1).real_gain_improvement]⟩ := by
  simp [parallel_phases, hq, ht, hg]

/-- Induction along a run of the loop over the parallel phases: a property of the run
holds when it holds for each of the five ways an iteration can go. -/
theorem parallel_phases_cases {A X : Type} (env : Collaborators A X)
    (config : PartitionConfig A) (i c : Bool)
    (motive : Nat → World X → TouchedBlocks → Int → Int → List Int → SearchRun X → Prop)
    (h_empty : ∀ fuel w tb ub total gains, w.queue.isEmpty = true →
      motive fuel w tb ub total gains (finish_search w tb ub total gains))
    (h_zero : ∀ w tb ub total gains, w.queue.isEmpty = false →
      motive 0 w tb ub total gains ⟨Outcome.out_of_fuel, w, tb, ub, gains⟩)
    (h_abort : ∀ fuel w tb ub total gains, w.queue.isEmpty = false →
      env.run_tasks config i w = none →
      motive (fuel + 1) w tb ub total gains
        ⟨Outcome.aborted Assertion.transpositions_nonempty, w, tb, ub, gains⟩)
    (h_step : ∀ fuel w w1 tb ub total gains, w.queue.isEmpty = false →
      env.run_tasks config i w = some w1 →
      0 ≤ (env.apply_moves config c tb w1).real_gain_improvement →
      ∀ r : SearchRun X,
      motive fuel
        (push_all (env.apply_moves config c tb w1).reactivated_vertices
          (partial_reset_global_data env (env.apply_moves config c tb w1).world))
        (env.apply_moves config c tb w1).touched_blocks
        (ub + sum_upper_bounds env config w1.ext)
        (total + (env.apply_moves config c tb w1).real_gain_improvement)
        (gains ++ [(env.apply_moves config c tb w1).real_gain_improvement]) r →
      motive (fuel + 1) w tb ub total gains r)
    (h_neg : ∀ fuel w w1 tb ub total gains, w.queue.isEmpty = false →
      env.run_tasks config i w = some w1 →
      ¬ 0 ≤ (env.apply_moves config c tb w1).real_gain_improvement →
      motive (fuel + 1) w tb ub total gains
        ⟨Outcome.aborted Assertion.real_gain_improvement_nonneg,
          push_all (env.apply_moves config c tb w1).reactivated_vertices
            (partial_reset_global_data env (env.apply_moves config c tb w1).world),
          (env.apply_moves config c tb w1).touched_blocks,
          ub + sum_upper_bounds env config w1.ext,
          gains ++ [(env.apply_moves config c tb w1).real_gain_improvement]⟩) :
    ∀ fuel w tb ub total gains,
      motive fuel w tb ub total gains
        (parallel_phases env config i c fuel w tb ub total gains) := by
  intro fuel
  induction fuel with
  | zero =>
    intro w tb ub total gains
    cases hq : w.queue.isEmpty
    · rw [parallel_phases_zero env config i c w tb ub total gains hq]
      exact h_zero w tb ub total gains hq
    · rw [parallel_phases_empty env config i c 0 w tb ub total gains hq]
      exact h_empty 0 w tb ub total gains hq
  | succ fuel ih =>
    intro w tb ub total gains
    cases hq : w.queue.isEmpty
    · cases ht : env.run_tasks config i w with
      | none =>
        rw [parallel_phases_tasks_abort env config i c fuel w tb ub total gains hq ht]
        exact h_abort fuel w tb ub total gains hq ht
      | some w1 =>
        by_cases hg : 0 ≤ (env.apply_moves config c tb w1).real_gain_improvement
        · rw [parallel_phases_step env config i c fuel w w1 tb ub total gains hq ht hg]
          exact h_step fuel w w1 tb ub total gains hq ht hg _ (ih _ _ _ _ _)
        · rw [parallel_phases_step_neg env config i c fuel w w1 tb ub total gains hq ht hg]
          exact h_neg fuel w w1 tb ub total gains hq ht hg
    · rw [parallel_phases_empty env config i c (fuel + 1) w tb ub total gains hq]
      exact h_empty (fuel + 1) w tb ub total gains hq

/-- The gains recorded before a run of the loop stay in its record. -/
theorem parallel_phases_gains_mem {A X : Type} (env : Collaborators A X)
    (config : PartitionConfig A) (i c : Bool) (fuel : Nat) (w : World X)
    (tb : TouchedBlocks) (ub total : Int) (gains : List Int) :
    ∀ g ∈ gains, g ∈ (parallel_phases env config i c fuel w tb ub total gains).real_gains := by
  refine parallel_phases_cases env config i c
    (fun _ _ _ _ _ gains r => ∀ g ∈ gains, g ∈ r.real_gains) ?_ ?_ ?_ ?_ ?_
    fuel w tb ub total gains
  · intro fuel w tb ub total gains _ g hg; exact hg
  · intro w tb ub total gains _ g hg; exact hg
  · intro fuel w tb ub total gains _ _ g hg; exact hg
  · intro fuel w w1 tb ub total gains _ _ _ r ih g hg
    exact ih g (List.mem_append_left _ hg)
  · intro fuel w w1 tb ub total gains _ _ _ g hg
    exact List.mem_append_left _ hg

/-- A run of the loop that returns, returns the total on entry plus the real gains it
recorded, and that value is not negative. -/
theorem parallel_phases_returned {A X : Type} (env : Collaborators A X)
    (config : PartitionConfig A) (i c : Bool) (fuel : Nat) (w : World X)
    (tb : TouchedBlocks) (ub total : Int) (gains : List Int) (v : Int)
    (h : (parallel_phases env config i c fuel w tb ub total gains).outcome
      = Outcome.returned v) :
    v = total + ((parallel_phases env config i c fuel w tb ub total gains).real_gains.sum
      - gains.sum) ∧ 0 ≤ v := by
  revert h
  refine parallel_phases_cases env config i c
    (fun _ _ _ _ total gains r =>
      r.outcome = Outcome.returned v → v = total + (r.real_gains.sum - gains.sum) ∧ 0 ≤ v)
    ?_ ?_ ?_ ?_ ?_ fuel w tb ub total gains
  · intro fuel w tb ub total gains _ h
    simp only [finish_search] at h ⊢
    split at h
    · rename_i h0
      have hv : total = v := by simpa using h
      subst hv
      exact ⟨by omega, h0⟩
    · cases h
  · intro w tb ub total gains _ h; cases h
  · intro fuel w tb ub total gains _ _ h; cases h
  · intro fuel w w1 tb ub total gains _ _ _ r ih h
    obtain ⟨h1, h2⟩ := ih h
    refine ⟨?_, h2⟩
    rw [h1]
    simp only [List.sum_append, List.sum_cons, List.sum_nil]
    omega
  · intro fuel w w1 tb ub total gains _ _ _ h; cases h

/-- A negative real gain among the gains a run of the loop records ends the run at the
assertion on the real gain. -/
theorem parallel_phases_negative {A X : Type} (env : Collaborators A X)
    (config : PartitionConfig A) (i c : Bool) (fuel : Nat) (w : World X)
    (tb : TouchedBlocks) (ub total : Int) (gains : List Int)
    (hgains : ∀ g ∈ gains, 0 ≤ g)
    (h : ∃ g ∈ (parallel_phases env config i c fuel w tb ub total gains).real_gains, g < 0) :
    (parallel_phases env config i c fuel w tb ub total gains).outcome
      = Outcome.aborted Assertion.real_gain_improvement_nonneg := by
  revert h hgains
  refine parallel_phases_cases env config i c
    (fun _ _ _ _ _ gains r =>
      (∀ g ∈ gains, 0 ≤ g) → (∃ g ∈ r.real_gains, g < 0) →
        r.outcome = Outcome.aborted Assertion.real_gain_improvement_nonneg)
    ?_ ?_ ?_ ?_ ?_ fuel w tb ub total gains
  · intro fuel w tb ub total gains _ hgains h
    obtain ⟨g, hg, hneg⟩ := h
    have := hgains g (by simpa [finish_search] using hg)
    omega
  · intro w tb ub total gains _ hgains h
    obtain ⟨g, hg, hneg⟩ := h
    have := hgains g hg
    omega
  · intro fuel w tb ub total gains _ _ hgains h
    obtain ⟨g, hg, hneg⟩ := h
    have := hgains g hg
    omega
  · intro fuel w w1 tb ub total gains _ _ hpos r ih hgains h
    apply ih _ h
    intro g hg
    rcases List.mem_append.mp hg with hg | hg
    · exact hgains g hg
    · have : g = (env.apply_moves config c tb w1).real_gain_improvement := by simpa using hg
      omega
  · intro fuel w w1 tb ub total gains _ _ _ _ _
    rfl

/-- When the workers leave the measure `edge_cut` of the collaborators' state alone and
every commit pass lowers it by the real gain it returns, a run of the loop lowers it by
the sum of the real gains it records. -/
theorem parallel_phases_cut {A X : Type} (env : Collaborators A X)
    (config : PartitionConfig A) (i c : Bool) (edge_cut : X → Int)
    (hworkers : ∀ w w1, env.run_tasks config i w = some w1 → edge_cut w1.ext = edge_cut w.ext)
    (hcommit : ∀ tb w, edge_cut (env.apply_moves config c tb w).world.ext =
      edge_cut w.ext - (env.apply_moves config c tb w).real_gain_improvement)
    (fuel : Nat) (w : World X) (tb : TouchedBlocks) (ub total : Int) (gains : List Int) :
    edge_cut (parallel_phases env config i c fuel w tb ub total gains).world.ext =
      edge_cut w.ext -
        ((parallel_phases env config i c fuel w tb ub total gains).real_gains.sum
          - gains.sum) := by
  refine parallel_phases_cases env config i c
    (fun _ w _ _ _ gains r =>
      edge_cut r.world.ext = edge_cut w.ext - (r.real_gains.sum - gains.sum))
    ?_ ?_ ?_ ?_ ?_ fuel w tb ub total gains
  · intro fuel w tb ub total gains _
    simp [finish_search]
  · intro w tb ub total gains _
    simp
  · intro fuel w tb ub total gains _ _
    simp
  · intro fuel w w1 tb ub total gains _ ht _ r ih
    rw [ih, push_all_ext, partial_reset_global_data_ext, hcommit, hworkers w w1 ht]
    simp only [List.sum_append, List.sum_cons, List.sum_nil]
    omega
  · intro fuel w w1 tb ub total gains _ ht _
    simp only [push_all_ext, partial_reset_global_data_ext, hcommit, hworkers w w1 ht,
      List.sum_append, List.sum_cons, List.sum_nil]
    omega

/-- When no worker assertion fails in a run of the loop and every real gain it records
is non-negative, the run returns the total on entry plus these gains, or its fuel ends
with the queue still non-empty after as many commit passes as the fuel allows. -/
theorem parallel_phases_no_assertion {A X : Type} (env : Collaborators A X)
    (config : PartitionConfig A) (i c : Bool) (fuel : Nat) (w : World X)
    (tb : TouchedBlocks) (ub total : Int) (gains : List Int)
    (htotal : 0 ≤ total)
    (hchain : (parallel_phases env config i c fuel w tb ub total gains).outcome
      ≠ Outcome.aborted Assertion.transpositions_nonempty)
    (hgain : ∀ g ∈ (parallel_phases env config i c fuel w tb ub total gains).real_gains,
      0 ≤ g) :
    (parallel_phases env config i c fuel w tb ub total gains).outcome
        = Outcome.returned (total +
          ((parallel_phases env config i c fuel w tb ub total gains).real_gains.sum
            - gains.sum)) ∨
      ((parallel_phases env config i c fuel w tb ub total gains).outcome
          = Outcome.out_of_fuel ∧
        (parallel_phases env config i c fuel w tb ub total gains).real_gains.length
          = gains.length + fuel ∧
        (parallel_phases env config i c fuel w tb ub total gains).world.queue ≠ []) := by
  revert hgain hchain htotal
  refine parallel_phases_cases env config i c
    (fun fuel _ _ _ total gains r =>
      0 ≤ total → r.outcome ≠ Outcome.aborted Assertion.transpositions_nonempty →
      (∀ g ∈ r.real_gains, 0 ≤ g) →
      r.outcome = Outcome.returned (total + (r.real_gains.sum - gains.sum)) ∨
        (r.outcome = Outcome.out_of_fuel ∧ r.real_gains.length = gains.length + fuel ∧
          r.world.queue ≠ []))
    ?_ ?_ ?_ ?_ ?_ fuel w tb ub total gains
  · intro fuel w tb ub total gains _ htotal _ _
    left
    simp [finish_search, htotal]
  · intro w tb ub total gains hq _ _ _
    right
    refine ⟨rfl, rfl, ?_⟩
    intro h
    have h0 : w.queue = [] := h
    simp [h0] at hq
  · intro fuel w tb ub total gains _ _ _ hchain _
    exact absurd rfl hchain
  · intro fuel w w1 tb ub total gains _ _ hpos r ih htotal hchain hgain
    rcases ih (by omega) hchain hgain with h | ⟨h1, h2, h3⟩
    · left
      rw [h]
      simp only [List.sum_append, List.sum_cons, List.sum_nil]
      congr 1
      omega
    · right
      refine ⟨h1, ?_, h3⟩
      rw [h2]
      simp only [List.length_append, List.length_singleton]
      omega
  · intro fuel w w1 tb ub total gains _ _ hneg _ _ hgain
    have := hgain (env.apply_moves config c tb w1).real_gain_improvement (by simp)
    exact absurd this hneg

/-- More fuel does not change a run of the loop that did not run out of fuel. -/
theorem parallel_phases_fuel_mono {A X : Type} (env : Collaborators A X)
    (config : PartitionConfig A) (i c : Bool) (fuel : Nat) (w : World X)
    (tb : TouchedBlocks) (ub total : Int) (gains : List Int)
    (h : (parallel_phases env config i c fuel w tb ub total gains).outcome
      ≠ Outcome.out_of_fuel) (k : Nat) :
    parallel_phases env config i c (fuel + k) w tb ub total gains =
      parallel_phases env config i c fuel w tb ub total gains := by
  revert h
  refine parallel_phases_cases env config i c
    (fun fuel w tb ub total gains r =>
      r.outcome ≠ Outcome.out_of_fuel →
        parallel_phases env config i c (fuel + k) w tb ub total gains = r)
    ?_ ?_ ?_ ?_ ?_ fuel w tb ub total gains
  · intro fuel w tb ub total gains hq _
    exact parallel_phases_empty env config i c (fuel + k) w tb ub total gains hq
  · intro w tb ub total gains _ h
    exact absurd rfl h
  · intro fuel w tb ub total gains hq ht _
    have hk : fuel + 1 + k = (fuel + k) + 1 := by omega
    rw [hk]
    exact parallel_phases_tasks_abort env config i c (fuel + k) w tb ub total gains hq ht
  · intro fuel w w1 tb ub total gains hq ht hpos r ih h
    have hk : fuel + 1 + k = (fuel + k) + 1 := by omega
    rw [hk, parallel_phases_step env config i c (fuel + k) w w1 tb ub total gains hq ht hpos]
    exact ih h
  · intro fuel w w1 tb ub total gains hq ht hneg _
    have hk : fuel + 1 + k = (fuel + k) + 1 := by omega
    rw [hk]
    exact parallel_phases_step_neg env config i c (fuel + k) w w1 tb ub total gains hq ht hneg

/-- The seeding loop writes the queue and draws random numbers; it leaves the
collaborators' state alone. -/
theorem seed_queue_ext {A X : Type} (env : Collaborators A X) (fuel : Nat) :
    ∀ (todolist : List NodeID) (w w1 : World X),
      seed_queue env fuel todolist w = Outcome.returned w1 → w1.ext = w.ext := by
  induction fuel with
  | zero =>
    intro todolist w w1 h
    cases todolist with
    | nil => simp only [seed_queue, Outcome.returned.injEq] at h; rw [← h]
    | cons v rest => simp [seed_queue] at h
  | succ fuel ih =>
    intro todolist w w1 h
    cases todolist with
    | nil => simp only [seed_queue, Outcome.returned.injEq] at h; rw [← h]
    | cons v rest =>
      simp only [seed_queue] at h
      cases hs : seed_step env (v :: rest) w with
      | none => rw [hs] at h; simp at h
      | some p =>
        obtain ⟨todolist1, w2⟩ := p
        rw [hs] at h
        have h2 := ih todolist1 w2 w1 h
        rw [h2]
        simp only [seed_step] at hs
        split at hs
        · cases hs
        · simp only [Option.some.injEq, Prod.mk.injEq] at hs
          rw [← hs.2]
          rfl

/-- The seeding loop pushes one vertex for every element of `todolist`. -/
theorem seed_queue_length {A X : Type} (env : Collaborators A X) (fuel : Nat) :
    ∀ (todolist : List NodeID) (w w1 : World X),
      seed_queue env fuel todolist w = Outcome.returned w1 →
        w1.queue.length = w.queue.length + todolist.length := by
  induction fuel with
  | zero =>
    intro todolist w w1 h
    cases todolist with
    | nil => simp only [seed_queue, Outcome.returned.injEq] at h; rw [← h]; simp
    | cons v rest => simp [seed_queue] at h
  | succ fuel ih =>
    intro todolist w w1 h
    cases todolist with
    | nil => simp only [seed_queue, Outcome.returned.injEq] at h; rw [← h]; simp
    | cons v rest =>
      simp only [seed_queue] at h
      cases hs : seed_step env (v :: rest) w with
      | none => rw [hs] at h; simp at h
      | some p =>
        obtain ⟨todolist1, w2⟩ := p
        rw [hs] at h
        have h2 := ih todolist1 w2 w1 h
        rw [h2]
        simp only [seed_step] at hs
        split at hs
        · cases hs
        · simp only [Option.some.injEq, Prod.mk.injEq] at hs
          obtain ⟨hs1, hs2⟩ := hs
          subst hs1
          subst hs2
          simp only [queue_push, List.length_append, List.length_singleton,
            List.length_dropLast, List.length_set, List.length_cons, List.length_nil]
          omega

/-- When every random index lies within its bounds, the seeding loop returns: no index is
outside `todolist` and `todolist.length` iterations are enough. -/
theorem seed_queue_returns {A X : Type} (env : Collaborators A X)
    (hrng : ∀ k ub, env.nextInt k 0 ub ≤ ub) (n : Nat) :
    ∀ (todolist : List NodeID) (w : World X), todolist.length = n →
      ∃ w1, seed_queue env n todolist w = Outcome.returned w1 := by
  induction n with
  | zero =>
    intro todolist w hlen
    have : todolist = [] := List.length_eq_zero.mp hlen
    subst this
    exact ⟨w, rfl⟩
  | succ n ih =>
    intro todolist w hlen
    cases todolist with
    | nil => simp at hlen
    | cons v rest =>
      have hidx : env.nextInt w.random_draws 0 ((v :: rest).length - 1) < (v :: rest).length := by
        have := hrng w.random_draws ((v :: rest).length - 1)
        simp only [List.length_cons] at this ⊢
        omega
      simp only [seed_queue, seed_step, List.getElem?_eq_getElem hidx]
      apply ih
      simp only [List.length_dropLast, List.length_set]
      simp only [List.length_cons] at hlen ⊢
      omega

/-- A run of the localized search that returns, returns the sum of the real gains of its
commit passes, and that sum is not negative. -/
theorem search_returned {A X : Type} (env : Collaborators A X)
    (config : PartitionConfig A) (i c : Bool) (tb : TouchedBlocks) (todolist : List NodeID)
    (fuel : Nat) (w : World X) (v : Int)
    (h : (start_more_locallized_search env config i c tb todolist fuel w).outcome
      = Outcome.returned v) :
    v = (start_more_locallized_search env config i c tb todolist fuel w).real_gains.sum ∧
      0 ≤ v := by
  simp only [start_more_locallized_search] at h ⊢
  cases hs : seed_queue env todolist.length todolist (reset_global_data env config w) with
  | returned w1 =>
    rw [hs] at h
    have := parallel_phases_returned env config i c fuel w1 tb 0 0 [] v h
    simpa using this
  | aborted a => rw [hs] at h; cases h
  | undefined_behaviour => rw [hs] at h; cases h
  | out_of_fuel => rw [hs] at h; cases h

/-- A negative real gain among the gains of the commit passes of a run of the localized
search ends the run at the assertion on the real gain. -/
theorem search_negative {A X : Type} (env : Collaborators A X)
    (config : PartitionConfig A) (i c : Bool) (tb : TouchedBlocks) (todolist : List NodeID)
    (fuel : Nat) (w : World X)
    (h : ∃ g ∈ (start_more_locallized_search env config i c tb todolist fuel w).real_gains,
      g < 0) :
    (start_more_locallized_search env config i c tb todolist fuel w).outcome
      = Outcome.aborted Assertion.real_gain_improvement_nonneg := by
  simp only [start_more_locallized_search] at h ⊢
  cases hs : seed_queue env todolist.length todolist (reset_global_data env config w) with
  | returned w1 =>
    rw [hs] at h
    exact parallel_phases_negative env config i c fuel w1 tb 0 0 [] (by simp) h
  | aborted a => rw [hs] at h; simp at h
  | undefined_behaviour => rw [hs] at h; simp at h
  | out_of_fuel => rw [hs] at h; simp at h

/-- Under the contracts of the workers and of the commit pass, a run of the localized
search lowers `edge_cut` by the sum of the real gains of its commit passes. -/
theorem search_cut {A X : Type} (env : Collaborators A X)
    (config : PartitionConfig A) (i c : Bool) (edge_cut : X → Int)
    (hworkers : ∀ w w1, env.run_tasks config i w = some w1 → edge_cut w1.ext = edge_cut w.ext)
    (hcommit : ∀ tb w, edge_cut (env.apply_moves config c tb w).world.ext =
      edge_cut w.ext - (env.apply_moves config c tb w).real_gain_improvement)
    (tb : TouchedBlocks) (todolist : List NodeID) (fuel : Nat) (w : World X) :
    edge_cut (start_more_locallized_search env config i c tb todolist fuel w).world.ext =
      edge_cut w.ext -
        (start_more_locallized_search env config i c tb todolist fuel w).real_gains.sum := by
  simp only [start_more_locallized_search]
  cases hs : seed_queue env todolist.length todolist (reset_global_data env config w) with
  | returned w1 =>
    have h1 := parallel_phases_cut env config i c edge_cut hworkers hcommit fuel w1 tb 0 0 []
    have h2 := seed_queue_ext env todolist.length todolist _ w1 hs
    rw [h2, reset_global_data_ext] at h1
    simpa using h1
  | aborted a => simp [reset_global_data_ext]
  | undefined_behaviour => simp [reset_global_data_ext]
  | out_of_fuel => simp [reset_global_data_ext]

/-- When the random indices lie within their bounds, no worker assertion fails and every
commit pass of a run of the localized search returns a non-negative real gain, the run
returns the sum of these gains, or its fuel ends with the queue still non-empty after
`fuel` commit passes. -/
theorem search_no_assertion {A X : Type} (env : Collaborators A X)
    (config : PartitionConfig A) (i c : Bool) (tb : TouchedBlocks) (todolist : List NodeID)
    (fuel : Nat) (w : World X)
    (hrng : ∀ k ub, env.nextInt k 0 ub ≤ ub)
    (hchain : (start_more_locallized_search env config i c tb todolist fuel w).outcome
      ≠ Outcome.aborted Assertion.transpositions_nonempty)
    (hgain : ∀ g ∈ (start_more_locallized_search env config i c tb todolist fuel w).real_gains,
      0 ≤ g) :
    (start_more_locallized_search env config i c tb todolist fuel w).outcome
        = Outcome.returned
          (start_more_locallized_search env config i c tb todolist fuel w).real_gains.sum ∨
      ((start_more_locallized_search env config i c tb todolist fuel w).outcome
          = Outcome.out_of_fuel ∧
        (start_more_locallized_search env config i c tb todolist fuel w).real_gains.length
          = fuel ∧
        (start_more_locallized_search env config i c tb todolist fuel w).world.queue ≠ []) := by
  obtain ⟨w1, hs⟩ := seed_queue_returns env hrng todolist.length todolist
    (reset_global_data env config w) rfl
  simp only [start_more_locallized_search, hs] at hchain hgain ⊢
  have := parallel_phases_no_assertion env config i c fuel w1 tb 0 0 [] (le_refl 0) hchain hgain
  simpa using this

/-- More fuel does not change a run of the localized search that did not run out of
fuel. -/
theorem search_fuel_mono {A X : Type} (env : Collaborators A X)
    (config : PartitionConfig A) (i c : Bool) (tb : TouchedBlocks) (todolist : List NodeID)
    (fuel : Nat) (w : World X)
    (h : (start_more_locallized_search env config i c tb todolist fuel w).outcome
      ≠ Outcome.out_of_fuel) (k : Nat) :
    start_more_locallized_search env config i c tb todolist (fuel + k) w =
      start_more_locallized_search env config i c tb todolist fuel w := by
  simp only [start_more_locallized_search] at h ⊢
  cases hs : seed_queue env todolist.length todolist (reset_global_data env config w) with
  | returned w1 =>
    rw [hs] at h
    exact parallel_phases_fuel_mono env config i c fuel w1 tb 0 0 [] h k
  | aborted a => rfl
  | undefined_behaviour => rfl
  | out_of_fuel => rfl

/-! ## The rounds loop of the entry points -/

/-- Induction along a run of the rounds loop: a property of the run holds when it holds
for each of the five ways a round can go (the cap is reached, the boundary gives no start
node, the search returns 0, the search returns a non-zero improvement, the search does
not return). -/
theorem refinement_rounds_cases {A X : Type} (env : Collaborators A X)
    (config : PartitionConfig A) (i : Bool) (setup : X → List NodeID) (c : Bool) (fuel : Nat)
    (motive : Nat → World X → TouchedBlocks → Int → List (RoundRecord X) → RoundsRun X → Prop)
    (h_cap : ∀ w tb overall log,
      motive 0 w tb overall log ⟨Outcome.returned overall, w, tb, log⟩)
    (h_nostart : ∀ n w tb overall log, (setup w.ext).length = 0 →
      motive (n + 1) w tb overall log ⟨Outcome.returned overall, w, tb, log⟩)
    (h_fixed : ∀ n w tb overall log r, (setup w.ext).length ≠ 0 →
      r = start_more_locallized_search env config i c (if c then tb else []) (setup w.ext)
        fuel w →
      r.outcome = Outcome.returned 0 →
      motive (n + 1) w tb overall log
        ⟨Outcome.returned overall, r.world, if c then r.touched_blocks else tb,
          log ++ [⟨setup w.ext, r⟩]⟩)
    (h_step : ∀ n w tb overall log r improvement, (setup w.ext).length ≠ 0 →
      r = start_more_locallized_search env config i c (if c then tb else []) (setup w.ext)
        fuel w →
      r.outcome = Outcome.returned improvement → improvement ≠ 0 →
      ∀ R : RoundsRun X,
      motive n r.world (if c then r.touched_blocks else tb) (overall + improvement)
        (log ++ [⟨setup w.ext, r⟩]) R →
      motive (n + 1) w tb overall log R)
    (h_stop : ∀ n w tb overall log r, (setup w.ext).length ≠ 0 →
      r = start_more_locallized_search env config i c (if c then tb else []) (setup w.ext)
        fuel w →
      (∀ v, r.outcome ≠ Outcome.returned v) →
      motive (n + 1) w tb overall log
        ⟨r.outcome, r.world, if c then r.touched_blocks else tb,
          log ++ [⟨setup w.ext, r⟩]⟩) :
    ∀ n w tb overall log,
      motive n w tb overall log
        (refinement_rounds env config i setup c fuel n w tb overall log) := by
  intro n
  induction n with
  | zero =>
    intro w tb overall log
    exact h_cap w tb overall log
  | succ n ih =>
    intro w tb overall log
    by_cases hlen : (setup w.ext).length = 0
    · have h : refinement_rounds env config i setup c fuel (n + 1) w tb overall log =
          ⟨Outcome.returned overall, w, tb, log⟩ := by
        simp only [refinement_rounds, hlen, ↓reduceIte]
      rw [h]
      exact h_nostart n w tb overall log hlen
    · cases hr : (start_more_locallized_search env config i c (if c then tb else [])
          (setup w.ext) fuel w).outcome with
      | returned improvement =>
        by_cases h0 : improvement = 0
        · subst h0
          have h : refinement_rounds env config i setup c fuel (n + 1) w tb overall log =
              ⟨Outcome.returned overall,
                (start_more_locallized_search env config i c (if c then tb else [])
                  (setup w.ext) fuel w).world,
                if c then (start_more_locallized_search env config i c (if c then tb else [])
                  (setup w.ext) fuel w).touched_blocks else tb,
                log ++ [⟨setup w.ext, start_more_locallized_search env config i c
                  (if c then tb else []) (setup w.ext) fuel w⟩]⟩ := by
            simp only [refinement_rounds, hlen, ↓reduceIte, hr]
          rw [h]
          exact h_fixed n w tb overall log _ hlen rfl hr
        · have h : refinement_rounds env config i setup c fuel (n + 1) w tb overall log =
              refinement_rounds env config i setup c fuel n
                (start_more_locallized_search env config i c (if c then tb else [])
                  (setup w.ext) fuel w).world
                (if c then (start_more_locallized_search env config i c (if c then tb else [])
                  (setup w.ext) fuel w).touched_blocks else tb)
                (overall + improvement)
                (log ++ [⟨setup w.ext, start_more_locallized_search env config i c
                  (if c then tb else []) (setup w.ext) fuel w⟩]) := by
            simp only [refinement_rounds, hlen, ↓reduceIte, hr, h0]
          rw [h]
          exact h_step n w tb overall log _ improvement hlen rfl hr h0 _ (ih _ _ _ _)
      | aborted a =>
        have h : refinement_rounds env config i setup c fuel (n + 1) w tb overall log =
            ⟨(start_more_locallized_search env config i c (if c then tb else [])
                (setup w.ext) fuel w).outcome,
              (start_more_locallized_search env config i c (if c then tb else [])
                (setup w.ext) fuel w).world,
              if c then (start_more_locallized_search env config i c (if c then tb else [])
                (setup w.ext) fuel w).touched_blocks else tb,
              log ++ [⟨setup w.ext, start_more_locallized_search env config i c
                (if c then tb else []) (setup w.ext) fuel w⟩]⟩ := by
          simp only [refinement_rounds, hlen, ↓reduceIte, hr]
        rw [h]
        exact h_stop n w tb overall log _ hlen rfl (by intro v hv; rw [hr] at hv; cases hv)
      | undefined_behaviour =>
        have h : refinement_rounds env config i setup c fuel (n + 1) w tb overall log =
            ⟨(start_more_locallized_search env config i c (if c then tb else [])
                (setup w.ext) fuel w).outcome,
              (start_more_locallized_search env config i c (if c then tb else [])
                (setup w.ext) fuel w).world,
              if c then (start_more_locallized_search env config i c (if c then tb else [])
                (setup w.ext) fuel w).touched_blocks else tb,
              log ++ [⟨setup w.ext, start_more_locallized_search env config i c
                (if c then tb else []) (setup w.ext) fuel w⟩]⟩ := by
          simp only [refinement_rounds, hlen, ↓reduceIte, hr]
        rw [h]
        exact h_stop n w tb overall log _ hlen rfl (by intro v hv; rw [hr] at hv; cases hv)
      | out_of_fuel =>
        have h : refinement_rounds env config i setup c fuel (n + 1) w tb overall log =
            ⟨(start_more_locallized_search env config i c (if c then tb else [])
                (setup w.ext) fuel w).outcome,
              (start_more_locallized_search env config i c (if c then tb else [])
                (setup w.ext) fuel w).world,
              if c then (start_more_locallized_search env config i c (if c then tb else [])
                (setup w.ext) fuel w).touched_blocks else tb,
              log ++ [⟨setup w.ext, start_more_locallized_search env config i c
                (if c then tb else []) (setup w.ext) fuel w⟩]⟩ := by
          simp only [refinement_rounds, hlen, ↓reduceIte, hr]
        rw [h]
        exact h_stop n w tb overall log _ hlen rfl (by intro v hv; rw [hr] at hv; cases hv)

theorem sum_improvements_append {X : Type} (log : List (RoundRecord X))
    (record : RoundRecord X) :
    sum_improvements (log ++ [record]) = sum_improvements log + record.improvement := by
  simp [sum_improvements]

theorem sum_real_gains_append {X : Type} (log : List (RoundRecord X))
    (start_nodes : List NodeID) (r : SearchRun X) :
    sum_real_gains (log ++ [⟨start_nodes, r⟩]) = sum_real_gains log + r.real_gains.sum := by
  simp [sum_real_gains]

theorem improvement_of_returned {X : Type} (start_nodes : List NodeID) (r : SearchRun X)
    (v : Int) (h : r.outcome = Outcome.returned v) :
    RoundRecord.improvement ⟨start_nodes, r⟩ = v := by
  simp [RoundRecord.improvement, h]

/-- A run of the rounds loop that returns, returns the value on entry plus the
improvements of the searches it made; the value is not negative when it was not on
entry. -/
theorem rounds_improvements {A X : Type} (env : Collaborators A X)
    (config : PartitionConfig A) (i : Bool) (setup : X → List NodeID) (c : Bool)
    (fuel n : Nat) (w : World X) (tb : TouchedBlocks) (overall : Int)
    (log : List (RoundRecord X)) (v : Int)
    (h : (refinement_rounds env config i setup c fuel n w tb overall log).outcome
      = Outcome.returned v) :
    v = overall +
        (sum_improvements (refinement_rounds env config i setup c fuel n w tb overall log).rounds
          - sum_improvements log) ∧
      (0 ≤ overall → 0 ≤ v) := by
  revert h
  refine refinement_rounds_cases env config i setup c fuel
    (fun _ _ _ overall log R =>
      R.outcome = Outcome.returned v →
        v = overall + (sum_improvements R.rounds - sum_improvements log) ∧
          (0 ≤ overall → 0 ≤ v))
    ?_ ?_ ?_ ?_ ?_ n w tb overall log
  · intro w tb overall log h
    have hv : overall = v := by simpa using h
    subst hv
    exact ⟨by simp, fun h0 => h0⟩
  · intro n w tb overall log _ h
    have hv : overall = v := by simpa using h
    subst hv
    exact ⟨by simp, fun h0 => h0⟩
  · intro n w tb overall log r _ _ hr h
    have hv : overall = v := by simpa using h
    subst hv
    refine ⟨?_, fun h0 => h0⟩
    simp only [sum_improvements_append, improvement_of_returned _ r 0 hr]
    omega
  · intro n w tb overall log r improvement _ hreq hr _ R ih h
    obtain ⟨h1, h2⟩ := ih h
    have hpos : 0 ≤ improvement := by
      rw [hreq] at hr
      exact (search_returned env config i c _ _ fuel w improvement hr).2
    refine ⟨?_, fun h0 => h2 (by omega)⟩
    rw [h1, sum_improvements_append, improvement_of_returned _ r improvement hr]
    omega
  · intro n w tb overall log r _ _ hr h
    exact absurd h (hr v)

/-- A run of the rounds loop that returns, returns the value on entry plus the real gains
of every commit pass of the searches it made. -/
theorem rounds_real_gains {A X : Type} (env : Collaborators A X)
    (config : PartitionConfig A) (i : Bool) (setup : X → List NodeID) (c : Bool)
    (fuel n : Nat) (w : World X) (tb : TouchedBlocks) (overall : Int)
    (log : List (RoundRecord X)) (v : Int)
    (h : (refinement_rounds env config i setup c fuel n w tb overall log).outcome
      = Outcome.returned v) :
    v = overall +
        (sum_real_gains (refinement_rounds env config i setup c fuel n w tb overall log).rounds
          - sum_real_gains log) := by
  revert h
  refine refinement_rounds_cases env config i setup c fuel
    (fun _ _ _ overall log R =>
      R.outcome = Outcome.returned v →
        v = overall + (sum_real_gains R.rounds - sum_real_gains log))
    ?_ ?_ ?_ ?_ ?_ n w tb overall log
  · intro w tb overall log h
    have hv : overall = v := by simpa using h
    subst hv
    simp
  · intro n w tb overall log _ h
    have hv : overall = v := by simpa using h
    subst hv
    simp
  · intro n w tb overall log r _ hreq hr h
    have hv : overall = v := by simpa using h
    subst hv
    have hsum : r.real_gains.sum = 0 := by
      have hr2 := hr
      rw [hreq] at hr2
      rw [hreq]
      exact (search_returned env config i c _ _ fuel w 0 hr2).1.symm
    simp only [sum_real_gains_append, hsum]
    omega
  · intro n w tb overall log r improvement _ hreq hr _ R ih h
    have hsum : improvement = r.real_gains.sum := by
      have hr2 := hr
      rw [hreq] at hr2
      rw [hreq]
      exact (search_returned env config i c _ _ fuel w improvement hr2).1
    rw [ih h, sum_real_gains_append]
    omega
  · intro n w tb overall log r _ _ hr h
    exact absurd h (hr v)

/-- Under the contracts of the workers and of the commit pass, a run of the rounds loop
lowers `edge_cut` by the real gains of every commit pass of the searches it made. -/
theorem rounds_cut {A X : Type} (env : Collaborators A X)
    (config : PartitionConfig A) (i : Bool) (setup : X → List NodeID) (c : Bool)
    (edge_cut : X → Int)
    (hworkers : ∀ w w1, env.run_tasks config i w = some w1 → edge_cut w1.ext = edge_cut w.ext)
    (hcommit : ∀ tb w, edge_cut (env.apply_moves config c tb w).world.ext =
      edge_cut w.ext - (env.apply_moves config c tb w).real_gain_improvement)
    (fuel n : Nat) (w : World X) (tb : TouchedBlocks) (overall : Int)
    (log : List (RoundRecord X)) :
    edge_cut (refinement_rounds env config i setup c fuel n w tb overall log).world.ext =
      edge_cut w.ext -
        (sum_real_gains (refinement_rounds env config i setup c fuel n w tb overall log).rounds
          - sum_real_gains log) := by
  refine refinement_rounds_cases env config i setup c fuel
    (fun _ w _ _ log R =>
      edge_cut R.world.ext = edge_cut w.ext - (sum_real_gains R.rounds - sum_real_gains log))
    ?_ ?_ ?_ ?_ ?_ n w tb overall log
  · intro w tb overall log
    simp
  · intro n w tb overall log _
    simp
  · intro n w tb overall log r _ hreq _
    have hcut := search_cut env config i c edge_cut hworkers hcommit
      (if c then tb else []) (setup w.ext) fuel w
    rw [← hreq] at hcut
    simp only [sum_real_gains_append, hcut]
    omega
  · intro n w tb overall log r improvement _ hreq _ _ R ih
    have hcut := search_cut env config i c edge_cut hworkers hcommit
      (if c then tb else []) (setup w.ext) fuel w
    rw [← hreq] at hcut
    rw [ih, hcut, sum_real_gains_append]
    omega
  · intro n w tb overall log r _ hreq _
    have hcut := search_cut env config i c edge_cut hworkers hcommit
      (if c then tb else []) (setup w.ext) fuel w
    rw [← hreq] at hcut
    simp only [sum_real_gains_append, hcut]
    omega

/-- A run of the rounds loop adds at most as many rounds as the cap allows. -/
theorem rounds_length {A X : Type} (env : Collaborators A X)
    (config : PartitionConfig A) (i : Bool) (setup : X → List NodeID) (c : Bool)
    (fuel n : Nat) (w : World X) (tb : TouchedBlocks) (overall : Int)
    (log : List (RoundRecord X)) :
    (refinement_rounds env config i setup c fuel n w tb overall log).rounds.length
      ≤ log.length + n := by
  refine refinement_rounds_cases env config i setup c fuel
    (fun n _ _ _ log R => R.rounds.length ≤ log.length + n)
    ?_ ?_ ?_ ?_ ?_ n w tb overall log
  · intro w tb overall log; simp
  · intro n w tb overall log _; simp
  · intro n w tb overall log r _ _ _; simp
  · intro n w tb overall log r improvement _ _ _ _ R ih
    simp only [List.length_append, List.length_singleton] at ih
    omega
  · intro n w tb overall log r _ _ _; simp

/-- In a run of the rounds loop every round but the last made progress. -/
theorem rounds_progress {A X : Type} (env : Collaborators A X)
    (config : PartitionConfig A) (i : Bool) (setup : X → List NodeID) (c : Bool)
    (fuel n : Nat) (w : World X) (tb : TouchedBlocks) (overall : Int)
    (log : List (RoundRecord X)) (hlog : ∀ record ∈ log, made_progress record) :
    ∀ record ∈
      (refinement_rounds env config i setup c fuel n w tb overall log).rounds.dropLast,
      made_progress record := by
  revert hlog
  refine refinement_rounds_cases env config i setup c fuel
    (fun _ _ _ _ log R =>
      (∀ record ∈ log, made_progress record) →
        ∀ record ∈ R.rounds.dropLast, made_progress record)
    ?_ ?_ ?_ ?_ ?_ n w tb overall log
  · intro w tb overall log hlog record hrec
    exact hlog record (List.dropLast_subset _ hrec)
  · intro n w tb overall log _ hlog record hrec
    exact hlog record (List.dropLast_subset _ hrec)
  · intro n w tb overall log r _ _ _ hlog record hrec
    simp only [List.dropLast_concat] at hrec
    exact hlog record hrec
  · intro n w tb overall log r improvement _ _ hr h0 R ih hlog
    apply ih
    intro record hrec
    rcases List.mem_append.mp hrec with hrec | hrec
    · exact hlog record hrec
    · have : record = ⟨setup w.ext, r⟩ := by simpa using hrec
      subst this
      exact ⟨improvement, hr, h0⟩
  · intro n w tb overall log r _ _ _ hlog record hrec
    simp only [List.dropLast_concat] at hrec
    exact hlog record hrec

/-- In a run of the rounds loop every round started from a non-empty list of start
nodes. -/
theorem rounds_start_nodes {A X : Type} (env : Collaborators A X)
    (config : PartitionConfig A) (i : Bool) (setup : X → List NodeID) (c : Bool)
    (fuel n : Nat) (w : World X) (tb : TouchedBlocks) (overall : Int)
    (log : List (RoundRecord X)) (hlog : ∀ record ∈ log, record.start_nodes ≠ []) :
    ∀ record ∈ (refinement_rounds env config i setup c fuel n w tb overall log).rounds,
      record.start_nodes ≠ [] := by
  revert hlog
  have key : ∀ (w : World X) (log : List (RoundRecord X)) (r : SearchRun X),
      (setup w.ext).length ≠ 0 → (∀ record ∈ log, record.start_nodes ≠ []) →
      ∀ record ∈ log ++ [(⟨setup w.ext, r⟩ : RoundRecord X)], record.start_nodes ≠ [] := by
    intro w log r hlen hlog record hrec
    rcases List.mem_append.mp hrec with hrec | hrec
    · exact hlog record hrec
    · have : record = ⟨setup w.ext, r⟩ := by simpa using hrec
      subst this
      intro h
      simp only at h
      simp [h] at hlen
  refine refinement_rounds_cases env config i setup c fuel
    (fun _ _ _ _ log R =>
      (∀ record ∈ log, record.start_nodes ≠ []) →
        ∀ record ∈ R.rounds, record.start_nodes ≠ [])
    ?_ ?_ ?_ ?_ ?_ n w tb overall log
  · intro w tb overall log hlog
    exact hlog
  · intro n w tb overall log _ hlog
    exact hlog
  · intro n w tb overall log r hlen _ _ hlog
    exact key w log r hlen hlog
  · intro n w tb overall log r improvement hlen _ _ _ R ih hlog
    exact ih (key w log r hlen hlog)
  · intro n w tb overall log r hlen _ _ hlog
    exact key w log r hlen hlog

/-- A run of the rounds loop that returns ended because the cap was reached, or because
the boundary gave no start node, or because the last search returned 0. -/
theorem rounds_exit {A X : Type} (env : Collaborators A X)
    (config : PartitionConfig A) (i : Bool) (setup : X → List NodeID) (c : Bool)
    (fuel n : Nat) (w : World X) (tb : TouchedBlocks) (overall : Int)
    (log : List (RoundRecord X)) (v : Int)
    (h : (refinement_rounds env config i setup c fuel n w tb overall log).outcome
      = Outcome.returned v) :
    (refinement_rounds env config i setup c fuel n w tb overall log).rounds.length
        = log.length + n ∨
      setup (refinement_rounds env config i setup c fuel n w tb overall log).world.ext = [] ∨
      ∃ record,
        (refinement_rounds env config i setup c fuel n w tb overall log).rounds.getLast?
          = some record ∧ record.search.outcome = Outcome.returned 0 := by
  revert h
  refine refinement_rounds_cases env config i setup c fuel
    (fun n _ _ _ log R =>
      R.outcome = Outcome.returned v →
        R.rounds.length = log.length + n ∨ setup R.world.ext = [] ∨
          ∃ record, R.rounds.getLast? = some record ∧
            record.search.outcome = Outcome.returned 0)
    ?_ ?_ ?_ ?_ ?_ n w tb overall log
  · intro w tb overall log _
    left; rfl
  · intro n w tb overall log hlen _
    right; left
    exact List.length_eq_zero.mp hlen
  · intro n w tb overall log r _ _ hr _
    right; right
    exact ⟨⟨setup w.ext, r⟩, by simp, hr⟩
  · intro n w tb overall log r improvement _ _ _ _ R ih h
    rcases ih h with h1 | h1 | h1
    · left
      rw [h1]
      simp only [List.length_append, List.length_singleton]
      omega
    · right; left; exact h1
    · right; right; exact h1
  · intro n w tb overall log r _ _ hr h
    exact absurd h (hr v)

/-- When the boundary gives no start node, the rounds loop ends at once: no search, the
same world, the same `touched_blocks`, the same value. -/
theorem rounds_no_start_nodes {A X : Type} (env : Collaborators A X)
    (config : PartitionConfig A) (i : Bool) (setup : X → List NodeID) (c : Bool)
    (fuel n : Nat) (w : World X) (tb : TouchedBlocks) (overall : Int)
    (log : List (RoundRecord X)) (h : setup w.ext = []) :
    refinement_rounds env config i setup c fuel n w tb overall log =
      ⟨Outcome.returned overall, w, tb, log⟩ := by
  cases n with
  | zero => rfl
  | succ n => simp [refinement_rounds, h]

/-- In a run of the rounds loop that returns, every search returned. -/
theorem rounds_all_returned {A X : Type} (env : Collaborators A X)
    (config : PartitionConfig A) (i : Bool) (setup : X → List NodeID) (c : Bool)
    (fuel n : Nat) (w : World X) (tb : TouchedBlocks) (overall : Int)
    (log : List (RoundRecord X)) (v : Int)
    (hlog : ∀ record ∈ log, ∃ x, record.search.outcome = Outcome.returned x)
    (h : (refinement_rounds env config i setup c fuel n w tb overall log).outcome
      = Outcome.returned v) :
    ∀ record ∈ (refinement_rounds env config i setup c fuel n w tb overall log).rounds,
      ∃ x, record.search.outcome = Outcome.returned x := by
  revert h hlog
  have key : ∀ (start_nodes : List NodeID) (log : List (RoundRecord X)) (r : SearchRun X)
      (x : Int), r.outcome = Outcome.returned x →
      (∀ record ∈ log, ∃ x, record.search.outcome = Outcome.returned x) →
      ∀ record ∈ log ++ [(⟨start_nodes, r⟩ : RoundRecord X)],
        ∃ x, record.search.outcome = Outcome.returned x := by
    intro start_nodes log r x hr hlog record hrec
    rcases List.mem_append.mp hrec with hrec | hrec
    · exact hlog record hrec
    · have : record = ⟨start_nodes, r⟩ := by simpa using hrec
      subst this
      exact ⟨x, hr⟩
  refine refinement_rounds_cases env config i setup c fuel
    (fun _ _ _ _ log R =>
      (∀ record ∈ log, ∃ x, record.search.outcome = Outcome.returned x) →
      R.outcome = Outcome.returned v →
        ∀ record ∈ R.rounds, ∃ x, record.search.outcome = Outcome.returned x)
    ?_ ?_ ?_ ?_ ?_ n w tb overall log
  · intro w tb overall log hlog _
    exact hlog
  · intro n w tb overall log _ hlog _
    exact hlog
  · intro n w tb overall log r _ _ hr hlog _
    exact key _ log r 0 hr hlog
  · intro n w tb overall log r improvement _ _ hr _ R ih hlog h
    exact ih (key _ log r improvement hr hlog) h
  · intro n w tb overall log r _ _ hr _ h
    exact absurd h (hr v)

/-! ## The entry points -/

/-- The world in which `perform_refinement` ends is the one in which its rounds loop
ends. -/
theorem perform_refinement_world {A X : Type} (env : Collaborators A X)
    (config : PartitionConfig A) (w : World X) (rounds : Nat) (i : Bool) (alpha fuel : Nat) :
    (perform_refinement env config w rounds i alpha fuel).world =
      (refinement_rounds env (override_config env config alpha) i env.setup_start_nodes_all
        false fuel rounds w [] 0 []).world := by
  simp only [perform_refinement]
  split
  · split <;> rfl
  · rfl
  · rfl
  · rfl

/-- The rounds of `perform_refinement` are those of its rounds loop. -/
theorem perform_refinement_rounds {A X : Type} (env : Collaborators A X)
    (config : PartitionConfig A) (w : World X) (rounds : Nat) (i : Bool) (alpha fuel : Nat) :
    (perform_refinement env config w rounds i alpha fuel).rounds =
      (refinement_rounds env (override_config env config alpha) i env.setup_start_nodes_all
        false fuel rounds w [] 0 []).rounds := by
  simp only [perform_refinement]
  split
  · split <;> rfl
  · rfl
  · rfl
  · rfl

/-- When `perform_refinement` returns, its rounds loop returned the same value and the
configuration has been restored. -/
theorem perform_refinement_returned {A X : Type} (env : Collaborators A X)
    (config : PartitionConfig A) (w : World X) (rounds : Nat) (i : Bool) (alpha fuel : Nat)
    (v : Int) (h : (perform_refinement env config w rounds i alpha fuel).outcome
      = Outcome.returned v) :
    (refinement_rounds env (override_config env config alpha) i env.setup_start_nodes_all
        false fuel rounds w [] 0 []).outcome = Outcome.returned v ∧
      (perform_refinement env config w rounds i alpha fuel).config =
        restore_config env config (override_config env config alpha) := by
  simp only [perform_refinement] at h ⊢
  split at h
  · rename_i overall hR
    split at h
    · cases h
    · rename_i hassert
      have hv : overall = v := by simpa using h
      subst hv
      simp only [hR, hassert]
      exact ⟨trivial, rfl⟩
  · cases h
  · cases h
  · cases h

/-- When the rounds loop of `perform_refinement` returns a non-negative value,
`perform_refinement` returns it. -/
theorem perform_refinement_of_rounds {A X : Type} (env : Collaborators A X)
    (config : PartitionConfig A) (w : World X) (rounds : Nat) (i : Bool) (alpha fuel : Nat)
    (v : Int)
    (h : (refinement_rounds env (override_config env config alpha) i
      env.setup_start_nodes_all false fuel rounds w [] 0 []).outcome = Outcome.returned v)
    (hv : 0 ≤ v) :
    (perform_refinement env config w rounds i alpha fuel).outcome = Outcome.returned v := by
  have hneg : ¬ v < 0 := by omega
  simp [perform_refinement, h, hneg]

/-- The world in which `perform_refinement_around_parts` ends is the one in which its
rounds loop ends. -/
theorem around_parts_world {A X : Type} (env : Collaborators A X)
    (config : PartitionConfig A) (w : World X) (i : Bool) (alpha : Nat)
    (lhs rhs : PartitionID) (tb : TouchedBlocks) (fuel : Nat) :
    (perform_refinement_around_parts env config w i alpha lhs rhs tb fuel).world =
      (refinement_rounds env (override_config env config alpha) i
        (fun x => env.setup_start_nodes_around_blocks x lhs rhs) true fuel
        (override_config env config alpha).local_multitry_rounds w tb 0 []).world := by
  simp only [perform_refinement_around_parts]
  split
  · split <;> rfl
  · rfl
  · rfl
  · rfl

/-- The rounds of `perform_refinement_around_parts` are those of its rounds loop. -/
theorem around_parts_rounds {A X : Type} (env : Collaborators A X)
    (config : PartitionConfig A) (w : World X) (i : Bool) (alpha : Nat)
    (lhs rhs : PartitionID) (tb : TouchedBlocks) (fuel : Nat) :
    (perform_refinement_around_parts env config w i alpha lhs rhs tb fuel).rounds =
      (refinement_rounds env (override_config env config alpha) i
        (fun x => env.setup_start_nodes_around_blocks x lhs rhs) true fuel
        (override_config env config alpha).local_multitry_rounds w tb 0 []).rounds := by
  simp only [perform_refinement_around_parts]
  split
  · split <;> rfl
  · rfl
  · rfl
  · rfl

/-- The `touched_blocks` with which `perform_refinement_around_parts` ends are those of
its rounds loop. -/
theorem around_parts_touched_blocks {A X : Type} (env : Collaborators A X)
    (config : PartitionConfig A) (w : World X) (i : Bool) (alpha : Nat)
    (lhs rhs : PartitionID) (tb : TouchedBlocks) (fuel : Nat) :
    (perform_refinement_around_parts env config w i alpha lhs rhs tb fuel).touched_blocks =
      (refinement_rounds env (override_config env config alpha) i
        (fun x => env.setup_start_nodes_around_blocks x lhs rhs) true fuel
        (override_config env config alpha).local_multitry_rounds w tb 0 []).touched_blocks := by
  simp only [perform_refinement_around_parts]
  split
  · split <;> rfl
  · rfl
  · rfl
  · rfl

/-- When `perform_refinement_around_parts` returns, its rounds loop returned the same
value and the configuration has been restored. -/
theorem around_parts_returned {A X : Type} (env : Collaborators A X)
    (config : PartitionConfig A) (w : World X) (i : Bool) (alpha : Nat)
    (lhs rhs : PartitionID) (tb : TouchedBlocks) (fuel : Nat) (v : Int)
    (h : (perform_refinement_around_parts env config w i alpha lhs rhs tb fuel).outcome
      = Outcome.returned v) :
    (refinement_rounds env (override_config env config alpha) i
        (fun x => env.setup_start_nodes_around_blocks x lhs rhs) true fuel
        (override_config env config alpha).local_multitry_rounds w tb 0 []).outcome
        = Outcome.returned v ∧
      (perform_refinement_around_parts env config w i alpha lhs rhs tb fuel).config =
        restore_config env config (override_config env config alpha) := by
  simp only [perform_refinement_around_parts] at h ⊢
  split at h
  · rename_i overall hR
    split at h
    · cases h
    · rename_i hassert
      have hv : overall = v := by simpa using h
      subst hv
      simp only [hR, hassert]
      exact ⟨trivial, rfl⟩
  · cases h
  · cases h
  · cases h

/-- When the rounds loop of `perform_refinement_around_parts` returns a non-negative
value, `perform_refinement_around_parts` returns it. -/
theorem around_parts_of_rounds {A X : Type} (env : Collaborators A X)
    (config : PartitionConfig A) (w : World X) (i : Bool) (alpha : Nat)
    (lhs rhs : PartitionID) (tb : TouchedBlocks) (fuel : Nat) (v : Int)
    (h : (refinement_rounds env (override_config env config alpha) i
      (fun x => env.setup_start_nodes_around_blocks x lhs rhs) true fuel
      (override_config env config alpha).local_multitry_rounds w tb 0 []).outcome
      = Outcome.returned v)
    (hv : 0 ≤ v) :
    (perform_refinement_around_parts env config w i alpha lhs rhs tb fuel).outcome
      = Outcome.returned v := by
  have hneg : ¬ v < 0 := by omega
  simp [perform_refinement_around_parts, h, hneg]

/-! ## The concrete instance meets the contracts -/

/-- The workers of the instance leave the cut alone. -/
theorem path_env_workers (cfg : PartitionConfig Nat) (i : Bool)
    (w w1 : World (List PartitionID)) (h : path_env.run_tasks cfg i w = some w1) :
    path_cut w1.ext = path_cut w.ext := by
  simp only [path_env, Option.some.injEq] at h
  rw [← h]

/-- The commit pass of the instance lowers the cut by the real gain it returns. -/
theorem path_env_commit (cfg : PartitionConfig Nat) (c : Bool) (tb : TouchedBlocks)
    (w : World (List PartitionID)) :
    path_cut (path_env.apply_moves cfg c tb w).world.ext =
      path_cut w.ext - (path_env.apply_moves cfg c tb w).real_gain_improvement := by
  simp only [path_env, path_apply_moves]
  split
  · simp
  · simp

/-- The random indices of the instances lie within their bounds. -/
theorem path_env_nextInt (k ub : Nat) : path_env.nextInt k 0 ub ≤ ub := Nat.zero_le ub

/-! ## The claims -/

/-- C2: when the workers leave the edge cut alone and every commit pass lowers it by
exactly the real gain it returns, the edge cut after a call of `perform_refinement` or of
`perform_refinement_around_parts` that returns is at most the edge cut before the call. -/
theorem refinement_non_regression {A X : Type} (env : Collaborators A X)
    (edge_cut : X → Int) (config : PartitionConfig A) (w : World X) (rounds : Nat)
    (init_neighbors : Bool) (alpha : Nat) (lhs rhs : PartitionID) (tb : TouchedBlocks)
    (fuel : Nat)
    (hworkers : ∀ cfg i w w1, env.run_tasks cfg i w = some w1 →
      edge_cut w1.ext = edge_cut w.ext)
    (hcommit : ∀ cfg c tb w, edge_cut (env.apply_moves cfg c tb w).world.ext =
      edge_cut w.ext - (env.apply_moves cfg c tb w).real_gain_improvement) :
    (∀ v, (perform_refinement env config w rounds init_neighbors alpha fuel).outcome
        = Outcome.returned v →
      edge_cut (perform_refinement env config w rounds init_neighbors alpha fuel).world.ext
        ≤ edge_cut w.ext) ∧
    (∀ v, (perform_refinement_around_parts env config w init_neighbors alpha lhs rhs tb
          fuel).outcome = Outcome.returned v →
      edge_cut (perform_refinement_around_parts env config w init_neighbors alpha lhs rhs tb
          fuel).world.ext ≤ edge_cut w.ext) := by
  have h0 : sum_real_gains ([] : List (RoundRecord X)) = 0 := rfl
  constructor
  · intro v h
    obtain ⟨hR, _⟩ :=
      perform_refinement_returned env config w rounds init_neighbors alpha fuel v h
    rw [perform_refinement_world]
    have hcut := rounds_cut env (override_config env config alpha) init_neighbors
      env.setup_start_nodes_all false edge_cut
      (hworkers (override_config env config alpha) init_neighbors)
      (hcommit (override_config env config alpha) false) fuel rounds w [] 0 []
    have hsum := rounds_real_gains env (override_config env config alpha) init_neighbors
      env.setup_start_nodes_all false fuel rounds w [] 0 [] v hR
    have hpos := (rounds_improvements env (override_config env config alpha) init_neighbors
      env.setup_start_nodes_all false fuel rounds w [] 0 [] v hR).2 (le_refl 0)
    rw [h0] at hcut hsum
    omega
  · intro v h
    obtain ⟨hR, _⟩ :=
      around_parts_returned env config w init_neighbors alpha lhs rhs tb fuel v h
    rw [around_parts_world]
    have hcut := rounds_cut env (override_config env config alpha) init_neighbors
      (fun x => env.setup_start_nodes_around_blocks x lhs rhs) true edge_cut
      (hworkers (override_config env config alpha) init_neighbors)
      (hcommit (override_config env config alpha) true) fuel
      (override_config env config alpha).local_multitry_rounds w tb 0 []
    have hsum := rounds_real_gains env (override_config env config alpha) init_neighbors
      (fun x => env.setup_start_nodes_around_blocks x lhs rhs) true fuel
      (override_config env config alpha).local_multitry_rounds w tb 0 [] v hR
    have hpos := (rounds_improvements env (override_config env config alpha) init_neighbors
      (fun x => env.setup_start_nodes_around_blocks x lhs rhs) true fuel
      (override_config env config alpha).local_multitry_rounds w tb 0 [] v hR).2 (le_refl 0)
    rw [h0] at hcut hsum
    omega

/-- C2, on the path with the blocks `[0, 1, 0, 1]`: both entry points return 2 and leave
a cut that is at most the cut on entry. -/
theorem refinement_non_regression_witness :
    ((perform_refinement path_env path_config (path_world [0, 1, 0, 1]) 3 true 1 5).outcome
        = Outcome.returned 2 ∧
      path_cut
        (perform_refinement path_env path_config (path_world [0, 1, 0, 1]) 3 true 1 5).world.ext
        ≤ path_cut (path_world [0, 1, 0, 1]).ext) ∧
    ((perform_refinement_around_parts path_env path_config (path_world [0, 1, 0, 1]) true 1
          0 1 [] 5).outcome = Outcome.returned 2 ∧
      path_cut
        (perform_refinement_around_parts path_env path_config (path_world [0, 1, 0, 1]) true 1
          0 1 [] 5).world.ext
        ≤ path_cut (path_world [0, 1, 0, 1]).ext) :=
  ⟨⟨by decide,
      (refinement_non_regression path_env path_cut path_config (path_world [0, 1, 0, 1]) 3
        true 1 0 1 [] 5 path_env_workers path_env_commit).1 2 (by decide)⟩,
    ⟨by decide,
      (refinement_non_regression path_env path_cut path_config (path_world [0, 1, 0, 1]) 3
        true 1 0 1 [] 5 path_env_workers path_env_commit).2 2 (by decide)⟩⟩

/-- C5: when the boundary gives no start node in the first round, `perform_refinement`
(resp. `perform_refinement_around_parts`) returns 0 without a localized search, and the
world (claim bits, block weights, queue, partition) and `touched_blocks` are as on entry;
and whenever the boundary gives no start node at the start of a round, the rounds loop
ends there with the value accumulated so far and without a further search. -/
theorem refinement_empty_start_nodes {A X : Type} (env : Collaborators A X)
    (config : PartitionConfig A) (w : World X) (rounds : Nat) (init_neighbors : Bool)
    (alpha : Nat) (lhs rhs : PartitionID) (tb : TouchedBlocks) (fuel : Nat) :
    (env.setup_start_nodes_all w.ext = [] →
      (perform_refinement env config w rounds init_neighbors alpha fuel).outcome
          = Outcome.returned 0 ∧
        (perform_refinement env config w rounds init_neighbors alpha fuel).rounds = [] ∧
        (perform_refinement env config w rounds init_neighbors alpha fuel).world = w) ∧
    (env.setup_start_nodes_around_blocks w.ext lhs rhs = [] →
      (perform_refinement_around_parts env config w init_neighbors alpha lhs rhs tb
          fuel).outcome = Outcome.returned 0 ∧
        (perform_refinement_around_parts env config w init_neighbors alpha lhs rhs tb
          fuel).rounds = [] ∧
        (perform_refinement_around_parts env config w init_neighbors alpha lhs rhs tb
          fuel).world = w ∧
        (perform_refinement_around_parts env config w init_neighbors alpha lhs rhs tb
          fuel).touched_blocks = tb) ∧
    (∀ (cfg : PartitionConfig A) (setup : X → List NodeID) (c : Bool) (n : Nat)
        (w1 : World X) (tb1 : TouchedBlocks) (overall : Int) (log : List (RoundRecord X)),
      setup w1.ext = [] →
      refinement_rounds env cfg init_neighbors setup c fuel n w1 tb1 overall log =
        ⟨Outcome.returned overall, w1, tb1, log⟩) := by
  refine ⟨?_, ?_, ?_⟩
  · intro h
    have hR := rounds_no_start_nodes env (override_config env config alpha) init_neighbors
      env.setup_start_nodes_all false fuel rounds w [] 0 [] h
    refine ⟨?_, ?_, ?_⟩
    · apply perform_refinement_of_rounds
      · rw [hR]
      · exact le_refl 0
    · rw [perform_refinement_rounds, hR]
    · rw [perform_refinement_world, hR]
  · intro h
    have hR := rounds_no_start_nodes env (override_config env config alpha) init_neighbors
      (fun x => env.setup_start_nodes_around_blocks x lhs rhs) true fuel
      (override_config env config alpha).local_multitry_rounds w tb 0 [] h
    refine ⟨?_, ?_, ?_, ?_⟩
    · apply around_parts_of_rounds
      · rw [hR]
      · exact le_refl 0
    · rw [around_parts_rounds, hR]
    · rw [around_parts_world, hR]
    · rw [around_parts_touched_blocks, hR]
  · intro cfg setup c n w1 tb1 overall log h
    exact rounds_no_start_nodes env cfg init_neighbors setup c fuel n w1 tb1 overall log h

/-- C5, on the path with every vertex in block 0: there is no boundary vertex, both
entry points return 0 without a search and leave the world (and `touched_blocks`) as it
was, and the rounds loop entered with two rounds left and the value 4 ends at once. -/
theorem refinement_empty_start_nodes_witness :
    (path_env.setup_start_nodes_all (path_world [0, 0, 0, 0]).ext = [] ∧
      ((perform_refinement path_env path_config (path_world [0, 0, 0, 0]) 3 true 1 5).outcome
          = Outcome.returned 0 ∧
        (perform_refinement path_env path_config (path_world [0, 0, 0, 0]) 3 true 1 5).rounds
          = [] ∧
        (perform_refinement path_env path_config (path_world [0, 0, 0, 0]) 3 true 1 5).world
          = path_world [0, 0, 0, 0])) ∧
    (path_env.setup_start_nodes_around_blocks (path_world [0, 0, 0, 0]).ext 0 1 = [] ∧
      ((perform_refinement_around_parts path_env path_config (path_world [0, 0, 0, 0]) true 1
            0 1 [(0, 1)] 5).outcome = Outcome.returned 0 ∧
        (perform_refinement_around_parts path_env path_config (path_world [0, 0, 0, 0]) true 1
            0 1 [(0, 1)] 5).rounds = [] ∧
        (perform_refinement_around_parts path_env path_config (path_world [0, 0, 0, 0]) true 1
            0 1 [(0, 1)] 5).world = path_world [0, 0, 0, 0] ∧
        (perform_refinement_around_parts path_env path_config (path_world [0, 0, 0, 0]) true 1
            0 1 [(0, 1)] 5).touched_blocks = [(0, 1)])) ∧
    (path_boundary (path_world [0, 0, 0, 0]).ext = [] ∧
      refinement_rounds path_env path_config true path_boundary false 5 2
          (path_world [0, 0, 0, 0]) [] 4 [] =
        ⟨Outcome.returned 4, path_world [0, 0, 0, 0], [], []⟩) :=
  ⟨⟨by decide,
      (refinement_empty_start_nodes path_env path_config (path_world [0, 0, 0, 0]) 3 true 1 0 1
        [(0, 1)] 5).1 (by decide)⟩,
    ⟨by decide,
      (refinement_empty_start_nodes path_env path_config (path_world [0, 0, 0, 0]) 3 true 1 0 1
        [(0, 1)] 5).2.1 (by decide)⟩,
    ⟨by decide,
      (refinement_empty_start_nodes path_env path_config (path_world [0, 0, 0, 0]) 3 true 1 0 1
        [(0, 1)] 5).2.2 path_config path_boundary false 2 (path_world [0, 0, 0, 0]) [] 4 []
        (by decide)⟩⟩

/-- C6: `perform_refinement` makes at most `rounds` localized searches and
`perform_refinement_around_parts` at most `config.local_multitry_rounds`; with a cap of 0
the call makes no search, returns 0 and leaves the world as it was. -/
theorem refinement_round_cap {A X : Type} (env : Collaborators A X)
    (config : PartitionConfig A) (w : World X) (rounds : Nat) (init_neighbors : Bool)
    (alpha : Nat) (lhs rhs : PartitionID) (tb : TouchedBlocks) (fuel : Nat) :
    (perform_refinement env config w rounds init_neighbors alpha fuel).rounds.length
        ≤ rounds ∧
    (perform_refinement_around_parts env config w init_neighbors alpha lhs rhs tb
        fuel).rounds.length ≤ config.local_multitry_rounds ∧
    (rounds = 0 →
      (perform_refinement env config w rounds init_neighbors alpha fuel).outcome
          = Outcome.returned 0 ∧
        (perform_refinement env config w rounds init_neighbors alpha fuel).rounds = [] ∧
        (perform_refinement env config w rounds init_neighbors alpha fuel).world = w) ∧
    (config.local_multitry_rounds = 0 →
      (perform_refinement_around_parts env config w init_neighbors alpha lhs rhs tb
          fuel).outcome = Outcome.returned 0 ∧
        (perform_refinement_around_parts env config w init_neighbors alpha lhs rhs tb
          fuel).rounds = [] ∧
        (perform_refinement_around_parts env config w init_neighbors alpha lhs rhs tb
          fuel).world = w) := by
  refine ⟨?_, ?_, ?_, ?_⟩
  · rw [perform_refinement_rounds]
    have := rounds_length env (override_config env config alpha) init_neighbors
      env.setup_start_nodes_all false fuel rounds w [] 0 []
    simpa using this
  · rw [around_parts_rounds]
    have := rounds_length env (override_config env config alpha) init_neighbors
      (fun x => env.setup_start_nodes_around_blocks x lhs rhs) true fuel
      (override_config env config alpha).local_multitry_rounds w tb 0 []
    simpa [override_config] using this
  · intro h
    subst h
    refine ⟨?_, ?_, ?_⟩
    · apply perform_refinement_of_rounds
      · rfl
      · exact le_refl 0
    · rw [perform_refinement_rounds]; rfl
    · rw [perform_refinement_world]; rfl
  · intro h
    have hcap : (override_config env config alpha).local_multitry_rounds = 0 := h
    refine ⟨?_, ?_, ?_⟩
    · apply around_parts_of_rounds
      · rw [hcap]; rfl
      · exact le_refl 0
    · rw [around_parts_rounds, hcap]; rfl
    · rw [around_parts_world, hcap]; rfl

/-- C6, on the path with the blocks `[0, 1, 0, 1]` and a cap of 0 (`rounds = 0`, resp.
`local_multitry_rounds = 0`): no search is made and the call returns 0, although the
partition could be improved. -/
theorem refinement_round_cap_witness :
    ((0 : Nat) = 0 ∧
      ((perform_refinement path_env path_config (path_world [0, 1, 0, 1]) 0 true 1 5).outcome
          = Outcome.returned 0 ∧
        (perform_refinement path_env path_config (path_world [0, 1, 0, 1]) 0 true 1 5).rounds
          = [] ∧
        (perform_refinement path_env path_config (path_world [0, 1, 0, 1]) 0 true 1 5).world
          = path_world [0, 1, 0, 1])) ∧
    (path_config_no_rounds.local_multitry_rounds = 0 ∧
      ((perform_refinement_around_parts path_env path_config_no_rounds
            (path_world [0, 1, 0, 1]) true 1 0 1 [] 5).outcome = Outcome.returned 0 ∧
        (perform_refinement_around_parts path_env path_config_no_rounds
            (path_world [0, 1, 0, 1]) true 1 0 1 [] 5).rounds = [] ∧
        (perform_refinement_around_parts path_env path_config_no_rounds
            (path_world [0, 1, 0, 1]) true 1 0 1 [] 5).world = path_world [0, 1, 0, 1])) :=
  ⟨⟨rfl,
      (refinement_round_cap path_env path_config (path_world [0, 1, 0, 1]) 0 true 1 0 1 []
        5).2.2.1 rfl⟩,
    ⟨rfl,
      (refinement_round_cap path_env path_config_no_rounds (path_world [0, 1, 0, 1]) 0 true 1
        0 1 [] 5).2.2.2 rfl⟩⟩

/-- C7: in both entry points no round follows a round whose localized search returned 0;
every round except possibly the last returned a non-zero improvement; every round
started from a non-empty list of start nodes and the number of rounds is at most the
cap; and a call that returns ended its loop because the cap was reached, or the boundary
gave no start node, or the last search returned 0. -/
theorem refinement_fixed_point_stop {A X : Type} (env : Collaborators A X)
    (config : PartitionConfig A) (w : World X) (rounds : Nat) (init_neighbors : Bool)
    (alpha : Nat) (lhs rhs : PartitionID) (tb : TouchedBlocks) (fuel : Nat) :
    ((∀ before record after,
        (perform_refinement env config w rounds init_neighbors alpha fuel).rounds
          = before ++ record :: after →
        record.search.outcome = Outcome.returned 0 → after = []) ∧
      (∀ record ∈
        (perform_refinement env config w rounds init_neighbors alpha fuel).rounds.dropLast,
        made_progress record) ∧
      (∀ record ∈ (perform_refinement env config w rounds init_neighbors alpha fuel).rounds,
        record.start_nodes ≠ []) ∧
      (perform_refinement env config w rounds init_neighbors alpha fuel).rounds.length
        ≤ rounds ∧
      (∀ v, (perform_refinement env config w rounds init_neighbors alpha fuel).outcome
          = Outcome.returned v →
        (perform_refinement env config w rounds init_neighbors alpha fuel).rounds.length
            = rounds ∨
          env.setup_start_nodes_all
            (perform_refinement env config w rounds init_neighbors alpha fuel).world.ext = [] ∨
          ∃ record,
            (perform_refinement env config w rounds init_neighbors alpha fuel).rounds.getLast?
              = some record ∧ record.search.outcome = Outcome.returned 0)) ∧
    ((∀ before record after,
        (perform_refinement_around_parts env config w init_neighbors alpha lhs rhs tb
          fuel).rounds = before ++ record :: after →
        record.search.outcome = Outcome.returned 0 → after = []) ∧
      (∀ record ∈
        (perform_refinement_around_parts env config w init_neighbors alpha lhs rhs tb
          fuel).rounds.dropLast,
        made_progress record) ∧
      (∀ record ∈ (perform_refinement_around_parts env config w init_neighbors alpha lhs rhs
          tb fuel).rounds, record.start_nodes ≠ []) ∧
      (perform_refinement_around_parts env config w init_neighbors alpha lhs rhs tb
          fuel).rounds.length ≤ config.local_multitry_rounds ∧
      (∀ v, (perform_refinement_around_parts env config w init_neighbors alpha lhs rhs tb
            fuel).outcome = Outcome.returned v →
        (perform_refinement_around_parts env config w init_neighbors alpha lhs rhs tb
            fuel).rounds.length = config.local_multitry_rounds ∨
          env.setup_start_nodes_around_blocks
            (perform_refinement_around_parts env config w init_neighbors alpha lhs rhs tb
              fuel).world.ext lhs rhs = [] ∨
          ∃ record,
            (perform_refinement_around_parts env config w init_neighbors alpha lhs rhs tb
              fuel).rounds.getLast? = some record ∧
            record.search.outcome = Outcome.returned 0)) := by
  have last_only : ∀ (l : List (RoundRecord X)),
      (∀ record ∈ l.dropLast, made_progress record) →
      ∀ before record after, l = before ++ record :: after →
        record.search.outcome = Outcome.returned 0 → after = [] := by
    intro l hl before record after hsplit hzero
    by_contra hne
    have hmem : record ∈ l.dropLast := by
      rw [hsplit]
      obtain ⟨init, last, hafter⟩ : ∃ init last, after = init ++ [last] :=
        ⟨after.dropLast, after.getLast hne, (List.dropLast_append_getLast hne).symm⟩
      rw [hafter]
      have : before ++ record :: (init ++ [last]) = (before ++ record :: init) ++ [last] := by
        simp
      rw [this, List.dropLast_concat]
      simp
    obtain ⟨x, hx, hx0⟩ := hl record hmem
    rw [hx] at hzero
    exact hx0 (by simpa using hzero)
  constructor
  · have hprog := rounds_progress env (override_config env config alpha) init_neighbors
      env.setup_start_nodes_all false fuel rounds w [] 0 [] (by simp)
    rw [← perform_refinement_rounds] at hprog
    refine ⟨last_only _ hprog, hprog, ?_, ?_, ?_⟩
    · rw [perform_refinement_rounds]
      exact rounds_start_nodes env (override_config env config alpha) init_neighbors
        env.setup_start_nodes_all false fuel rounds w [] 0 [] (by simp)
    · rw [perform_refinement_rounds]
      have := rounds_length env (override_config env config alpha) init_neighbors
        env.setup_start_nodes_all false fuel rounds w [] 0 []
      simpa using this
    · intro v h
      obtain ⟨hR, _⟩ :=
        perform_refinement_returned env config w rounds init_neighbors alpha fuel v h
      rw [perform_refinement_rounds, perform_refinement_world]
      have := rounds_exit env (override_config env config alpha) init_neighbors
        env.setup_start_nodes_all false fuel rounds w [] 0 [] v hR
      simpa using this
  · have hprog := rounds_progress env (override_config env config alpha) init_neighbors
      (fun x => env.setup_start_nodes_around_blocks x lhs rhs) true fuel
      (override_config env config alpha).local_multitry_rounds w tb 0 [] (by simp)
    rw [← around_parts_rounds] at hprog
    refine ⟨last_only _ hprog, hprog, ?_, ?_, ?_⟩
    · rw [around_parts_rounds]
      exact rounds_start_nodes env (override_config env config alpha) init_neighbors
        (fun x => env.setup_start_nodes_around_blocks x lhs rhs) true fuel
        (override_config env config alpha).local_multitry_rounds w tb 0 [] (by simp)
    · rw [around_parts_rounds]
      have := rounds_length env (override_config env config alpha) init_neighbors
        (fun x => env.setup_start_nodes_around_blocks x lhs rhs) true fuel
        (override_config env config alpha).local_multitry_rounds w tb 0 []
      simpa [override_config] using this
    · intro v h
      obtain ⟨hR, _⟩ :=
        around_parts_returned env config w init_neighbors alpha lhs rhs tb fuel v h
      rw [around_parts_rounds, around_parts_world]
      have := rounds_exit env (override_config env config alpha) init_neighbors
        (fun x => env.setup_start_nodes_around_blocks x lhs rhs) true fuel
        (override_config env config alpha).local_multitry_rounds w tb 0 [] v hR
      simpa [override_config] using this

/-- C7, on the path with the blocks `[0, 1, 0, 1]` and a cap of 3 (resp. 5) rounds: each
entry point returns after 2 rounds, and the exit condition that holds is the third one
(the last search returned 0): the cap is not reached and the boundary still gives the
start nodes `[1, 2]`. -/
theorem refinement_fixed_point_stop_witness :
    ((perform_refinement path_env path_config (path_world [0, 1, 0, 1]) 3 true 1 5).outcome
        = Outcome.returned 2 ∧
      (perform_refinement path_env path_config (path_world [0, 1, 0, 1]) 3 true 1 5).rounds.length
        = 2 ∧
      path_env.setup_start_nodes_all
        (perform_refinement path_env path_config (path_world [0, 1, 0, 1]) 3 true 1 5).world.ext
        = [1, 2] ∧
      ((perform_refinement path_env path_config (path_world [0, 1, 0, 1]) 3 true 1
            5).rounds.length = 3 ∨
        path_env.setup_start_nodes_all
          (perform_refinement path_env path_config (path_world [0, 1, 0, 1]) 3 true 1
            5).world.ext = [] ∨
        ∃ record,
          (perform_refinement path_env path_config (path_world [0, 1, 0, 1]) 3 true 1
            5).rounds.getLast? = some record ∧
          record.search.outcome = Outcome.returned 0)) ∧
    ((perform_refinement_around_parts path_env path_config (path_world [0, 1, 0, 1]) true 1
          0 1 [] 5).outcome = Outcome.returned 2 ∧
      (perform_refinement_around_parts path_env path_config (path_world [0, 1, 0, 1]) true 1
          0 1 [] 5).rounds.length = 2 ∧
      path_env.setup_start_nodes_around_blocks
        (perform_refinement_around_parts path_env path_config (path_world [0, 1, 0, 1]) true 1
          0 1 [] 5).world.ext 0 1 = [1, 2] ∧
      ((perform_refinement_around_parts path_env path_config (path_world [0, 1, 0, 1]) true 1
            0 1 [] 5).rounds.length = path_config.local_multitry_rounds ∨
        path_env.setup_start_nodes_around_blocks
          (perform_refinement_around_parts path_env path_config (path_world [0, 1, 0, 1]) true 1
            0 1 [] 5).world.ext 0 1 = [] ∨
        ∃ record,
          (perform_refinement_around_parts path_env path_config (path_world [0, 1, 0, 1]) true 1
            0 1 [] 5).rounds.getLast? = some record ∧
          record.search.outcome = Outcome.returned 0)) :=
  ⟨⟨by decide, by decide, by decide,
      (refinement_fixed_point_stop path_env path_config (path_world [0, 1, 0, 1]) 3 true 1 0 1
        [] 5).1.2.2.2.2 2 (by decide)⟩,
    ⟨by decide, by decide, by decide,
      (refinement_fixed_point_stop path_env path_config (path_world [0, 1, 0, 1]) 3 true 1 0 1
        [] 5).2.2.2.2.2 2 (by decide)⟩⟩

/-- C9, as the code has it: `reset_global_data` leaves the collaborators' state alone,
zeroes the move-counter of every thread below `num_threads`, sets `block_weight[b]` and
`block_size[b]` to the boundary's values for every block below the partition count, and
leaves every move-claim bit as it was. -/
theorem reset_global_data_effect {A X : Type} (env : Collaborators A X)
    (config : PartitionConfig A) (w : World X) :
    (reset_global_data env config w).ext = w.ext ∧
    (∀ id, id < config.num_threads → (reset_global_data env config w).m_moved_count id = 0) ∧
    (∀ b, b < env.get_partition_count (reset_global_data env config w).ext →
      (reset_global_data env config w).m_parts_weights b =
        env.getBlockWeight (reset_global_data env config w).ext b ∧
      (reset_global_data env config w).m_parts_sizes b =
        env.getBlockNoNodes (reset_global_data env config w).ext b) ∧
    (∀ v, is_moved (reset_global_data env config w) v = is_moved w v) := by
  refine ⟨reset_global_data_ext env config w, ?_, ?_, ?_⟩
  · intro id hid
    simp [reset_global_data, partial_reset_global_data_eq, for_range_store_moved_count, hid]
  · intro b hb
    rw [reset_global_data_ext] at hb ⊢
    simp only [reset_global_data, partial_reset_global_data_eq, for_range_store_moved_count]
      at hb ⊢
    simp [hb]
  · intro v
    simp [is_moved, reset_global_data, partial_reset_global_data_eq,
      for_range_store_moved_count]

/-- C9, on the path with the blocks `[0, 1, 0, 1]`, in the world a parallel phase left:
the counter of thread 0 is zeroed, block 1 gets the weight 2 and the size 2 of the
boundary, and vertex 1 is claimed before and after. -/
theorem reset_global_data_effect_witness :
    (0 < path_config.num_threads ∧
      (reset_global_data path_env path_config (path_world_claimed [0, 1, 0, 1])).m_moved_count 0
        = 0) ∧
    (1 < path_env.get_partition_count
        (reset_global_data path_env path_config (path_world_claimed [0, 1, 0, 1])).ext ∧
      (reset_global_data path_env path_config (path_world_claimed [0, 1, 0, 1])).m_parts_weights 1
        = path_env.getBlockWeight
          (reset_global_data path_env path_config (path_world_claimed [0, 1, 0, 1])).ext 1 ∧
      (reset_global_data path_env path_config (path_world_claimed [0, 1, 0, 1])).m_parts_sizes 1
        = path_env.getBlockNoNodes
          (reset_global_data path_env path_config (path_world_claimed [0, 1, 0, 1])).ext 1) ∧
    is_moved (reset_global_data path_env path_config (path_world_claimed [0, 1, 0, 1])) 1
      = is_moved (path_world_claimed [0, 1, 0, 1]) 1 :=
  ⟨⟨by decide,
      (reset_global_data_effect path_env path_config (path_world_claimed [0, 1, 0, 1])).2.1 0
        (by decide)⟩,
    ⟨by decide,
      (reset_global_data_effect path_env path_config (path_world_claimed [0, 1, 0, 1])).2.2.1 1
        (by decide)⟩,
    (reset_global_data_effect path_env path_config (path_world_claimed [0, 1, 0, 1])).2.2.2 1⟩

/-- C9, counterexample: in the instance, vertex 1 is claimed before `reset_global_data`
and is still claimed after it, so not every move-claim bit is false afterwards. -/
theorem reset_global_data_keeps_claim :
    ¬ ∀ v, is_moved (reset_global_data path_env path_config (path_world_claimed [0, 1, 0, 1])) v
        = false := by
  intro h
  exact absurd (h 1) (by decide)

/-- C10: after `partial_reset_global_data` the collaborators' state is the same, for every
block `b` below the partition count `block_weight[b]` is the boundary's block weight and
`block_size[b]` the boundary's number of nodes, so the sums over these blocks are the
boundary's totals, and every move-claim bit is unchanged. -/
theorem partial_reset_global_data_resync {A X : Type} (env : Collaborators A X)
    (w : World X) :
    (partial_reset_global_data env w).ext = w.ext ∧
    (∀ b, b < env.get_partition_count (partial_reset_global_data env w).ext →
      (partial_reset_global_data env w).m_parts_weights b =
        env.getBlockWeight (partial_reset_global_data env w).ext b ∧
      (partial_reset_global_data env w).m_parts_sizes b =
        env.getBlockNoNodes (partial_reset_global_data env w).ext b) ∧
    ((List.range (env.get_partition_count (partial_reset_global_data env w).ext)).map
        (partial_reset_global_data env w).m_parts_weights).sum =
      ((List.range (env.get_partition_count (partial_reset_global_data env w).ext)).map
        (env.getBlockWeight (partial_reset_global_data env w).ext)).sum ∧
    ((List.range (env.get_partition_count (partial_reset_global_data env w).ext)).map
        (partial_reset_global_data env w).m_parts_sizes).sum =
      ((List.range (env.get_partition_count (partial_reset_global_data env w).ext)).map
        (env.getBlockNoNodes (partial_reset_global_data env w).ext)).sum ∧
    (∀ v, is_moved (partial_reset_global_data env w) v = is_moved w v) := by
  have hblocks : ∀ b, b < env.get_partition_count (partial_reset_global_data env w).ext →
      (partial_reset_global_data env w).m_parts_weights b =
        env.getBlockWeight (partial_reset_global_data env w).ext b ∧
      (partial_reset_global_data env w).m_parts_sizes b =
        env.getBlockNoNodes (partial_reset_global_data env w).ext b := by
    intro b hb
    rw [partial_reset_global_data_ext] at hb ⊢
    simp only [partial_reset_global_data_eq]
    simp [hb]
  refine ⟨partial_reset_global_data_ext env w, hblocks, ?_, ?_, ?_⟩
  · congr 1
    apply List.map_congr_left
    intro b hb
    exact (hblocks b (List.mem_range.mp hb)).1
  · congr 1
    apply List.map_congr_left
    intro b hb
    exact (hblocks b (List.mem_range.mp hb)).2
  · intro v
    simp [is_moved, partial_reset_global_data_eq]

/-- C10, on the path with the blocks `[0, 1, 0, 1]`, in the world a parallel phase left:
block 1 gets the weight and the size of the boundary although both were stale. -/
theorem partial_reset_global_data_resync_witness :
    1 < path_env.get_partition_count
        (partial_reset_global_data path_env (path_world_claimed [0, 1, 0, 1])).ext ∧
      (partial_reset_global_data path_env (path_world_claimed [0, 1, 0, 1])).m_parts_weights 1
        = path_env.getBlockWeight
          (partial_reset_global_data path_env (path_world_claimed [0, 1, 0, 1])).ext 1 ∧
      (partial_reset_global_data path_env (path_world_claimed [0, 1, 0, 1])).m_parts_sizes 1
        = path_env.getBlockNoNodes
          (partial_reset_global_data path_env (path_world_claimed [0, 1, 0, 1])).ext 1 :=
  ⟨by decide,
    (partial_reset_global_data_resync path_env (path_world_claimed [0, 1, 0, 1])).2.1 1
      (by decide)⟩

/-! ## Claims about the reset between phases and the loop over the phases -/

/-- The gains recorded before a run of the loop are at most as many as the gains in its
record. -/
theorem parallel_phases_gains_length {A X : Type} (env : Collaborators A X)
    (config : PartitionConfig A) (i c : Bool) (fuel : Nat) (w : World X)
    (tb : TouchedBlocks) (ub total : Int) (gains : List Int) :
    gains.length ≤ (parallel_phases env config i c fuel w tb ub total gains).real_gains.length := by
  refine parallel_phases_cases env config i c
    (fun _ _ _ _ _ gains r => gains.length ≤ r.real_gains.length) ?_ ?_ ?_ ?_ ?_
    fuel w tb ub total gains
  · intro fuel w tb ub total gains _; simp [finish_search]
  · intro w tb ub total gains _; simp
  · intro fuel w tb ub total gains _ _; simp
  · intro fuel w w1 tb ub total gains _ _ _ r ih
    simp only [List.length_append, List.length_singleton] at ih
    omega
  · intro fuel w w1 tb ub total gains _ _ _; simp

/-- After the partial reset and the pushes the queue holds the reactivated vertices and
nothing else. -/
theorem requeued_queue {A X : Type} (env : Collaborators A X) (vertices : List NodeID)
    (w : World X) :
    (push_all vertices (partial_reset_global_data env w)).queue = vertices := by
  rw [push_all_queue, partial_reset_global_data_eq]
  rfl

/-- C11, as the code has it: `partial_reset_global_data` does not write the per-thread
move-counters: `moved_count[id]` is after the call what it was before, for every thread
`id`, so within one call of the localized search the counters keep the moves of the
earlier inner iterations. -/
theorem partial_reset_global_data_keeps_counters {A X : Type} (env : Collaborators A X)
    (w : World X) (id : Nat) :
    (partial_reset_global_data env w).m_moved_count id = w.m_moved_count id := by
  rw [partial_reset_global_data_eq]

/-- C11, counterexample: in the world a parallel phase left, every thread has counted 3
moves, and after `partial_reset_global_data` the counter of thread 0 is still 3; the
full reset `reset_global_data` zeroes it. -/
theorem partial_reset_global_data_counter_not_zero :
    (¬ ∀ id, (partial_reset_global_data path_env (path_world_claimed [0, 1, 0, 1])).m_moved_count id
        = 0) ∧
      (partial_reset_global_data path_env (path_world_claimed [0, 1, 0, 1])).m_moved_count 0 = 3 ∧
      (reset_global_data path_env path_config (path_world_claimed [0, 1, 0, 1])).m_moved_count 0
        = 0 := by
  refine ⟨?_, by decide, by decide⟩
  intro h
  exact absurd (h 0) (by decide)

/-- C17: when an inner iteration ends with a commit pass whose real gain is not negative,
the next inner iteration starts from a world whose queue is exactly the list of the
vertices that commit pass reported as reactivated: every reactivated vertex is in it, as
often as it was reported, and nothing else is, whatever seeds the workers left in the
queue. -/
theorem reactivated_vertices_requeued {A X : Type} (env : Collaborators A X)
    (config : PartitionConfig A) (i c : Bool) (fuel : Nat) (w w1 : World X)
    (tb : TouchedBlocks) (ub total : Int) (gains : List Int)
    (hq : w.queue.isEmpty = false) (ht : env.run_tasks config i w = some w1)
    (hg : 0 ≤ (env.apply_moves config c tb w1).real_gain_improvement) :
    parallel_phases env config i c (fuel + 1) w tb ub total gains =
        parallel_phases env config i c fuel
          (push_all (env.apply_moves config c tb w1).reactivated_vertices
            (partial_reset_global_data env (env.apply_moves config c tb w1).world))
          (env.apply_moves config c tb w1).touched_blocks
          (ub + sum_upper_bounds env config w1.ext)
          (total + (env.apply_moves config c tb w1).real_gain_improvement)
          (gains ++ [(env.apply_moves config c tb w1).real_gain_improvement]) ∧
      (push_all (env.apply_moves config c tb w1).reactivated_vertices
          (partial_reset_global_data env (env.apply_moves config c tb w1).world)).queue
        = (env.apply_moves config c tb w1).reactivated_vertices ∧
      (∀ v, (push_all (env.apply_moves config c tb w1).reactivated_vertices
          (partial_reset_global_data env (env.apply_moves config c tb w1).world)).queue.count v
        = (env.apply_moves config c tb w1).reactivated_vertices.count v) ∧
      (∀ v ∈ (env.apply_moves config c tb w1).reactivated_vertices,
        v ∈ (push_all (env.apply_moves config c tb w1).reactivated_vertices
          (partial_reset_global_data env (env.apply_moves config c tb w1).world)).queue) := by
  refine ⟨parallel_phases_step env config i c fuel w w1 tb ub total gains hq ht hg,
    requeued_queue env _ _, ?_, ?_⟩
  · intro v
    rw [requeued_queue]
  · intro v hv
    rw [requeued_queue]
    exact hv

/-- C17, on the path with the seeds `[1, 2]`: the workers consume seed 1 and leave seed
2, the commit pass reactivates 3, 0 and 3, and the next inner iteration starts with the
queue `[3, 0, 3]`: vertex 3 twice, and seed 2 gone. -/
theorem reactivated_vertices_requeued_witness :
    (path_world_seeded [0, 1, 0, 1]).queue.isEmpty = false ∧
    requeue_env.run_tasks path_config true (path_world_seeded [0, 1, 0, 1])
      = some { path_world_seeded [0, 1, 0, 1] with queue := [2] } ∧
    0 ≤ (requeue_env.apply_moves path_config false []
      { path_world_seeded [0, 1, 0, 1] with queue := [2] }).real_gain_improvement ∧
    (push_all (requeue_env.apply_moves path_config false []
          { path_world_seeded [0, 1, 0, 1] with queue := [2] }).reactivated_vertices
        (partial_reset_global_data requeue_env (requeue_env.apply_moves path_config false []
          { path_world_seeded [0, 1, 0, 1] with queue := [2] }).world)).queue = [3, 0, 3] :=
  ⟨rfl, rfl, by decide,
    (reactivated_vertices_requeued requeue_env path_config true false 3
      (path_world_seeded [0, 1, 0, 1]) { path_world_seeded [0, 1, 0, 1] with queue := [2] }
      [] 0 0 [] rfl rfl (by decide)).2.1⟩

/-- C18, as the code has it: after a commit pass whose real gain is not negative, the
loop over the parallel phases ends exactly when the pass reported no reactivated vertex.
With no reactivated vertex the call goes on to its final assertion and return, whatever
the real gain was; with a reactivated vertex one more iteration is not the end (the
fuel 1 runs out), and with more fuel a further commit pass is made unless a worker
assertion fails first, whatever the real gain and the number of accepted moves were. -/
theorem phases_loop_ends_without_reactivated {A X : Type} (env : Collaborators A X)
    (config : PartitionConfig A) (i c : Bool) (fuel : Nat) (w w1 : World X)
    (tb : TouchedBlocks) (ub total : Int) (gains : List Int)
    (hq : w.queue.isEmpty = false) (ht : env.run_tasks config i w = some w1)
    (hg : 0 ≤ (env.apply_moves config c tb w1).real_gain_improvement) :
    ((env.apply_moves config c tb w1).reactivated_vertices = [] →
      parallel_phases env config i c (fuel + 1) w tb ub total gains =
        finish_search
          (push_all (env.apply_moves config c tb w1).reactivated_vertices
            (partial_reset_global_data env (env.apply_moves config c tb w1).world))
          (env.apply_moves config c tb w1).touched_blocks
          (ub + sum_upper_bounds env config w1.ext)
          (total + (env.apply_moves config c tb w1).real_gain_improvement)
          (gains ++ [(env.apply_moves config c tb w1).real_gain_improvement])) ∧
    ((env.apply_moves config c tb w1).reactivated_vertices ≠ [] →
      (parallel_phases env config i c 1 w tb ub total gains).outcome = Outcome.out_of_fuel ∧
      ((parallel_phases env config i c (fuel + 2) w tb ub total gains).outcome
          = Outcome.aborted Assertion.transpositions_nonempty ∨
        gains.length + 2
          ≤ (parallel_phases env config i c (fuel + 2) w tb ub total gains).real_gains.length)) := by
  constructor
  · intro hre
    rw [parallel_phases_step env config i c fuel w w1 tb ub total gains hq ht hg]
    apply parallel_phases_empty
    rw [requeued_queue, hre]
    rfl
  · intro hre
    have hq2 : (push_all (env.apply_moves config c tb w1).reactivated_vertices
        (partial_reset_global_data env (env.apply_moves config c tb w1).world)).queue.isEmpty
        = false := by
      rw [requeued_queue]
      cases hl : (env.apply_moves config c tb w1).reactivated_vertices with
      | nil => exact absurd hl hre
      | cons x rest => rfl
    constructor
    · rw [parallel_phases_step env config i c 0 w w1 tb ub total gains hq ht hg,
        parallel_phases_zero env config i c _ _ _ _ _ hq2]
    · rw [parallel_phases_step env config i c (fuel + 1) w w1 tb ub total gains hq ht hg]
      cases ht2 : env.run_tasks config i
          (push_all (env.apply_moves config c tb w1).reactivated_vertices
            (partial_reset_global_data env (env.apply_moves config c tb w1).world)) with
      | none =>
        left
        rw [parallel_phases_tasks_abort env config i c fuel _ _ _ _ _ hq2 ht2]
      | some w3 =>
        right
        by_cases hg2 : 0 ≤ (env.apply_moves config c
            (env.apply_moves config c tb w1).touched_blocks w3).real_gain_improvement
        · rw [parallel_phases_step env config i c fuel _ w3 _ _ _ _ hq2 ht2 hg2]
          have := parallel_phases_gains_length env config i c fuel
            (push_all (env.apply_moves config c
                (env.apply_moves config c tb w1).touched_blocks w3).reactivated_vertices
              (partial_reset_global_data env (env.apply_moves config c
                (env.apply_moves config c tb w1).touched_blocks w3).world))
            (env.apply_moves config c
              (env.apply_moves config c tb w1).touched_blocks w3).touched_blocks
            (ub + sum_upper_bounds env config w1.ext + sum_upper_bounds env config w3.ext)
            (total + (env.apply_moves config c tb w1).real_gain_improvement
              + (env.apply_moves config c
                (env.apply_moves config c tb w1).touched_blocks w3).real_gain_improvement)
            (gains ++ [(env.apply_moves config c tb w1).real_gain_improvement]
              ++ [(env.apply_moves config c
                (env.apply_moves config c tb w1).touched_blocks w3).real_gain_improvement])
          simp only [List.length_append, List.length_singleton] at this
          omega
        · rw [parallel_phases_step_neg env config i c fuel _ w3 _ _ _ _ hq2 ht2 hg2]
          simp

/-- C18, on the path with the seeds `[1, 2]`: the commit pass of the instance gains 2 and
reactivates nothing, and the loop ends after it; the commit pass that gains 0, accepts
no move and reactivates three vertices is followed by another one. -/
theorem phases_loop_ends_without_reactivated_witness :
    ((path_env.apply_moves path_config false []
          { path_world_seeded [0, 1, 0, 1] with queue := [] }).reactivated_vertices = [] ∧
      (parallel_phases path_env path_config true false (0 + 1)
          (path_world_seeded [0, 1, 0, 1]) [] 0 0 []).outcome = Outcome.returned 2) ∧
    ((requeue_env.apply_moves path_config false []
          { path_world_seeded [0, 1, 0, 1] with queue := [2] }).reactivated_vertices ≠ [] ∧
      (requeue_env.apply_moves path_config false []
          { path_world_seeded [0, 1, 0, 1] with queue := [2] }).real_gain_improvement = 0 ∧
      (requeue_env.apply_moves path_config false []
          { path_world_seeded [0, 1, 0, 1] with queue := [2] }).real_nodes_movement = 0 ∧
      (parallel_phases requeue_env path_config true false 1
          (path_world_seeded [0, 1, 0, 1]) [] 0 0 []).outcome = Outcome.out_of_fuel) :=
  ⟨⟨by decide,
      by
        rw [(phases_loop_ends_without_reactivated path_env path_config true false 0
          (path_world_seeded [0, 1, 0, 1]) { path_world_seeded [0, 1, 0, 1] with queue := [] }
          [] 0 0 [] rfl rfl (by decide)).1 (by decide)]
        decide⟩,
    ⟨by decide, by decide, by decide,
      ((phases_loop_ends_without_reactivated requeue_env path_config true false 0
        (path_world_seeded [0, 1, 0, 1]) { path_world_seeded [0, 1, 0, 1] with queue := [2] }
        [] 0 0 [] rfl rfl (by decide)).2 (by decide)).1⟩⟩

/-- C18, counterexample: every commit pass of the instance `requeue_env` returns the
real gain 0 with no move accepted, and yet the call on the start nodes `[1, 2]` makes a
second commit pass after the first one (and with the fuel 2 the loop is still not at its
end). -/
theorem zero_gain_pass_is_followed :
    (∀ cfg c tb w, (requeue_env.apply_moves cfg c tb w).real_gain_improvement = 0 ∧
      (requeue_env.apply_moves cfg c tb w).real_nodes_movement = 0) ∧
    (start_more_locallized_search requeue_env path_config true false [] [1, 2] 2
      (path_world [0, 1, 0, 1])).real_gains = [0, 0] ∧
    (start_more_locallized_search requeue_env path_config true false [] [1, 2] 2
      (path_world [0, 1, 0, 1])).outcome = Outcome.out_of_fuel :=
  ⟨fun _ _ _ _ => ⟨rfl, rfl⟩, by decide, by decide⟩

/-! ## Claims about the configuration in force -/

/-- Every round a run of the rounds loop adds holds a run of the localized search made
with the configuration the loop was given, on the start nodes of the round. -/
theorem rounds_searches {A X : Type} (env : Collaborators A X)
    (config : PartitionConfig A) (i : Bool) (setup : X → List NodeID) (c : Bool)
    (fuel n : Nat) (w : World X) (tb : TouchedBlocks) (overall : Int)
    (log : List (RoundRecord X))
    (hlog : ∀ record ∈ log, ∃ tb1 w1, record.search =
      start_more_locallized_search env config i c tb1 record.start_nodes fuel w1) :
    ∀ record ∈ (refinement_rounds env config i setup c fuel n w tb overall log).rounds,
      ∃ tb1 w1, record.search =
        start_more_locallized_search env config i c tb1 record.start_nodes fuel w1 := by
  revert hlog
  have key : ∀ (w : World X) (tb : TouchedBlocks) (log : List (RoundRecord X))
      (r : SearchRun X),
      r = start_more_locallized_search env config i c (if c then tb else []) (setup w.ext)
        fuel w →
      (∀ record ∈ log, ∃ tb1 w1, record.search =
        start_more_locallized_search env config i c tb1 record.start_nodes fuel w1) →
      ∀ record ∈ log ++ [(⟨setup w.ext, r⟩ : RoundRecord X)], ∃ tb1 w1, record.search =
        start_more_locallized_search env config i c tb1 record.start_nodes fuel w1 := by
    intro w tb log r hr hlog record hrec
    rcases List.mem_append.mp hrec with hrec | hrec
    · exact hlog record hrec
    · have : record = ⟨setup w.ext, r⟩ := by simpa using hrec
      subst this
      exact ⟨if c then tb else [], w, hr⟩
  refine refinement_rounds_cases env config i setup c fuel
    (fun _ _ _ _ log R =>
      (∀ record ∈ log, ∃ tb1 w1, record.search =
        start_more_locallized_search env config i c tb1 record.start_nodes fuel w1) →
      ∀ record ∈ R.rounds, ∃ tb1 w1, record.search =
        start_more_locallized_search env config i c tb1 record.start_nodes fuel w1)
    ?_ ?_ ?_ ?_ ?_ n w tb overall log
  · intro w tb overall log hlog
    exact hlog
  · intro n w tb overall log _ hlog
    exact hlog
  · intro n w tb overall log r _ hr _ hlog
    exact key w tb log r hr hlog
  · intro n w tb overall log r improvement _ hr _ _ R ih hlog
    exact ih (key w tb log r hr hlog)
  · intro n w tb overall log r _ hr _ hlog
    exact key w tb log r hr hlog

/-- C19: every localized search that `perform_refinement` or
`perform_refinement_around_parts` makes is made with the configuration
`override_config env config alpha`, in which `kway_stop_rule` is the adaptive stop rule
and `kway_adaptive_limits_alpha` is the argument `alpha` (converted to the type of the
field), whatever the two fields held on entry; the other fields are those of the
configuration on entry. -/
theorem search_config_in_force {A X : Type} (env : Collaborators A X)
    (config : PartitionConfig A) (w : World X) (rounds : Nat) (init_neighbors : Bool)
    (alpha : Nat) (lhs rhs : PartitionID) (tb : TouchedBlocks) (fuel : Nat) :
    ((override_config env config alpha).kway_stop_rule = KWayStopRule.KWAY_ADAPTIVE_STOP_RULE ∧
      (override_config env config alpha).kway_adaptive_limits_alpha
        = env.alpha_of_unsigned alpha ∧
      (override_config env config alpha).num_threads = config.num_threads ∧
      (override_config env config alpha).local_multitry_rounds
        = config.local_multitry_rounds) ∧
    (∀ record ∈ (perform_refinement env config w rounds init_neighbors alpha fuel).rounds,
      ∃ tb1 w1, record.search =
        start_more_locallized_search env (override_config env config alpha) init_neighbors
          false tb1 record.start_nodes fuel w1) ∧
    (∀ record ∈ (perform_refinement_around_parts env config w init_neighbors alpha lhs rhs tb
        fuel).rounds,
      ∃ tb1 w1, record.search =
        start_more_locallized_search env (override_config env config alpha) init_neighbors
          true tb1 record.start_nodes fuel w1) := by
  refine ⟨⟨rfl, rfl, rfl, rfl⟩, ?_, ?_⟩
  · rw [perform_refinement_rounds]
    exact rounds_searches env (override_config env config alpha) init_neighbors
      env.setup_start_nodes_all false fuel rounds w [] 0 [] (by simp)
  · rw [around_parts_rounds]
    exact rounds_searches env (override_config env config alpha) init_neighbors
      (fun x => env.setup_start_nodes_around_blocks x lhs rhs) true fuel
      (override_config env config alpha).local_multitry_rounds w tb 0 [] (by simp)

/-- C19, on the path: the configuration enters with a stop rule other than the adaptive
one and `alpha = 7`; the two searches of the call with `alpha = 1` are made with the
adaptive stop rule and `alpha = 1`. -/
theorem search_config_in_force_witness :
    path_config.kway_stop_rule = KWayStopRule.other 0 ∧
    path_config.kway_adaptive_limits_alpha = 7 ∧
    (override_config path_env path_config 1).kway_stop_rule
      = KWayStopRule.KWAY_ADAPTIVE_STOP_RULE ∧
    (override_config path_env path_config 1).kway_adaptive_limits_alpha = 1 ∧
    (perform_refinement path_env path_config (path_world [0, 1, 0, 1]) 3 true 1 5).rounds.length
      = 2 ∧
    (∀ record ∈
      (perform_refinement path_env path_config (path_world [0, 1, 0, 1]) 3 true 1 5).rounds,
      ∃ tb1 w1, record.search =
        start_more_locallized_search path_env (override_config path_env path_config 1) true
          false tb1 record.start_nodes 5 w1) :=
  ⟨rfl, rfl, rfl, rfl, by decide,
    (search_config_in_force path_env path_config (path_world [0, 1, 0, 1]) 3 true 1 0 1 [] 5).2.1⟩

/-! ## Claims about the statistics -/

/-- An integer that is a value of `int` is the value of the `int` object it is given
to. -/
theorem int_wrap_of_fits (x : Int) (h : fits_int x) : int_wrap x = x := by
  unfold fits_int at h
  unfold int_wrap
  omega

/-- The value of an `int` object is a value of `int`. -/
theorem fits_int_wrap (x : Int) : fits_int (int_wrap x) := by
  unfold fits_int int_wrap
  omega

/-- The loop over `m_statistics` succeeds when every entry has as many per-thread
records as the accumulator, and adds up the entries' `total_performed_gain` when no
addition overflows. -/
theorem accumulate_statistics_total (stats : List statistics_type) :
    ∀ (stat : statistics_type),
      (∀ st ∈ stats, st.proc_stats.length = stat.proc_stats.length) →
      (∀ k, k ≤ stats.length →
        fits_int (stat.total_performed_gain +
          ((stats.take k).map fun st => st.total_performed_gain).sum)) →
      ∃ stat1, accumulate_statistics stat stats = some stat1 ∧
        stat1.total_performed_gain =
          stat.total_performed_gain + (stats.map fun st => st.total_performed_gain).sum ∧
        stat1.proc_stats.length = stat.proc_stats.length := by
  induction stats with
  | nil =>
    intro stat _ _
    exact ⟨stat, rfl, by simp, rfl⟩
  | cons st rest ih =>
    intro stat h hfit
    have hst : stat.proc_stats.length = st.proc_stats.length :=
      (h st (List.mem_cons_self _ _)).symm
    have hadd : int_add stat.total_performed_gain st.total_performed_gain =
        stat.total_performed_gain + st.total_performed_gain := by
      have h1 := hfit 1 (by simp)
      simp only [List.take_succ_cons, List.take_zero, List.map_cons, List.map_nil,
        List.sum_cons, List.sum_nil, add_zero] at h1
      exact int_wrap_of_fits _ h1
    simp only [accumulate_statistics, statistics_type.add_assign, hst, ↓reduceIte]
    obtain ⟨stat1, h1, h2, h3⟩ := ih
      { total_tried_movements := add_u32 stat.total_tried_movements st.total_tried_movements
        total_accepted_movements :=
          add_u32 stat.total_accepted_movements st.total_accepted_movements
        total_scanned_neighbours :=
          add_u32 stat.total_scanned_neighbours st.total_scanned_neighbours
        total_num_part_accesses :=
          add_size_t stat.total_num_part_accesses st.total_num_part_accesses
        total_performed_gain := int_add stat.total_performed_gain st.total_performed_gain
        total_unperformed_gain :=
          int_add stat.total_unperformed_gain st.total_unperformed_gain
        total_stop_empty_queue := add_u32 stat.total_stop_empty_queue st.total_stop_empty_queue
        total_stop_stopping_rule :=
          add_u32 stat.total_stop_stopping_rule st.total_stop_stopping_rule
        total_stop_max_number_of_swaps :=
          add_u32 stat.total_stop_max_number_of_swaps st.total_stop_max_number_of_swaps
        total_stop_faction_of_nodes_moved :=
          add_u32 stat.total_stop_faction_of_nodes_moved st.total_stop_faction_of_nodes_moved
        proc_stats := List.zipWith proc_stat.add_assign stat.proc_stats st.proc_stats }
      (by
        intro st1 hst1
        simp only [List.length_zipWith, hst, min_self]
        rw [h st1 (List.mem_cons_of_mem _ hst1), hst])
      (by
        intro k hk
        have h1 := hfit (k + 1) (by simp only [List.length_cons]; omega)
        simp only [List.take_succ_cons, List.map_cons, List.sum_cons] at h1
        show fits_int (int_add stat.total_performed_gain st.total_performed_gain + _)
        rw [hadd, add_assoc]
        exact h1)
    refine ⟨stat1, h1, ?_, ?_⟩
    · rw [h2]
      show int_add stat.total_performed_gain st.total_performed_gain + _ = _
      rw [hadd]
      simp only [List.map_cons, List.sum_cons]
      omega
    · rw [h3]
      simp only [List.length_zipWith, hst, min_self]

/-- The loop of `print_iteration_statistics` over `n` threads pushes one record per
thread, in the order of the thread ids, and adds up the performed gains of the threads
when no addition overflows. -/
theorem for_range_record_thread (m_thread_data : Nat → thread_counters) (n : Nat)
    (stat : statistics_type) :
    ((∀ k, k ≤ n → fits_int (stat.total_performed_gain +
          ((List.range k).map fun id => (m_thread_data id).performed_gain).sum)) →
      (for_range n (record_thread m_thread_data) stat).total_performed_gain =
        stat.total_performed_gain +
          ((List.range n).map fun id => (m_thread_data id).performed_gain).sum) ∧
      (for_range n (record_thread m_thread_data) stat).proc_stats.map
          (fun ps => (ps.proc_id, ps.performed_gain)) =
        stat.proc_stats.map (fun ps => (ps.proc_id, ps.performed_gain)) ++
          (List.range n).map fun id => (id, (m_thread_data id).performed_gain) := by
  induction n with
  | zero => simp [for_range_zero]
  | succ n ih =>
    rw [for_range_succ]
    obtain ⟨h1, h2⟩ := ih
    constructor
    · intro hfit
      have h3 := h1 (fun k hk => hfit k (Nat.le_succ_of_le hk))
      have h4 := hfit (n + 1) (le_refl _)
      simp only [List.range_succ, List.map_append, List.sum_append, List.map_cons,
        List.map_nil, List.sum_cons, List.sum_nil, add_zero] at h4 ⊢
      show int_add _ _ = _
      rw [h3, int_add, int_wrap_of_fits _ (by rw [add_assoc]; exact h4)]
      omega
    · simp only [record_thread, List.map_append, h2, List.range_succ, List.map_cons,
        List.map_nil, proc_stat.zero, List.append_assoc]

/-- A number below `2 ^ k` has at most `k` binary digits. -/
theorem bit_length_aux_le (fuel : Nat) :
    ∀ (n k : Nat), n < 2 ^ k → bit_length_aux fuel n ≤ k := by
  induction fuel with
  | zero => intro n k _; simp [bit_length_aux]
  | succ fuel ih =>
    intro n k h
    simp only [bit_length_aux]
    split
    · exact Nat.zero_le k
    · rename_i hn
      cases k with
      | zero =>
        simp only [pow_zero] at h
        omega
      | succ k =>
        have h2 : n / 2 < 2 ^ k := by
          rw [pow_succ] at h
          omega
        have := ih (n / 2) k h2
        omega

/-- Rounding to the nearest multiple does not go below the multiples below. -/
theorem round_half_even_ge (n u : Nat) : n / u ≤ round_half_even n u := by
  unfold round_half_even
  split
  · exact le_refl _
  · split
    · omega
    · split <;> omega

/-- Rounding to the nearest multiple of `u` adds at most half of `u`. -/
theorem round_half_even_le (n u : Nat) :
    2 * (round_half_even n u * u) ≤ 2 * n + u := by
  have hdm : u * (n / u) + n % u = n := Nat.div_add_mod n u
  have h1 : (n / u + 1) * u = u * (n / u) + u := by ring
  have h2 : n / u * u = u * (n / u) := by ring
  unfold round_half_even
  split
  · rw [h2]; omega
  · split
    · rw [h1]; omega
    · split
      · rw [h2]; omega
      · rw [h1]; omega

/-- The `double` product `0.05 * n` lies between `⌊n / 20⌋` and the next integer, for
every `n` that fits 32 bits. -/
theorem double_mul_0_05_bounds (n : Nat) (hn : n < 4294967296) :
    (n / 20) * 72057594037927936 ≤ double_mul_0_05 n ∧
      2 * double_mul_0_05 n ≤ 2 * (3602879701896397 * n) + 2147483648 := by
  have hN : double_0_05 * n < 2 ^ 84 := by
    have : (2 : Nat) ^ 84 = 19342813113834066795298816 := by norm_num
    rw [this, double_0_05]
    omega
  have hbits : bit_length (double_0_05 * n) ≤ 84 :=
    bit_length_aux_le _ _ 84 hN
  have hsh : bit_length (double_0_05 * n) - 53 ≤ 31 := by omega
  have hu31 : 2 ^ (bit_length (double_0_05 * n) - 53) ≤ 2147483648 := by
    have h := Nat.pow_le_pow_right (by norm_num : 0 < 2) hsh
    have h31 : (2 : Nat) ^ 31 = 2147483648 := by norm_num
    rw [h31] at h
    exact h
  have hupos : 0 < 2 ^ (bit_length (double_0_05 * n) - 53) := Nat.pow_pos (by norm_num)
  have hsplit : 2 ^ (56 - (bit_length (double_0_05 * n) - 53))
      * 2 ^ (bit_length (double_0_05 * n) - 53) = 72057594037927936 := by
    rw [← pow_add]
    have : 56 - (bit_length (double_0_05 * n) - 53) + (bit_length (double_0_05 * n) - 53)
        = 56 := by omega
    rw [this]
    norm_num
  constructor
  · have hle : n / 20 * 2 ^ (56 - (bit_length (double_0_05 * n) - 53))
        ≤ double_0_05 * n / 2 ^ (bit_length (double_0_05 * n) - 53) := by
      rw [Nat.le_div_iff_mul_le hupos, Nat.mul_assoc, hsplit, double_0_05]
      omega
    have hle2 := le_trans hle (round_half_even_ge (double_0_05 * n)
      (2 ^ (bit_length (double_0_05 * n) - 53)))
    have hmul := Nat.mul_le_mul_right (2 ^ (bit_length (double_0_05 * n) - 53)) hle2
    rw [Nat.mul_assoc, hsplit] at hmul
    exact hmul
  · have h := round_half_even_le (double_0_05 * n) (2 ^ (bit_length (double_0_05 * n) - 53))
    have hd : double_0_05 * n = 3602879701896397 * n := rfl
    unfold double_mul_0_05
    rw [hd] at h ⊢
    rw [hd] at hu31
    omega

/-- For an `int` sum and a number of nodes that fits 32 bits, the `double` test of line
190 is the exact test `20 * sum > n`. -/
theorem exceeds_fraction_iff (movement : Int) (n : Nat) (hn : n < 4294967296) :
    exceeds_fraction movement n = true ↔ (n : Int) < 20 * movement := by
  obtain ⟨h1, h2⟩ := double_mul_0_05_bounds n hn
  unfold exceeds_fraction
  rw [decide_eq_true_iff]
  constructor
  · intro h
    omega
  · intro h
    omega

/-- The loop of lines 185 to 188 adds up the move-counters of the threads, when no
addition overflows. -/
theorem overall_movement_eq {X : Type} (num_threads : Nat) (w : World X)
    (hfit : no_int_overflow ((List.range num_threads).map w.m_moved_count)) :
    overall_movement num_threads w = ((List.range num_threads).map w.m_moved_count).sum := by
  unfold overall_movement
  have h : ∀ n, n ≤ num_threads →
      for_range n (fun id acc => int_add acc (w.m_moved_count id)) 0 =
        ((List.range n).map w.m_moved_count).sum := by
    intro n
    induction n with
    | zero => intro _; simp [for_range_zero]
    | succ n ih =>
      intro hn
      rw [for_range_succ, ih (Nat.le_of_succ_le hn)]
      have h1 := hfit (n + 1) (by simpa using hn)
      rw [← List.map_take, List.take_range, min_eq_left hn] at h1
      simp only [List.range_succ, List.map_append, List.sum_append, List.map_cons,
        List.map_nil, List.sum_cons, List.sum_nil, add_zero] at h1 ⊢
      exact int_wrap_of_fits _ h1
  exact h num_threads (le_refl _)

/-- A seed that does not meet the condition of line 146 leaves the state of the worker
as it is. -/
theorem handle_seed_no_chain {X : Type} (ops : WorkerCollaborators X) (id : Nat)
    (init_neighbors : Bool) (node : NodeID) (st : WorkerState X)
    (h : ¬ starts_chain ops node st) :
    handle_seed ops id init_neighbors node st = some st := by
  unfold starts_chain at h
  simp only [handle_seed, h, ↓reduceIte]

/-- A seed whose chain leaves an empty transposition log fails the assertion. -/
theorem handle_seed_empty_log {X : Type} (ops : WorkerCollaborators X) (id : Nat)
    (init_neighbors : Bool) (node : NodeID) (st : WorkerState X)
    (h : starts_chain ops node st)
    (hlog : (seed_chain ops id init_neighbors node st).2.1.transpositions = []) :
    handle_seed ops id init_neighbors node st = none := by
  unfold starts_chain at h
  unfold seed_chain seed_start_nodes at hlog
  simp only [handle_seed, h, and_self, ↓reduceIte, hlog, List.length_nil, lt_self_iff_false]

/-- A seed whose chain leaves a non-empty transposition log is handled without a failed
assertion, whatever improvement the chain reports; the state it leaves is the one given
here. -/
theorem handle_seed_chain {X : Type} (ops : WorkerCollaborators X) (id : Nat)
    (init_neighbors : Bool) (node : NodeID) (st : WorkerState X)
    (h : starts_chain ops node st)
    (hlog : (seed_chain ops id init_neighbors node st).2.1.transpositions ≠ []) :
    handle_seed ops id init_neighbors node st = some
      ⟨{ (seed_chain ops id init_neighbors node st).2.1 with
          upper_bound_gain_improvement :=
            (seed_chain ops id init_neighbors node st).2.1.upper_bound_gain_improvement
              + (seed_chain ops id init_neighbors node st).1.1
          min_cut_indices :=
            (seed_chain ops id init_neighbors node st).2.1.min_cut_indices ++
              [((seed_chain ops id init_neighbors node st).1.2.1,
                (seed_chain ops id init_neighbors node st).2.1.transpositions.length - 1)]
          tried_movements :=
            (seed_chain ops id init_neighbors node st).2.1.tried_movements
              + (seed_chain ops id init_neighbors node st).1.2.2 },
        { (seed_chain ops id init_neighbors node st).2.2 with
          m_moved_count :=
            Function.update (seed_chain ops id init_neighbors node st).2.2.m_moved_count id
              ((seed_chain ops id init_neighbors node st).2.2.m_moved_count id
                + (seed_chain ops id init_neighbors node st).2.1.moved.length) },
        (st.nodes_processed + (seed_start_nodes ops init_neighbors node st).start_nodes.length)
          % 4294967296,
        if (seed_chain ops id init_neighbors node st).1.1 < 0 then st.buf_errors + 1
        else st.buf_errors⟩ := by
  unfold starts_chain at h
  have hpos : 0 < (seed_chain ops id init_neighbors node st).2.1.transpositions.length :=
    List.length_pos.mpr hlog
  unfold seed_chain seed_start_nodes at hpos ⊢
  simp only [handle_seed, h, and_self, ↓reduceIte, hpos]

/-- A worker whose queue is empty returns the number of nodes it has processed. -/
theorem task_loop_empty {X : Type} (ops : WorkerCollaborators X) (id : Nat)
    (init_neighbors : Bool) (num_threads fuel : Nat) (st : WorkerState X)
    (hq : st.world.queue = []) :
    task_loop ops id init_neighbors num_threads fuel st =
      ⟨Outcome.returned st.nodes_processed, st⟩ := by
  cases fuel <;> simp [task_loop, hq]

/-- A popped seed after which the test of line 190 holds ends the task early. -/
theorem task_loop_stop {X : Type} (ops : WorkerCollaborators X) (id : Nat)
    (init_neighbors : Bool) (num_threads fuel : Nat) (st st1 : WorkerState X)
    (node : NodeID) (rest : List NodeID) (hq : st.world.queue = node :: rest)
    (hs : handle_seed ops id init_neighbors node
      { st with world := { st.world with queue := rest } } = some st1)
    (hx : exceeds_fraction (overall_movement num_threads st1.world)
      (ops.number_of_nodes st1.world.ext) = true) :
    task_loop ops id init_neighbors num_threads (fuel + 1) st = stop_early st1 := by
  simp [task_loop, hq, hs, hx]

/-- A popped seed after which the test of line 190 fails is followed by the next pop. -/
theorem task_loop_continue {X : Type} (ops : WorkerCollaborators X) (id : Nat)
    (init_neighbors : Bool) (num_threads fuel : Nat) (st st1 : WorkerState X)
    (node : NodeID) (rest : List NodeID) (hq : st.world.queue = node :: rest)
    (hs : handle_seed ops id init_neighbors node
      { st with world := { st.world with queue := rest } } = some st1)
    (hx : exceeds_fraction (overall_movement num_threads st1.world)
      (ops.number_of_nodes st1.world.ext) = false) :
    task_loop ops id init_neighbors num_threads (fuel + 1) st =
      task_loop ops id init_neighbors num_threads fuel st1 := by
  simp [task_loop, hq, hs, hx]

/-- C14, at the failing input: on the path `0 – 1 – 2 – 3` with the blocks
`[0, 0, 1, 0]`, no vertex claimed and `init_neighbors`, the seed 1 starts a chain;
its neighbour 2 is not claimed and is a boundary vertex (external degree 2 with respect
to its own block 1), so the start set of the specification is `[1, 2]`; the code asks
the gain oracle about vertex 2 with the block 0 of the seed, gets the external degree 0,
and builds the start set `[1]`. Without `init_neighbors` both are `[1]`. -/
theorem start_set_misses_boundary_neighbor :
    starts_chain path_worker 1 ⟨thread_data.zero, worker_world [0, 0, 1, 0] [], 0, 0⟩ ∧
    (worker_world [0, 0, 1, 0] []).m_moved_idx 2 = false ∧
    spec_extdeg (path_edges 2) (fun u => [0, 0, 1, 0].getD u 0) ([0, 0, 1, 0].getD 2 0) = 2 ∧
    path_worker.compute_gain thread_data.zero (worker_world [0, 0, 1, 0] []) 2
      (path_worker.get_local_partition thread_data.zero (worker_world [0, 0, 1, 0] []) 1) = 0 ∧
    claimed_start_nodes path_worker true 1 thread_data.zero (worker_world [0, 0, 1, 0] [])
      = [1, 2] ∧
    (seed_start_nodes path_worker true 1
      ⟨thread_data.zero, worker_world [0, 0, 1, 0] [], 0, 0⟩).start_nodes = [1] ∧
    (handle_seed path_worker 0 true 1
        ⟨thread_data.zero, worker_world [0, 0, 1, 0] [], 0, 0⟩).map
      (fun st => st.td.start_nodes) = some [1] ∧
    claimed_start_nodes path_worker false 1 thread_data.zero (worker_world [0, 0, 1, 0] [])
      = [1] ∧
    (seed_start_nodes path_worker false 1
      ⟨thread_data.zero, worker_world [0, 0, 1, 0] [], 0, 0⟩).start_nodes = [1] := by
  refine ⟨?_, by decide, by decide, by decide, by decide, by decide, by decide, by decide,
    by decide⟩
  unfold starts_chain
  decide

/-- C15, as the code has it: a seed that starts no chain leaves the min-cut-indices list
(and the rest of the worker's state) as it is; a seed whose chain leaves a non-empty
transposition log appends exactly one pair to the list the chain left, namely the
`min_cut_index` the chain returned and the index of the last record of the log, i.e. the
number of records minus one. -/
theorem min_cut_index_emission {X : Type} (ops : WorkerCollaborators X) (id : Nat)
    (init_neighbors : Bool) (node : NodeID) (st : WorkerState X) :
    (¬ starts_chain ops node st →
      handle_seed ops id init_neighbors node st = some st) ∧
    (starts_chain ops node st →
      (seed_chain ops id init_neighbors node st).2.1.transpositions ≠ [] →
      ∃ st1, handle_seed ops id init_neighbors node st = some st1 ∧
        st1.td.transpositions = (seed_chain ops id init_neighbors node st).2.1.transpositions ∧
        st1.td.min_cut_indices =
          (seed_chain ops id init_neighbors node st).2.1.min_cut_indices ++
            [((seed_chain ops id init_neighbors node st).1.2.1,
              (seed_chain ops id init_neighbors node st).2.1.transpositions.length - 1)] ∧
        (seed_chain ops id init_neighbors node st).2.1.transpositions.length - 1 + 1
          = st1.td.transpositions.length) := by
  constructor
  · intro h
    exact handle_seed_no_chain ops id init_neighbors node st h
  · intro h hlog
    refine ⟨_, handle_seed_chain ops id init_neighbors node st h hlog, rfl, rfl, ?_⟩
    have hpos : 0 < (seed_chain ops id init_neighbors node st).2.1.transpositions.length :=
      List.length_pos.mpr hlog
    show _ = (seed_chain ops id init_neighbors node st).2.1.transpositions.length
    omega

/-- C15, on the path with the blocks `[0, 0, 1, 1]`: the seed 0 starts no chain and the
state is unchanged; the seed 1 starts a chain that logs two records and returns the
min-cut index `-1`, and the pair appended is `(-1, 1)`. -/
theorem min_cut_index_emission_witness :
    (¬ starts_chain path_worker 0 ⟨thread_data.zero, worker_world [0, 0, 1, 1] [], 0, 0⟩ ∧
      handle_seed path_worker 0 true 0 ⟨thread_data.zero, worker_world [0, 0, 1, 1] [], 0, 0⟩
        = some ⟨thread_data.zero, worker_world [0, 0, 1, 1] [], 0, 0⟩) ∧
    (starts_chain path_worker 1 ⟨thread_data.zero, worker_world [0, 0, 1, 1] [], 0, 0⟩ ∧
      (seed_chain path_worker 0 true 1
        ⟨thread_data.zero, worker_world [0, 0, 1, 1] [], 0, 0⟩).2.1.transpositions.length = 2 ∧
      (seed_chain path_worker 0 true 1
        ⟨thread_data.zero, worker_world [0, 0, 1, 1] [], 0, 0⟩).1.2.1 = -1 ∧
      ∃ st1, handle_seed path_worker 0 true 1
          ⟨thread_data.zero, worker_world [0, 0, 1, 1] [], 0, 0⟩ = some st1 ∧
        st1.td.transpositions = (seed_chain path_worker 0 true 1
          ⟨thread_data.zero, worker_world [0, 0, 1, 1] [], 0, 0⟩).2.1.transpositions ∧
        st1.td.min_cut_indices =
          (seed_chain path_worker 0 true 1
            ⟨thread_data.zero, worker_world [0, 0, 1, 1] [], 0, 0⟩).2.1.min_cut_indices ++
            [((seed_chain path_worker 0 true 1
                ⟨thread_data.zero, worker_world [0, 0, 1, 1] [], 0, 0⟩).1.2.1,
              (seed_chain path_worker 0 true 1
                ⟨thread_data.zero, worker_world [0, 0, 1, 1] [], 0, 0⟩).2.1.transpositions.length
                - 1)] ∧
        (seed_chain path_worker 0 true 1
            ⟨thread_data.zero, worker_world [0, 0, 1, 1] [], 0, 0⟩).2.1.transpositions.length
            - 1 + 1 = st1.td.transpositions.length) :=
  ⟨⟨by unfold starts_chain; decide,
      (min_cut_index_emission path_worker 0 true 0
        ⟨thread_data.zero, worker_world [0, 0, 1, 1] [], 0, 0⟩).1
        (by unfold starts_chain; decide)⟩,
    ⟨by unfold starts_chain; decide, by decide, by decide,
      (min_cut_index_emission path_worker 0 true 1
        ⟨thread_data.zero, worker_world [0, 0, 1, 1] [], 0, 0⟩).2
        (by unfold starts_chain; decide) (by decide)⟩⟩

/-- C15, counterexample: on the path with the blocks `[0, 0, 1, 1]` the chain of the seed
1 leaves two records in the transposition log, and the pair appended to the
min-cut-indices list is `(-1, 1)`: its second component is not the number of records. -/
theorem min_cut_pair_is_not_log_length :
    (handle_seed path_worker 0 true 1
        ⟨thread_data.zero, worker_world [0, 0, 1, 1] [], 0, 0⟩).map
      (fun st => (st.td.transpositions.length, st.td.min_cut_indices)) = some (2, [(-1, 1)]) ∧
    ¬ (handle_seed path_worker 0 true 1
        ⟨thread_data.zero, worker_world [0, 0, 1, 1] [], 0, 0⟩).map
      (fun st => st.td.min_cut_indices) = some [(-1, 2)] := by
  constructor <;> decide

/-- The values of the workers' `upper_bound_gain_improvement` do not enter a run of the
loop over the parallel phases: with other values, and another value of the local sum,
the run has the same outcome, world, `touched_blocks` and real gains. -/
theorem parallel_phases_upper_bounds {A X : Type} (env : Collaborators A X)
    (f : X → Nat → Int) (config : PartitionConfig A) (i c : Bool) (fuel : Nat) :
    ∀ (w : World X) (tb : TouchedBlocks) (ub ub1 total : Int) (gains : List Int),
      (parallel_phases (with_upper_bounds env f) config i c fuel w tb ub1 total gains).outcome
          = (parallel_phases env config i c fuel w tb ub total gains).outcome ∧
        (parallel_phases (with_upper_bounds env f) config i c fuel w tb ub1 total gains).world
          = (parallel_phases env config i c fuel w tb ub total gains).world ∧
        (parallel_phases (with_upper_bounds env f) config i c fuel w tb ub1 total
            gains).touched_blocks
          = (parallel_phases env config i c fuel w tb ub total gains).touched_blocks ∧
        (parallel_phases (with_upper_bounds env f) config i c fuel w tb ub1 total
            gains).real_gains
          = (parallel_phases env config i c fuel w tb ub total gains).real_gains := by
  induction fuel with
  | zero =>
    intro w tb ub ub1 total gains
    cases hq : w.queue.isEmpty
    · rw [parallel_phases_zero _ config i c w tb ub1 total gains hq,
        parallel_phases_zero env config i c w tb ub total gains hq]
      exact ⟨rfl, rfl, rfl, rfl⟩
    · rw [parallel_phases_empty _ config i c 0 w tb ub1 total gains hq,
        parallel_phases_empty env config i c 0 w tb ub total gains hq]
      exact ⟨rfl, rfl, rfl, rfl⟩
  | succ fuel ih =>
    intro w tb ub ub1 total gains
    cases hq : w.queue.isEmpty
    · cases ht : env.run_tasks config i w with
      | none =>
        have ht1 : (with_upper_bounds env f).run_tasks config i w = none := ht
        rw [parallel_phases_tasks_abort _ config i c fuel w tb ub1 total gains hq ht1,
          parallel_phases_tasks_abort env config i c fuel w tb ub total gains hq ht]
        exact ⟨rfl, rfl, rfl, rfl⟩
      | some w1 =>
        have ht1 : (with_upper_bounds env f).run_tasks config i w = some w1 := ht
        by_cases hg : 0 ≤ (env.apply_moves config c tb w1).real_gain_improvement
        · have hg1 : 0 ≤ ((with_upper_bounds env f).apply_moves config c tb
              w1).real_gain_improvement := hg
          rw [parallel_phases_step _ config i c fuel w w1 tb ub1 total gains hq ht1 hg1,
            parallel_phases_step env config i c fuel w w1 tb ub total gains hq ht hg]
          exact ih _ _ _ _ _ _
        · have hg1 : ¬ 0 ≤ ((with_upper_bounds env f).apply_moves config c tb
              w1).real_gain_improvement := hg
          rw [parallel_phases_step_neg _ config i c fuel w w1 tb ub1 total gains hq ht1 hg1,
            parallel_phases_step_neg env config i c fuel w w1 tb ub total gains hq ht hg]
          exact ⟨rfl, rfl, rfl, rfl⟩
    · rw [parallel_phases_empty _ config i c (fuel + 1) w tb ub1 total gains hq,
        parallel_phases_empty env config i c (fuel + 1) w tb ub total gains hq]
      exact ⟨rfl, rfl, rfl, rfl⟩

/-- The values of the workers' `upper_bound_gain_improvement` do not enter the outcome
of the localized search. -/
theorem search_upper_bounds {A X : Type} (env : Collaborators A X) (f : X → Nat → Int)
    (config : PartitionConfig A) (i c : Bool) (tb : TouchedBlocks) (todolist : List NodeID)
    (fuel : Nat) (w : World X) :
    (start_more_locallized_search (with_upper_bounds env f) config i c tb todolist fuel
        w).outcome = (start_more_locallized_search env config i c tb todolist fuel w).outcome ∧
      (start_more_locallized_search (with_upper_bounds env f) config i c tb todolist fuel
        w).real_gains
        = (start_more_locallized_search env config i c tb todolist fuel w).real_gains := by
  have hseed : seed_queue (with_upper_bounds env f) todolist.length todolist
      (reset_global_data (with_upper_bounds env f) config w) =
      seed_queue env todolist.length todolist (reset_global_data env config w) := by
    have hreset : reset_global_data (with_upper_bounds env f) config w
        = reset_global_data env config w := rfl
    rw [hreset]
    generalize reset_global_data env config w = w0
    generalize todolist.length = n
    induction n generalizing todolist w0 with
    | zero => cases todolist <;> rfl
    | succ n ih =>
      cases todolist with
      | nil => rfl
      | cons v rest =>
        simp only [seed_queue]
        have hstep : seed_step (with_upper_bounds env f) (v :: rest) w0
            = seed_step env (v :: rest) w0 := rfl
        rw [hstep]
        cases seed_step env (v :: rest) w0 with
        | none => rfl
        | some p => exact ih p.1 p.2
  simp only [start_more_locallized_search, hseed]
  cases hs : seed_queue env todolist.length todolist (reset_global_data env config w) with
  | returned w1 =>
    obtain ⟨h1, _, _, h4⟩ := parallel_phases_upper_bounds env f config i c fuel w1 tb 0 0 0 []
    exact ⟨h1, h4⟩
  | aborted a => exact ⟨rfl, rfl⟩
  | undefined_behaviour => exact ⟨rfl, rfl⟩
  | out_of_fuel => exact ⟨rfl, rfl⟩

/-- C20, as the code has it: a chain that reports an improvement below 0 makes the worker
print the message and add the improvement to `upper_bound_gain_improvement`, and nothing
else: the seed is handled without a failed assertion exactly when the chain leaves a
non-empty transposition log, whatever the improvement is; and the values of the workers'
`upper_bound_gain_improvement` do not enter the localized search, whose outcome and real
gains are the same for any other values. -/
theorem negative_improvement_not_asserted {A X : Type} (ops : WorkerCollaborators X)
    (id : Nat) (init_neighbors : Bool) (node : NodeID) (st : WorkerState X)
    (env : Collaborators A X) (f : X → Nat → Int) (config : PartitionConfig A)
    (compute_touched_blocks : Bool) (tb : TouchedBlocks) (todolist : List NodeID)
    (fuel : Nat) (w : World X) :
    (starts_chain ops node st →
      (seed_chain ops id init_neighbors node st).2.1.transpositions ≠ [] →
      ∃ st1, handle_seed ops id init_neighbors node st = some st1 ∧
        st1.td.upper_bound_gain_improvement =
          (seed_chain ops id init_neighbors node st).2.1.upper_bound_gain_improvement
            + (seed_chain ops id init_neighbors node st).1.1 ∧
        st1.buf_errors =
          if (seed_chain ops id init_neighbors node st).1.1 < 0 then st.buf_errors + 1
          else st.buf_errors) ∧
    (handle_seed ops id init_neighbors node st = none →
      starts_chain ops node st ∧
        (seed_chain ops id init_neighbors node st).2.1.transpositions = []) ∧
    ((start_more_locallized_search (with_upper_bounds env f) config init_neighbors
          compute_touched_blocks tb todolist fuel w).outcome
        = (start_more_locallized_search env config init_neighbors compute_touched_blocks tb
          todolist fuel w).outcome ∧
      (start_more_locallized_search (with_upper_bounds env f) config init_neighbors
          compute_touched_blocks tb todolist fuel w).real_gains
        = (start_more_locallized_search env config init_neighbors compute_touched_blocks tb
          todolist fuel w).real_gains) := by
  refine ⟨?_, ?_, search_upper_bounds env f config init_neighbors compute_touched_blocks tb
    todolist fuel w⟩
  · intro h hlog
    exact ⟨_, handle_seed_chain ops id init_neighbors node st h hlog, rfl, rfl⟩
  · intro hnone
    by_cases h : starts_chain ops node st
    · refine ⟨h, ?_⟩
      by_contra hlog
      rw [handle_seed_chain ops id init_neighbors node st h hlog] at hnone
      cases hnone
    · rw [handle_seed_no_chain ops id init_neighbors node st h] at hnone
      cases hnone

/-- C20, on the path with the blocks `[0, 0, 1, 1]`: the chain of the seed 1 reports the
improvement `-2`; the seed is handled without a failed assertion, the message is printed
once and `upper_bound_gain_improvement` is `-2`. -/
theorem negative_improvement_not_asserted_witness :
    starts_chain path_worker 1 ⟨thread_data.zero, worker_world [0, 0, 1, 1] [], 0, 0⟩ ∧
    (seed_chain path_worker 0 true 1
      ⟨thread_data.zero, worker_world [0, 0, 1, 1] [], 0, 0⟩).2.1.transpositions ≠ [] ∧
    (seed_chain path_worker 0 true 1
      ⟨thread_data.zero, worker_world [0, 0, 1, 1] [], 0, 0⟩).1.1 = -2 ∧
    (handle_seed path_worker 0 true 1
        ⟨thread_data.zero, worker_world [0, 0, 1, 1] [], 0, 0⟩).map
      (fun st => (st.td.upper_bound_gain_improvement, st.buf_errors)) = some (-2, 1) ∧
    ∃ st1, handle_seed path_worker 0 true 1
        ⟨thread_data.zero, worker_world [0, 0, 1, 1] [], 0, 0⟩ = some st1 ∧
      st1.td.upper_bound_gain_improvement =
        (seed_chain path_worker 0 true 1
          ⟨thread_data.zero, worker_world [0, 0, 1, 1] [], 0, 0⟩).2.1.upper_bound_gain_improvement
          + (seed_chain path_worker 0 true 1
            ⟨thread_data.zero, worker_world [0, 0, 1, 1] [], 0, 0⟩).1.1 ∧
      st1.buf_errors =
        if (seed_chain path_worker 0 true 1
            ⟨thread_data.zero, worker_world [0, 0, 1, 1] [], 0, 0⟩).1.1 < 0 then
          (⟨thread_data.zero, worker_world [0, 0, 1, 1] [], 0, 0⟩ :
            WorkerState PathState).buf_errors + 1
        else (⟨thread_data.zero, worker_world [0, 0, 1, 1] [], 0, 0⟩ :
            WorkerState PathState).buf_errors :=
  ⟨by unfold starts_chain; decide, by decide, by decide, by decide,
    (negative_improvement_not_asserted path_worker 0 true 1
      ⟨thread_data.zero, worker_world [0, 0, 1, 1] [], 0, 0⟩ worker_env (fun _ _ => 0)
      path_config false [] [] 0 (worker_world [0, 0, 1, 1] [])).1
      (by unfold starts_chain; decide) (by decide)⟩

/-- C20, counterexample: in the one-worker instance, on the path with the blocks
`[0, 1, 0, 1]` and the start nodes `[0, 1, 2, 3]`, the only chain of the search reports
the improvement `-1` (the sum of the upper bounds is `-1`), and the search returns
normally, with the real gain 2 of its commit pass. -/
theorem search_returns_after_negative_chain :
    (start_more_locallized_search worker_env path_config true false [] [0, 1, 2, 3] 5
        (worker_world [0, 1, 0, 1] [])).upper_bound_gain_improvement = -1 ∧
    (start_more_locallized_search worker_env path_config true false [] [0, 1, 2, 3] 5
        (worker_world [0, 1, 0, 1] [])).world.ext.td.min_cut_indices.length = 1 ∧
    (start_more_locallized_search worker_env path_config true false [] [0, 1, 2, 3] 5
        (worker_world [0, 1, 0, 1] [])).outcome = Outcome.returned 2 := by
  refine ⟨by decide, by decide, by decide⟩

/-! ## Balance under the commit pass of the specification -/

/-- A reflexive and transitive relation between the states of the collaborators that the
parallel phase and the commit pass respect holds between the state on entry of the loop
over the parallel phases and the state in which it ends. -/
theorem parallel_phases_related {A X : Type} (env : Collaborators A X)
    (config : PartitionConfig A) (i c : Bool) (R : X → X → Prop)
    (hrefl : ∀ x, R x x) (htrans : ∀ x y z, R x y → R y z → R x z)
    (hworkers : ∀ w w1, env.run_tasks config i w = some w1 → R w.ext w1.ext)
    (hcommit : ∀ tb w, R w.ext (env.apply_moves config c tb w).world.ext)
    (fuel : Nat) (w : World X) (tb : TouchedBlocks) (ub total : Int) (gains : List Int) :
    R w.ext (parallel_phases env config i c fuel w tb ub total gains).world.ext := by
  refine parallel_phases_cases env config i c
    (fun _ w _ _ _ _ r => R w.ext r.world.ext) ?_ ?_ ?_ ?_ ?_ fuel w tb ub total gains
  · intro fuel w tb ub total gains _
    exact hrefl _
  · intro w tb ub total gains _
    exact hrefl _
  · intro fuel w tb ub total gains _ _
    exact hrefl _
  · intro fuel w w1 tb ub total gains _ ht _ r ih
    rw [push_all_ext, partial_reset_global_data_ext] at ih
    exact htrans _ _ _ (htrans _ _ _ (hworkers w w1 ht) (hcommit tb w1)) ih
  · intro fuel w w1 tb ub total gains _ ht _
    show R w.ext (push_all _ _).ext
    rw [push_all_ext, partial_reset_global_data_ext]
    exact htrans _ _ _ (hworkers w w1 ht) (hcommit tb w1)

/-- Such a relation holds between the state on entry of the localized search and the
state in which it ends. -/
theorem search_related {A X : Type} (env : Collaborators A X)
    (config : PartitionConfig A) (i c : Bool) (R : X → X → Prop)
    (hrefl : ∀ x, R x x) (htrans : ∀ x y z, R x y → R y z → R x z)
    (hworkers : ∀ w w1, env.run_tasks config i w = some w1 → R w.ext w1.ext)
    (hcommit : ∀ tb w, R w.ext (env.apply_moves config c tb w).world.ext)
    (tb : TouchedBlocks) (todolist : List NodeID) (fuel : Nat) (w : World X) :
    R w.ext (start_more_locallized_search env config i c tb todolist fuel w).world.ext := by
  simp only [start_more_locallized_search]
  cases hs : seed_queue env todolist.length todolist (reset_global_data env config w) with
  | returned w1 =>
    have h1 := parallel_phases_related env config i c R hrefl htrans hworkers hcommit fuel w1
      tb 0 0 []
    have h2 := seed_queue_ext env todolist.length todolist _ w1 hs
    rw [h2, reset_global_data_ext] at h1
    exact h1
  | aborted a =>
    show R w.ext (reset_global_data env config w).ext
    rw [reset_global_data_ext]
    exact hrefl _
  | undefined_behaviour =>
    show R w.ext (reset_global_data env config w).ext
    rw [reset_global_data_ext]
    exact hrefl _
  | out_of_fuel =>
    show R w.ext (reset_global_data env config w).ext
    rw [reset_global_data_ext]
    exact hrefl _

/-- Such a relation holds between the state on entry of the rounds loop and the state in
which it ends. -/
theorem rounds_related {A X : Type} (env : Collaborators A X)
    (config : PartitionConfig A) (i : Bool) (setup : X → List NodeID) (c : Bool)
    (R : X → X → Prop)
    (hrefl : ∀ x, R x x) (htrans : ∀ x y z, R x y → R y z → R x z)
    (hworkers : ∀ w w1, env.run_tasks config i w = some w1 → R w.ext w1.ext)
    (hcommit : ∀ tb w, R w.ext (env.apply_moves config c tb w).world.ext)
    (fuel n : Nat) (w : World X) (tb : TouchedBlocks) (overall : Int)
    (log : List (RoundRecord X)) :
    R w.ext (refinement_rounds env config i setup c fuel n w tb overall log).world.ext := by
  refine refinement_rounds_cases env config i setup c fuel
    (fun _ w _ _ _ r => R w.ext r.world.ext) ?_ ?_ ?_ ?_ ?_ n w tb overall log
  · intro w tb overall log
    exact hrefl _
  · intro n w tb overall log _
    exact hrefl _
  · intro n w tb overall log r _ hreq _
    rw [hreq]
    exact search_related env config i c R hrefl htrans hworkers hcommit _ _ fuel w
  · intro n w tb overall log r improvement _ hreq _ _ r1 ih
    refine htrans _ _ _ ?_ ih
    rw [hreq]
    exact search_related env config i c R hrefl htrans hworkers hcommit _ _ fuel w
  · intro n w tb overall log r _ hreq _
    rw [hreq]
    exact search_related env config i c R hrefl htrans hworkers hcommit _ _ fuel w

theorem balance_kept_refl (Lmax : Int) (p : SpecPartition) : balance_kept Lmax p p :=
  fun _ => le_max_left _ _

theorem balance_kept_trans (Lmax : Int) (p q r : SpecPartition)
    (h1 : balance_kept Lmax p q) (h2 : balance_kept Lmax q r) : balance_kept Lmax p r := by
  intro b
  have a1 := h1 b
  have a2 := h2 b
  simp only [le_max_iff] at a1 a2 ⊢
  omega

/-- A move into a block with room for the vertex keeps the balance. -/
theorem spec_move_balance (g : SpecGraph) (p : SpecPartition) (v : NodeID)
    (target : PartitionID)
    (h : p.block_weight target + g.vertex_weight v ≤ g.Lmax) :
    balance_kept g.Lmax p (spec_move g p v target) := by
  intro b
  simp only [spec_move, le_max_iff]
  by_cases hbt : b = target
  · subst hbt
    rw [Function.update_same]
    by_cases hbf : b = p.block_of v
    · rw [← hbf, Function.update_same]
      omega
    · rw [Function.update_noteq hbf]
      omega
  · rw [Function.update_noteq hbt]
    by_cases hbf : b = p.block_of v
    · rw [← hbf, Function.update_same]
      omega
    · rw [Function.update_noteq hbf]
      omega

/-- Accepted or rejected, a record of the commit pass keeps the balance. -/
theorem spec_commit_record_balance (g : SpecGraph) (c : Bool) (st : SpecCommit)
    (r : Transposition) :
    balance_kept g.Lmax st.partition (spec_commit_record g c st r).partition := by
  unfold spec_commit_record
  split
  · next h => exact spec_move_balance g st.partition r.vertex r.to_block h.2.1
  · exact balance_kept_refl _ _

/-- A fold whose steps keep the balance keeps the balance. -/
theorem foldl_balance {σ α : Type} (Lmax : Int) (proj : σ → SpecPartition) (f : σ → α → σ)
    (h : ∀ s a, balance_kept Lmax (proj s) (proj (f s a))) :
    ∀ (l : List α) (s : σ), balance_kept Lmax (proj s) (proj (l.foldl f s)) := by
  intro l
  induction l with
  | nil => intro s; exact balance_kept_refl _ _
  | cons a rest ih =>
    intro s
    exact balance_kept_trans _ _ _ _ (h s a) (ih (f s a))

theorem spec_commit_chain_balance (g : SpecGraph) (c : Bool) (log : List Transposition)
    (st : SpecCommit × Nat) (chain : Int × Nat) :
    balance_kept g.Lmax st.1.partition (spec_commit_chain g c log st chain).1.partition := by
  simp only [spec_commit_chain]
  exact foldl_balance g.Lmax SpecCommit.partition (spec_commit_record g c)
    (spec_commit_record_balance g c) _ st.1

theorem spec_commit_worker_balance (g : SpecGraph) (c : Bool) (st : SpecCommit)
    (worker : SpecWorkerLog) :
    balance_kept g.Lmax st.partition (spec_commit_worker g c st worker).partition := by
  simp only [spec_commit_worker]
  exact foldl_balance g.Lmax (fun s : SpecCommit × Nat => s.1.partition)
    (spec_commit_chain g c worker.transpositions)
    (spec_commit_chain_balance g c worker.transpositions) worker.min_cut_indices (st, 0)

/-- The commit pass of the specification keeps the balance. -/
theorem spec_apply_moves_balance (g : SpecGraph) (c : Bool) (tb : TouchedBlocks)
    (logs : List SpecWorkerLog) (p : SpecPartition) :
    balance_kept g.Lmax p (spec_apply_moves g c tb logs p).partition := by
  simp only [spec_apply_moves]
  exact foldl_balance g.Lmax SpecCommit.partition (spec_commit_worker g c)
    (spec_commit_worker_balance g c) logs ⟨p, [], 0, 0, [], tb⟩

/-- The parallel phase of `spec_env` leaves the authoritative partition as it was. -/
theorem spec_env_workers {A : Type} (g : SpecGraph) (base : Collaborators A SpecExt)
    (config : PartitionConfig A) (i : Bool) (w w1 : World SpecExt)
    (h : (spec_env g base).run_tasks config i w = some w1) :
    w1.ext.partition = w.ext.partition := by
  simp only [spec_env, Option.map_eq_some'] at h
  obtain ⟨w0, _, h0⟩ := h
  rw [← h0]

/-- C12, balance preservation. With the commit pass and the block weights the
specification describes (`spec_env`), for every graph data, workers, configuration, world
and block `b`: when the weight of `b` is at most `Lmax` before `perform_refinement`, it is
at most `Lmax` in the state in which `perform_refinement` ends, and when it is over `Lmax`
before, it is no larger after, whatever the outcome of the run. -/
theorem perform_refinement_keeps_balance {A : Type} (g : SpecGraph)
    (base : Collaborators A SpecExt) (config : PartitionConfig A) (w : World SpecExt)
    (rounds : Nat) (i : Bool) (alpha fuel : Nat) (b : PartitionID) :
    (w.ext.partition.block_weight b ≤ g.Lmax →
      (perform_refinement (spec_env g base) config w rounds i alpha
        fuel).world.ext.partition.block_weight b ≤ g.Lmax) ∧
    (g.Lmax < w.ext.partition.block_weight b →
      (perform_refinement (spec_env g base) config w rounds i alpha
        fuel).world.ext.partition.block_weight b ≤ w.ext.partition.block_weight b) := by
  have h := rounds_related (spec_env g base)
    (override_config (spec_env g base) config alpha) i
    (spec_env g base).setup_start_nodes_all false
    (fun x y => balance_kept g.Lmax x.partition y.partition)
    (fun x => balance_kept_refl _ _)
    (fun x y z => balance_kept_trans _ _ _ _)
    (fun w0 w1 h0 => by
      show balance_kept g.Lmax w0.ext.partition w1.ext.partition
      rw [spec_env_workers g base _ i w0 w1 h0]
      exact balance_kept_refl _ _)
    (fun tb w0 => spec_apply_moves_balance g false tb w0.ext.logs w0.ext.partition)
    fuel rounds w [] 0 []
  rw [← perform_refinement_world] at h
  have hb := h b
  simp only [le_max_iff] at hb
  constructor
  · intro h1
    omega
  · intro h1
    omega

/-- C12 on the path with blocks `[0, 1, 0, 1]` and `Lmax = 3`: both blocks weigh 2 before;
the run returns 2 and ends with the blocks `[1, 1, 0, 0]`, both of weight 2, after a
commit pass that rejected the move of vertex 1 into a block of weight 3. -/
theorem perform_refinement_keeps_balance_witness :
    (spec_path_world [0, 1, 0, 1]).ext.partition.block_weight 0 ≤ (spec_path_graph 3).Lmax ∧
    (perform_refinement (spec_env (spec_path_graph 3) (spec_path_base 3)) path_config
      (spec_path_world [0, 1, 0, 1]) 5 false 7 5).world.ext.partition.block_weight 0
        ≤ (spec_path_graph 3).Lmax ∧
    (perform_refinement (spec_env (spec_path_graph 3) (spec_path_base 3)) path_config
      (spec_path_world [0, 1, 0, 1]) 5 false 7 5).outcome = Outcome.returned 2 ∧
    spec_path_blocks
      (perform_refinement (spec_env (spec_path_graph 3) (spec_path_base 3)) path_config
        (spec_path_world [0, 1, 0, 1]) 5 false 7 5).world.ext.partition = [1, 1, 0, 0] ∧
    (spec_apply_moves (spec_path_graph 3) false []
      [spec_path_log 3 (spec_path_partition [0, 1, 0, 1]) [3, 2, 1, 0]]
      (spec_path_partition [0, 1, 0, 1])).reactivated = [2, 1] :=
  ⟨by decide,
    (perform_refinement_keeps_balance (spec_path_graph 3) (spec_path_base 3) path_config
      (spec_path_world [0, 1, 0, 1]) 5 false 7 5 0).1 (by decide),
    by decide, by decide, by decide⟩

/-! ## The seeding loop -/

/-- The element at an index, followed by the list with `b` stored at that index, is a
permutation of `b` followed by the list. -/
theorem cons_set_perm (b : NodeID) :
    ∀ (L : List NodeID) (i : Nat) (node : NodeID), L[i]? = some node →
      (node :: L.set i b).Perm (b :: L) := by
  intro L
  induction L with
  | nil =>
    intro i node h
    simp at h
  | cons a t ih =>
    intro i node h
    cases i with
    | zero =>
      rw [List.getElem?_cons_zero, Option.some.injEq] at h
      subst h
      rw [List.set_cons_zero]
      exact List.Perm.swap _ _ _
    | succ j =>
      rw [List.getElem?_cons_succ] at h
      rw [List.set_cons_succ]
      exact ((List.Perm.swap a node _).trans ((ih j node h).cons a)).trans
        (List.Perm.swap b a t)

/-- One iteration of the seeding loop with an index within the bounds: it pushes a vertex
of the todolist and leaves the todolist without one occurrence of that vertex. -/
theorem seed_step_perm {A X : Type} (env : Collaborators A X) (l : List NodeID)
    (w : World X) (hl : l ≠ [])
    (hidx : env.nextInt w.random_draws 0 (l.length - 1) ≤ l.length - 1) :
    ∃ node l1, seed_step env l w
        = some (l1, queue_push node { w with random_draws := w.random_draws + 1 }) ∧
      (node :: l1).Perm l ∧ l1.length + 1 = l.length := by
  rcases List.eq_nil_or_concat l with h | ⟨L, b, h⟩
  · exact absurd h hl
  · rw [List.concat_eq_append] at h
    subst h
    simp only [List.length_append, List.length_singleton, Nat.add_sub_cancel] at hidx
    simp only [seed_step, List.length_append, List.length_singleton, Nat.add_sub_cancel]
    generalize env.nextInt w.random_draws 0 L.length = idx at hidx
    rcases Nat.lt_or_eq_of_le hidx with hlt | heq
    · obtain ⟨node, hnode⟩ : ∃ node, L[idx]? = some node :=
        ⟨L[idx], List.getElem?_eq_getElem hlt⟩
      have hget : (L ++ [b])[idx]? = some node := by
        rw [List.getElem?_append_left hlt]
        exact hnode
      refine ⟨node, L.set idx b, ?_, ?_, ?_⟩
      · simp only [hget, List.getLastD_concat, List.set_append_left _ _ hlt,
          List.dropLast_concat]
      · exact (cons_set_perm b L idx node hnode).trans (List.perm_append_singleton b L).symm
      · simp
    · subst heq
      have hget : (L ++ [b])[L.length]? = some b := by simp
      refine ⟨b, L, ?_, ?_, ?_⟩
      · simp only [hget, List.getLastD_concat]
        have hset : (L ++ [b]).set L.length b = L ++ [b] := by
          rw [List.set_append_right _ _ (le_refl _)]
          simp
        rw [hset, List.dropLast_concat]
      · exact (List.perm_append_singleton b L).symm
      · simp

/-- The invariant of the seeding loop: after `n` iterations with indices within the bounds
the vertices pushed so far, followed by the todolist that is left, are a permutation of
the todolist on entry; the world has changed in its queue and in the number of random
draws only. -/
theorem seed_iterations_invariant {A X : Type} (env : Collaborators A X) :
    ∀ (n : Nat) (l : List NodeID) (w : World X), n ≤ l.length →
      (∀ j < n, env.nextInt (w.random_draws + j) 0 (l.length - 1 - j) ≤ l.length - 1 - j) →
      ∃ l2 pushed,
        seed_iterations env n l w =
          some (l2, { w with queue := w.queue ++ pushed, random_draws := w.random_draws + n }) ∧
        (pushed ++ l2).Perm l ∧ pushed.length = n := by
  intro n
  induction n with
  | zero =>
    intro l w _ _
    refine ⟨l, [], ?_, List.Perm.refl _, rfl⟩
    simp [seed_iterations]
  | succ n ih =>
    intro l w hn hrng
    have hl : l ≠ [] := by
      intro h
      rw [h] at hn
      simp at hn
    obtain ⟨node, l1, hstep, hperm, hlen⟩ := seed_step_perm env l w hl (by
      have h0 := hrng 0 (Nat.succ_pos n)
      simpa using h0)
    have hrng1 : ∀ j < n,
        env.nextInt ((queue_push node { w with random_draws := w.random_draws + 1 }).random_draws
          + j) 0 (l1.length - 1 - j) ≤ l1.length - 1 - j := by
      intro j hj
      have h1 := hrng (j + 1) (by omega)
      have e1 : (queue_push node { w with random_draws := w.random_draws + 1 }).random_draws + j
          = w.random_draws + (j + 1) := by
        simp only [queue_push]
        omega
      have e2 : l1.length - 1 - j = l.length - 1 - (j + 1) := by omega
      rw [e1, e2]
      exact h1
    obtain ⟨l2, pushed, hrun, hperm2, hlen2⟩ := ih l1
      (queue_push node { w with random_draws := w.random_draws + 1 }) (by omega) hrng1
    refine ⟨l2, node :: pushed, ?_, ?_, ?_⟩
    · cases l with
      | nil => exact absurd rfl hl
      | cons v rest =>
        simp only [seed_iterations, hstep]
        rw [hrun]
        simp only [queue_push, List.append_assoc, List.singleton_append, Nat.add_assoc,
          Nat.add_comm 1 n]
    · exact ((hperm2.cons node).trans hperm)
    · simp [hlen2]

/-- When the todolist is empty after `n` iterations, the seeding loop returns the world
of that moment, with any fuel of at least `n`. -/
theorem seed_queue_of_iterations {A X : Type} (env : Collaborators A X) :
    ∀ (n : Nat) (l : List NodeID) (w w1 : World X),
      seed_iterations env n l w = some ([], w1) →
      ∀ fuel, n ≤ fuel → seed_queue env fuel l w = Outcome.returned w1 := by
  intro n
  induction n with
  | zero =>
    intro l w w1 h fuel _
    simp only [seed_iterations, Option.some.injEq, Prod.mk.injEq] at h
    obtain ⟨h1, h2⟩ := h
    subst h1
    subst h2
    cases fuel <;> rfl
  | succ n ih =>
    intro l w w1 h fuel hfuel
    cases l with
    | nil => simp [seed_iterations] at h
    | cons v rest =>
      cases fuel with
      | zero => omega
      | succ fuel =>
        simp only [seed_iterations] at h
        simp only [seed_queue]
        cases hs : seed_step env (v :: rest) w with
        | none => rw [hs] at h; simp at h
        | some s =>
          rw [hs] at h
          exact ih s.1 s.2 w1 h fuel (by omega)

/-- When the todolist is not empty after `n` iterations, the fuel `n` does not let the
seeding loop reach its end. -/
theorem seed_queue_needs_iterations {A X : Type} (env : Collaborators A X) :
    ∀ (n : Nat) (l l2 : List NodeID) (w w2 : World X),
      seed_iterations env n l w = some (l2, w2) → l2 ≠ [] →
      seed_queue env n l w = Outcome.out_of_fuel := by
  intro n
  induction n with
  | zero =>
    intro l l2 w w2 h hl2
    simp only [seed_iterations, Option.some.injEq, Prod.mk.injEq] at h
    obtain ⟨h1, _⟩ := h
    subst h1
    cases l with
    | nil => exact absurd rfl hl2
    | cons v rest => rfl
  | succ n ih =>
    intro l l2 w w2 h hl2
    cases l with
    | nil => simp [seed_iterations] at h
    | cons v rest =>
      simp only [seed_iterations] at h
      simp only [seed_queue]
      cases hs : seed_step env (v :: rest) w with
      | none => rw [hs] at h; simp at h
      | some s =>
        rw [hs] at h
        exact ih s.1 l2 s.2 w2 h hl2

/-- C21, the seeding of the work queue is a permutation: for every todolist and every
world, when each random index the loop draws lies within `[0, size - 1]` of the todolist
of that moment, the seeding loop of `start_more_locallized_search` makes exactly
`|todolist|` iterations (after `n < |todolist|` iterations the todolist still has
`|todolist| - n` elements, after `|todolist|` it is empty), reads no index out of the
bounds, and ends with the queue it found followed by a list `pushed` that is a
permutation of the todolist on entry (every vertex as often as the todolist has it);
nothing else of the world changes but the number of random draws. -/
theorem seeding_is_permutation {A X : Type} (env : Collaborators A X)
    (todolist : List NodeID) (w : World X)
    (hrng : ∀ j < todolist.length,
      env.nextInt (w.random_draws + j) 0 (todolist.length - 1 - j)
        ≤ todolist.length - 1 - j) :
    ∃ pushed : List NodeID,
      pushed.Perm todolist ∧
      (∀ v, pushed.count v = todolist.count v) ∧
      seed_iterations env todolist.length todolist w =
        some ([], { w with
          queue := w.queue ++ pushed
          random_draws := w.random_draws + todolist.length }) ∧
      (∀ n, n < todolist.length →
        ∃ l2 w2, seed_iterations env n todolist w = some (l2, w2) ∧
          l2.length = todolist.length - n) ∧
      (∀ fuel, todolist.length ≤ fuel →
        seed_queue env fuel todolist w =
          Outcome.returned { w with
            queue := w.queue ++ pushed
            random_draws := w.random_draws + todolist.length }) ∧
      (∀ fuel, fuel < todolist.length →
        seed_queue env fuel todolist w = Outcome.out_of_fuel) := by
  obtain ⟨l2, pushed, hrun, hperm, hlen⟩ :=
    seed_iterations_invariant env todolist.length todolist w (le_refl _) hrng
  have hl2 : l2 = [] := by
    have h := hperm.length_eq
    rw [List.length_append, hlen] at h
    exact List.length_eq_zero.mp (by omega)
  subst hl2
  rw [List.append_nil] at hperm
  have hpart : ∀ n, n < todolist.length →
      ∃ l2 w2, seed_iterations env n todolist w = some (l2, w2) ∧
        l2.length = todolist.length - n := by
    intro n hn
    obtain ⟨l3, pushed3, hrun3, hperm3, hlen3⟩ :=
      seed_iterations_invariant env n todolist w (le_of_lt hn)
        (fun j hj => hrng j (lt_trans hj hn))
    refine ⟨l3, _, hrun3, ?_⟩
    have h := hperm3.length_eq
    rw [List.length_append, hlen3] at h
    omega
  refine ⟨pushed, hperm, fun v => hperm.count_eq v, hrun, hpart, ?_, ?_⟩
  · intro fuel hfuel
    exact seed_queue_of_iterations env todolist.length todolist w _ hrun fuel hfuel
  · intro fuel hfuel
    obtain ⟨l3, w3, hrun3, hlen3⟩ := hpart fuel hfuel
    refine seed_queue_needs_iterations env fuel todolist l3 w w3 hrun3 ?_
    intro h
    rw [h] at hlen3
    simp at hlen3
    omega

/-- C21, on the todolist `[5, 6, 7, 7]` with the random indices 1, 0, 1, 0: each index
is within its bounds; the loop pushes 6, 5, 7, 7, a permutation of the todolist with the
vertex 7 twice, after four iterations, and after two of them it has pushed 6 and 5 and
the todolist is `[7, 7]`. -/
theorem seeding_is_permutation_witness :
    (∀ j < [5, 6, 7, 7].length,
      shuffle_env.nextInt ((path_world [0, 1, 0, 1]).random_draws + j) 0
        ([5, 6, 7, 7].length - 1 - j) ≤ [5, 6, 7, 7].length - 1 - j) ∧
    (∃ pushed : List NodeID, pushed.Perm [5, 6, 7, 7] ∧
      seed_queue shuffle_env 4 [5, 6, 7, 7] (path_world [0, 1, 0, 1]) =
        Outcome.returned { path_world [0, 1, 0, 1] with
          queue := (path_world [0, 1, 0, 1]).queue ++ pushed
          random_draws := (path_world [0, 1, 0, 1]).random_draws + 4 }) ∧
    (seed_iterations shuffle_env 4 [5, 6, 7, 7] (path_world [0, 1, 0, 1])).map
      (fun s => (s.1, s.2.queue, s.2.random_draws)) = some ([], [6, 5, 7, 7], 4) ∧
    (seed_iterations shuffle_env 2 [5, 6, 7, 7] (path_world [0, 1, 0, 1])).map
      (fun s => (s.1, s.2.queue, s.2.random_draws)) = some ([7, 7], [6, 5], 2) :=
  ⟨by decide,
    (seeding_is_permutation shuffle_env [5, 6, 7, 7] (path_world [0, 1, 0, 1])
      (by decide)).elim fun pushed h => ⟨pushed, h.1, h.2.2.2.2.1 4 (le_refl _)⟩,
    by decide, by decide⟩

/-! ## The search with `int` accumulators -/

theorem int_wrap_zero : int_wrap 0 = 0 := by decide

/-- Adding to an `int` object: the sum wraps once. -/
theorem int_add_wrap (a b : Int) : int_add (int_wrap a) b = int_wrap (a + b) := by
  unfold int_add int_wrap
  omega

theorem for_range_add_shift (n : Nat) (f : Nat → Int) (a b : Int) :
    for_range n (fun i acc => acc + f i) (a + b) =
      a + for_range n (fun i acc => acc + f i) b := by
  induction n with
  | zero => simp [for_range_zero]
  | succ n ih =>
    rw [for_range_succ, for_range_succ, ih]
    omega

/-- A loop of `int` additions ends with the `int` that the sum of the integers gives. -/
theorem for_range_int_add (n : Nat) (f : Nat → Int) (a : Int) :
    for_range n (fun i acc => int_add acc (f i)) (int_wrap a) =
      int_wrap (for_range n (fun i acc => acc + f i) a) := by
  induction n with
  | zero => simp [for_range_zero]
  | succ n ih =>
    rw [for_range_succ, for_range_succ, ih, int_add_wrap]

/-- Lines 210 to 213 with the `int` local give the `int` of the sum that
`sum_upper_bounds` adds to the integer local. -/
theorem upper_bounds_int {A X : Type} (env : Collaborators A X) (config : PartitionConfig A)
    (x : X) (ub : Int) :
    for_range (config.num_threads - 1)
        (fun i acc => int_add acc (env.upper_bound_gain_improvement x (i + 1)))
        (int_add (int_wrap ub) (env.upper_bound_gain_improvement x 0)) =
      int_wrap (ub + sum_upper_bounds env config x) := by
  rw [int_add_wrap,
    for_range_int_add _ (fun i => env.upper_bound_gain_improvement x (i + 1)),
    for_range_add_shift]
  rfl

theorem parallel_phases_int_empty {A X : Type} (env : Collaborators A X)
    (config : PartitionConfig A) (i c : Bool) (fuel : Nat) (w : World X)
    (tb : TouchedBlocks) (ub total : Int) (gains : List Int)
    (hq : w.queue.isEmpty = true) :
    parallel_phases_int env config i c fuel w tb ub total gains =
      finish_search w tb ub total gains := by
  cases fuel <;> simp [parallel_phases_int, hq]

theorem parallel_phases_int_zero {A X : Type} (env : Collaborators A X)
    (config : PartitionConfig A) (i c : Bool) (w : World X)
    (tb : TouchedBlocks) (ub total : Int) (gains : List Int)
    (hq : w.queue.isEmpty = false) :
    parallel_phases_int env config i c 0 w tb ub total gains =
      ⟨Outcome.out_of_fuel, w, tb, ub, gains⟩ := by
  simp [parallel_phases_int, hq]

theorem parallel_phases_int_tasks_abort {A X : Type} (env : Collaborators A X)
    (config : PartitionConfig A) (i c : Bool) (fuel : Nat) (w : World X)
    (tb : TouchedBlocks) (ub total : Int) (gains : List Int)
    (hq : w.queue.isEmpty = false) (ht : env.run_tasks config i w = none) :
    parallel_phases_int env config i c (fuel + 1) w tb ub total gains =
      ⟨Outcome.aborted Assertion.transpositions_nonempty, w, tb, ub, gains⟩ := by
  simp [parallel_phases_int, hq, ht]

theorem parallel_phases_int_step {A X : Type} (env : Collaborators A X)
    (config : PartitionConfig A) (i c : Bool) (fuel : Nat) (w w1 : World X)
    (tb : TouchedBlocks) (ub total : Int) (gains : List Int)
    (hq : w.queue.isEmpty = false) (ht : env.run_tasks config i w = some w1)
    (hg : 0 ≤ (env.apply_moves config c tb w1).real_gain_improvement) :
    parallel_phases_int env config i c (fuel + 1) w tb ub total gains =
      parallel_phases_int env config i c fuel
        (push_all (env.apply_moves config c tb w1).reactivated_vertices
          (partial_reset_global_data env (env.apply_moves config c tb w1).world))
        (env.apply_moves config c tb w1).touched_blocks
        (for_range (config.num_threads - 1)
          (fun i acc => int_add acc (env.upper_bound_gain_improvement w1.ext (i + 1)))
          (int_add ub (env.upper_bound_gain_improvement w1.ext 0)))
        (int_add total (env.apply_moves config c tb w1).real_gain_improvement)
        (gains ++ [(env.apply_moves config c tb w1).real_gain_improvement]) := by
  simp [parallel_phases_int, hq, ht, hg]

theorem parallel_phases_int_step_neg {A X : Type} (env : Collaborators A X)
    (config : PartitionConfig A) (i c : Bool) (fuel : Nat) (w w1 : World X)
    (tb : TouchedBlocks) (ub total : Int) (gains : List Int)
    (hq : w.queue.isEmpty = false) (ht : env.run_tasks config i w = some w1)
    (hg : ¬ 0 ≤ (env.apply_moves config c tb w1).real_gain_improvement) :
    parallel_phases_int env config i c (fuel + 1) w tb ub total gains =
      ⟨Outcome.aborted Assertion.real_gain_improvement_nonneg,
        push_all (env.apply_moves config c tb w1).reactivated_vertices
          (partial_reset_global_data env (env.apply_moves config c tb w1).world),
        (env.apply_moves config c tb w1).touched_blocks,
        for_range (config.num_threads - 1)
          (fun i acc => int_add acc (env.upper_bound_gain_improvement w1.ext (i + 1)))
          (int_add ub (env.upper_bound_gain_improvement w1.ext 0)),
        gains ++ [(env.apply_moves config c tb w1).real_gain_improvement]⟩ := by
  simp [parallel_phases_int, hq, ht, hg]

/-- The loop with `int` accumulators goes the way of the loop with integer accumulators
from a total that is not negative: same iterations, world, `touched_blocks` and real
gains; the `int` accumulators hold the `int` of the integer ones, and the assertion of
line 239 and the return read the `int` total. -/
theorem parallel_phases_int_eq {A X : Type} (env : Collaborators A X)
    (config : PartitionConfig A) (i c : Bool) (fuel : Nat) (w : World X)
    (tb : TouchedBlocks) (ub total : Int) (gains : List Int) (htotal : 0 ≤ total) :
    parallel_phases_int env config i c fuel w tb (int_wrap ub) (int_wrap total) gains =
      (parallel_phases env config i c fuel w tb ub total gains).as_int := by
  revert htotal
  refine parallel_phases_cases env config i c
    (fun fuel w tb ub total gains r =>
      0 ≤ total →
        parallel_phases_int env config i c fuel w tb (int_wrap ub) (int_wrap total) gains =
          r.as_int)
    ?_ ?_ ?_ ?_ ?_ fuel w tb ub total gains
  · intro fuel w tb ub total gains hq h0
    rw [parallel_phases_int_empty env config i c fuel w tb _ _ gains hq]
    simp only [finish_search, SearchRun.as_int, h0, ↓reduceIte]
  · intro w tb ub total gains hq _
    rw [parallel_phases_int_zero env config i c w tb _ _ gains hq]
    rfl
  · intro fuel w tb ub total gains hq ht _
    rw [parallel_phases_int_tasks_abort env config i c fuel w tb _ _ gains hq ht]
    rfl
  · intro fuel w w1 tb ub total gains hq ht hg r ih h0
    rw [parallel_phases_int_step env config i c fuel w w1 tb _ _ gains hq ht hg,
      upper_bounds_int, int_add_wrap]
    exact ih (by omega)
  · intro fuel w w1 tb ub total gains hq ht hg _
    rw [parallel_phases_int_step_neg env config i c fuel w w1 tb _ _ gains hq ht hg,
      upper_bounds_int]
    rfl

/-- The search with `int` accumulators, after the seeding, is the loop with integer
accumulators read as `int`. -/
theorem search_int_eq {A X : Type} (env : Collaborators A X)
    (config m_config : PartitionConfig A) (i c : Bool) (tb : TouchedBlocks)
    (todolist : List NodeID) (fuel : Nat) (w w1 : World X)
    (hs : seed_queue env todolist.length todolist (reset_global_data env m_config w)
      = Outcome.returned w1) :
    start_more_locallized_search_int env config m_config i c tb todolist fuel w =
      (parallel_phases env config i c fuel w1 tb 0 0 []).as_int := by
  have h := parallel_phases_int_eq env config i c fuel w1 tb 0 0 [] (le_refl 0)
  rw [int_wrap_zero] at h
  simp only [start_more_locallized_search_int, hs]
  exact h

/-- A run of the search with `int` accumulators whose seeding does not return ends there,
with no commit pass. -/
theorem search_int_not_seeded {A X : Type} (env : Collaborators A X)
    (config m_config : PartitionConfig A) (i c : Bool) (tb : TouchedBlocks)
    (todolist : List NodeID) (fuel : Nat) (w : World X)
    (hs : ∀ w1, seed_queue env todolist.length todolist (reset_global_data env m_config w)
      ≠ Outcome.returned w1) :
    (start_more_locallized_search_int env config m_config i c tb todolist fuel w).real_gains
        = [] ∧
      (∀ v, (start_more_locallized_search_int env config m_config i c tb todolist fuel
        w).outcome ≠ Outcome.returned v) ∧
      ∀ k, start_more_locallized_search_int env config m_config i c tb todolist (fuel + k) w =
        start_more_locallized_search_int env config m_config i c tb todolist fuel w := by
  simp only [start_more_locallized_search_int]
  cases h : seed_queue env todolist.length todolist (reset_global_data env m_config w) with
  | returned w1 => exact absurd h (hs w1)
  | aborted a =>
    refine ⟨rfl, ?_, fun _ => rfl⟩
    intro v hv
    cases hv
  | undefined_behaviour =>
    refine ⟨rfl, ?_, fun _ => rfl⟩
    intro v hv
    cases hv
  | out_of_fuel =>
    refine ⟨rfl, ?_, fun _ => rfl⟩
    intro v hv
    cases hv

/-- Read as `int`, a run returns exactly when the run returned a total whose `int` is not
negative, and it returns that `int`. -/
theorem as_int_returned {X : Type} (r : SearchRun X) (v : Int)
    (h : r.as_int.outcome = Outcome.returned v) :
    ∃ total, r.outcome = Outcome.returned total ∧ v = int_wrap total ∧ 0 ≤ v := by
  simp only [SearchRun.as_int] at h
  cases hr : r.outcome with
  | returned total =>
    rw [hr] at h
    simp only at h
    split at h
    · rename_i h0
      have hv : int_wrap total = v := by simpa using h
      exact ⟨total, rfl, hv.symm, by rw [← hv]; exact h0⟩
    · cases h
  | aborted a => rw [hr] at h; cases h
  | undefined_behaviour => rw [hr] at h; cases h
  | out_of_fuel => rw [hr] at h; cases h

theorem as_int_aborted {X : Type} (r : SearchRun X) (a : Assertion)
    (h : r.outcome = Outcome.aborted a) : r.as_int.outcome = Outcome.aborted a := by
  simp only [SearchRun.as_int, h]

/-- Read as `int`, a run is out of fuel exactly when the run is. -/
theorem as_int_out_of_fuel {X : Type} (r : SearchRun X) :
    r.as_int.outcome = Outcome.out_of_fuel ↔ r.outcome = Outcome.out_of_fuel := by
  simp only [SearchRun.as_int]
  cases hr : r.outcome with
  | returned total =>
    simp only
    split <;> simp
  | aborted a => simp
  | undefined_behaviour => simp
  | out_of_fuel => simp

/-- Read as `int`, a run failed a worker assertion exactly when the run did. -/
theorem as_int_transpositions {X : Type} (r : SearchRun X) :
    r.as_int.outcome = Outcome.aborted Assertion.transpositions_nonempty ↔
      r.outcome = Outcome.aborted Assertion.transpositions_nonempty := by
  simp only [SearchRun.as_int]
  cases hr : r.outcome with
  | returned total =>
    simp only
    split <;> simp
  | aborted a => simp
  | undefined_behaviour => simp
  | out_of_fuel => simp

/-- A run of the search with `int` accumulators that returns made commit passes with
non-negative real gains only, and returns the `int` of their sum, which the assertion of
line 239 found non-negative. -/
theorem search_int_returned {A X : Type} (env : Collaborators A X)
    (config m_config : PartitionConfig A) (i c : Bool) (tb : TouchedBlocks)
    (todolist : List NodeID) (fuel : Nat) (w : World X) (v : Int)
    (h : (start_more_locallized_search_int env config m_config i c tb todolist fuel w).outcome
      = Outcome.returned v) :
    (∀ g ∈ (start_more_locallized_search_int env config m_config i c tb todolist fuel
        w).real_gains, 0 ≤ g) ∧
      v = int_wrap (start_more_locallized_search_int env config m_config i c tb todolist fuel
        w).real_gains.sum ∧
      0 ≤ v := by
  cases hs : seed_queue env todolist.length todolist (reset_global_data env m_config w) with
  | returned w1 =>
    rw [search_int_eq env config m_config i c tb todolist fuel w w1 hs] at h ⊢
    obtain ⟨total, hr, hv, h0⟩ := as_int_returned _ v h
    have hsum := (parallel_phases_returned env config i c fuel w1 tb 0 0 [] total hr).1
    simp only [List.sum_nil, sub_zero, zero_add] at hsum
    refine ⟨?_, ?_, h0⟩
    · intro g hg
      by_contra hneg
      have habort := parallel_phases_negative env config i c fuel w1 tb 0 0 [] (by simp)
        ⟨g, hg, by omega⟩
      rw [hr] at habort
      cases habort
    · rw [hv, hsum]
      rfl
  | aborted a =>
    exact absurd h ((search_int_not_seeded env config m_config i c tb todolist fuel w
      (by intro w1 h1; rw [hs] at h1; cases h1)).2.1 v)
  | undefined_behaviour =>
    exact absurd h ((search_int_not_seeded env config m_config i c tb todolist fuel w
      (by intro w1 h1; rw [hs] at h1; cases h1)).2.1 v)
  | out_of_fuel =>
    exact absurd h ((search_int_not_seeded env config m_config i c tb todolist fuel w
      (by intro w1 h1; rw [hs] at h1; cases h1)).2.1 v)

/-- A negative real gain among the gains of the commit passes of a run of the search with
`int` accumulators ends the run at the assertion on the real gain. -/
theorem search_int_negative {A X : Type} (env : Collaborators A X)
    (config m_config : PartitionConfig A) (i c : Bool) (tb : TouchedBlocks)
    (todolist : List NodeID) (fuel : Nat) (w : World X)
    (h : ∃ g ∈ (start_more_locallized_search_int env config m_config i c tb todolist fuel
      w).real_gains, g < 0) :
    (start_more_locallized_search_int env config m_config i c tb todolist fuel w).outcome
      = Outcome.aborted Assertion.real_gain_improvement_nonneg := by
  cases hs : seed_queue env todolist.length todolist (reset_global_data env m_config w) with
  | returned w1 =>
    rw [search_int_eq env config m_config i c tb todolist fuel w w1 hs] at h ⊢
    exact as_int_aborted _ _
      (parallel_phases_negative env config i c fuel w1 tb 0 0 [] (by simp) h)
  | aborted a =>
    rw [(search_int_not_seeded env config m_config i c tb todolist fuel w
      (by intro w1 h1; rw [hs] at h1; cases h1)).1] at h
    simp at h
  | undefined_behaviour =>
    rw [(search_int_not_seeded env config m_config i c tb todolist fuel w
      (by intro w1 h1; rw [hs] at h1; cases h1)).1] at h
    simp at h
  | out_of_fuel =>
    rw [(search_int_not_seeded env config m_config i c tb todolist fuel w
      (by intro w1 h1; rw [hs] at h1; cases h1)).1] at h
    simp at h

/-- When the random indices lie within their bounds, no worker assertion fails, every
commit pass of a run of the search with `int` accumulators returns a non-negative real
gain and the sum of these gains is a value of `int`, the run returns that sum, or its
fuel ends with the queue still non-empty after `fuel` commit passes. -/
theorem search_int_no_assertion {A X : Type} (env : Collaborators A X)
    (config m_config : PartitionConfig A) (i c : Bool) (tb : TouchedBlocks)
    (todolist : List NodeID) (fuel : Nat) (w : World X)
    (hrng : ∀ k ub, env.nextInt k 0 ub ≤ ub)
    (hchain : (start_more_locallized_search_int env config m_config i c tb todolist fuel
      w).outcome ≠ Outcome.aborted Assertion.transpositions_nonempty)
    (hgain : ∀ g ∈ (start_more_locallized_search_int env config m_config i c tb todolist fuel
      w).real_gains, 0 ≤ g)
    (hsum : (start_more_locallized_search_int env config m_config i c tb todolist fuel
      w).real_gains.sum ≤ 2147483647) :
    (start_more_locallized_search_int env config m_config i c tb todolist fuel w).outcome
        = Outcome.returned
          (start_more_locallized_search_int env config m_config i c tb todolist fuel
            w).real_gains.sum ∨
      ((start_more_locallized_search_int env config m_config i c tb todolist fuel w).outcome
          = Outcome.out_of_fuel ∧
        (start_more_locallized_search_int env config m_config i c tb todolist fuel
          w).real_gains.length = fuel ∧
        (start_more_locallized_search_int env config m_config i c tb todolist fuel
          w).world.queue ≠ []) := by
  obtain ⟨w1, hs⟩ := seed_queue_returns env hrng todolist.length todolist
    (reset_global_data env m_config w) rfl
  rw [search_int_eq env config m_config i c tb todolist fuel w w1 hs] at hchain hgain hsum ⊢
  have hchain1 : (parallel_phases env config i c fuel w1 tb 0 0 []).outcome
      ≠ Outcome.aborted Assertion.transpositions_nonempty :=
    fun h => hchain ((as_int_transpositions _).mpr h)
  have hpos : 0 ≤ (parallel_phases env config i c fuel w1 tb 0 0 []).real_gains.sum :=
    List.sum_nonneg hgain
  rcases parallel_phases_no_assertion env config i c fuel w1 tb 0 0 [] (le_refl 0) hchain1
    hgain with h | ⟨h1, h2, h3⟩
  · left
    simp only [List.sum_nil, sub_zero, zero_add] at h
    have hfit : int_wrap (parallel_phases env config i c fuel w1 tb 0 0 []).real_gains.sum =
        (parallel_phases env config i c fuel w1 tb 0 0 []).real_gains.sum :=
      int_wrap_of_fits _ ⟨by omega, hsum⟩
    simp only [SearchRun.as_int, h, hfit, hpos, ↓reduceIte]
  · right
    refine ⟨(as_int_out_of_fuel _).mpr h1, ?_, h3⟩
    simpa using h2

/-- More fuel does not change a run of the search with `int` accumulators that did not
run out of fuel. -/
theorem search_int_fuel_mono {A X : Type} (env : Collaborators A X)
    (config m_config : PartitionConfig A) (i c : Bool) (tb : TouchedBlocks)
    (todolist : List NodeID) (fuel : Nat) (w : World X)
    (h : (start_more_locallized_search_int env config m_config i c tb todolist fuel w).outcome
      ≠ Outcome.out_of_fuel) (k : Nat) :
    start_more_locallized_search_int env config m_config i c tb todolist (fuel + k) w =
      start_more_locallized_search_int env config m_config i c tb todolist fuel w := by
  cases hs : seed_queue env todolist.length todolist (reset_global_data env m_config w) with
  | returned w1 =>
    rw [search_int_eq env config m_config i c tb todolist fuel w w1 hs] at h
    rw [search_int_eq env config m_config i c tb todolist fuel w w1 hs,
      search_int_eq env config m_config i c tb todolist (fuel + k) w w1 hs,
      parallel_phases_fuel_mono env config i c fuel w1 tb 0 0 []
        (fun h1 => h ((as_int_out_of_fuel _).mpr h1)) k]
  | aborted a =>
    exact (search_int_not_seeded env config m_config i c tb todolist fuel w
      (by intro w1 h1; rw [hs] at h1; cases h1)).2.2 k
  | undefined_behaviour =>
    exact (search_int_not_seeded env config m_config i c tb todolist fuel w
      (by intro w1 h1; rw [hs] at h1; cases h1)).2.2 k
  | out_of_fuel =>
    exact (search_int_not_seeded env config m_config i c tb todolist fuel w
      (by intro w1 h1; rw [hs] at h1; cases h1)).2.2 k

/-! ## The entry points with `int` accumulators -/

/-- Induction along a run of the rounds loop with the `int` accumulator: a property of the
run holds when it holds for each of the five ways a round can go. -/
theorem refinement_rounds_int_cases {A X : Type} (env : Collaborators A X)
    (config m_config : PartitionConfig A) (i : Bool) (setup : X → List NodeID) (c : Bool) (fuel : Nat)
    (motive : Nat → World X → TouchedBlocks → Int → List (RoundRecord X) → RoundsRun X → Prop)
    (h_cap : ∀ w tb overall log,
      motive 0 w tb overall log ⟨Outcome.returned overall, w, tb, log⟩)
    (h_nostart : ∀ n w tb overall log, (setup w.ext).length = 0 →
      motive (n + 1) w tb overall log ⟨Outcome.returned overall, w, tb, log⟩)
    (h_fixed : ∀ n w tb overall log r, (setup w.ext).length ≠ 0 →
      r = start_more_locallized_search_int env config m_config i c (if c then tb else []) (setup w.ext)
        fuel w →
      r.outcome = Outcome.returned 0 →
      motive (n + 1) w tb overall log
        ⟨Outcome.returned overall, r.world, if c then r.touched_blocks else tb,
          log ++ [⟨setup w.ext, r⟩]⟩)
    (h_step : ∀ n w tb overall log r improvement, (setup w.ext).length ≠ 0 →
      r = start_more_locallized_search_int env config m_config i c (if c then tb else []) (setup w.ext)
        fuel w →
      r.outcome = Outcome.returned improvement → improvement ≠ 0 →
      ∀ R : RoundsRun X,
      motive n r.world (if c then r.touched_blocks else tb) (int_add overall improvement)
        (log ++ [⟨setup w.ext, r⟩]) R →
      motive (n + 1) w tb overall log R)
    (h_stop : ∀ n w tb overall log r, (setup w.ext).length ≠ 0 →
      r = start_more_locallized_search_int env config m_config i c (if c then tb else []) (setup w.ext)
        fuel w →
      (∀ v, r.outcome ≠ Outcome.returned v) →
      motive (n + 1) w tb overall log
        ⟨r.outcome, r.world, if c then r.touched_blocks else tb,
          log ++ [⟨setup w.ext, r⟩]⟩) :
    ∀ n w tb overall log,
      motive n w tb overall log
        (refinement_rounds_int env config m_config i setup c fuel n w tb overall log) := by
  intro n
  induction n with
  | zero =>
    intro w tb overall log
    exact h_cap w tb overall log
  | succ n ih =>
    intro w tb overall log
    by_cases hlen : (setup w.ext).length = 0
    · have h : refinement_rounds_int env config m_config i setup c fuel (n + 1) w tb overall log =
          ⟨Outcome.returned overall, w, tb, log⟩ := by
        simp only [refinement_rounds_int, hlen, ↓reduceIte]
      rw [h]
      exact h_nostart n w tb overall log hlen
    · cases hr : (start_more_locallized_search_int env config m_config i c (if c then tb else [])
          (setup w.ext) fuel w).outcome with
      | returned improvement =>
        by_cases h0 : improvement = 0
        · subst h0
          have h : refinement_rounds_int env config m_config i setup c fuel (n + 1) w tb overall log =
              ⟨Outcome.returned overall,
                (start_more_locallized_search_int env config m_config i c (if c then tb else [])
                  (setup w.ext) fuel w).world,
                if c then (start_more_locallized_search_int env config m_config i c (if c then tb else [])
                  (setup w.ext) fuel w).touched_blocks else tb,
                log ++ [⟨setup w.ext, start_more_locallized_search_int env config m_config i c
                  (if c then tb else []) (setup w.ext) fuel w⟩]⟩ := by
            simp only [refinement_rounds_int, hlen, ↓reduceIte, hr]
          rw [h]
          exact h_fixed n w tb overall log _ hlen rfl hr
        · have h : refinement_rounds_int env config m_config i setup c fuel (n + 1) w tb overall log =
              refinement_rounds_int env config m_config i setup c fuel n
                (start_more_locallized_search_int env config m_config i c (if c then tb else [])
                  (setup w.ext) fuel w).world
                (if c then (start_more_locallized_search_int env config m_config i c (if c then tb else [])
                  (setup w.ext) fuel w).touched_blocks else tb)
                (int_add overall improvement)
                (log ++ [⟨setup w.ext, start_more_locallized_search_int env config m_config i c
                  (if c then tb else []) (setup w.ext) fuel w⟩]) := by
            simp only [refinement_rounds_int, hlen, ↓reduceIte, hr, h0]
          rw [h]
          exact h_step n w tb overall log _ improvement hlen rfl hr h0 _ (ih _ _ _ _)
      | aborted a =>
        have h : refinement_rounds_int env config m_config i setup c fuel (n + 1) w tb overall log =
            ⟨(start_more_locallized_search_int env config m_config i c (if c then tb else [])
                (setup w.ext) fuel w).outcome,
              (start_more_locallized_search_int env config m_config i c (if c then tb else [])
                (setup w.ext) fuel w).world,
              if c then (start_more_locallized_search_int env config m_config i c (if c then tb else [])
                (setup w.ext) fuel w).touched_blocks else tb,
              log ++ [⟨setup w.ext, start_more_locallized_search_int env config m_config i c
                (if c then tb else []) (setup w.ext) fuel w⟩]⟩ := by
          simp only [refinement_rounds_int, hlen, ↓reduceIte, hr]
        rw [h]
        exact h_stop n w tb overall log _ hlen rfl (by intro v hv; rw [hr] at hv; cases hv)
      | undefined_behaviour =>
        have h : refinement_rounds_int env config m_config i setup c fuel (n + 1) w tb overall log =
            ⟨(start_more_locallized_search_int env config m_config i c (if c then tb else [])
                (setup w.ext) fuel w).outcome,
              (start_more_locallized_search_int env config m_config i c (if c then tb else [])
                (setup w.ext) fuel w).world,
              if c then (start_more_locallized_search_int env config m_config i c (if c then tb else [])
                (setup w.ext) fuel w).touched_blocks else tb,
              log ++ [⟨setup w.ext, start_more_locallized_search_int env config m_config i c
                (if c then tb else []) (setup w.ext) fuel w⟩]⟩ := by
          simp only [refinement_rounds_int, hlen, ↓reduceIte, hr]
        rw [h]
        exact h_stop n w tb overall log _ hlen rfl (by intro v hv; rw [hr] at hv; cases hv)
      | out_of_fuel =>
        have h : refinement_rounds_int env config m_config i setup c fuel (n + 1) w tb overall log =
            ⟨(start_more_locallized_search_int env config m_config i c (if c then tb else [])
                (setup w.ext) fuel w).outcome,
              (start_more_locallized_search_int env config m_config i c (if c then tb else [])
                (setup w.ext) fuel w).world,
              if c then (start_more_locallized_search_int env config m_config i c (if c then tb else [])
                (setup w.ext) fuel w).touched_blocks else tb,
              log ++ [⟨setup w.ext, start_more_locallized_search_int env config m_config i c
                (if c then tb else []) (setup w.ext) fuel w⟩]⟩ := by
          simp only [refinement_rounds_int, hlen, ↓reduceIte, hr]
        rw [h]
        exact h_stop n w tb overall log _ hlen rfl (by intro v hv; rw [hr] at hv; cases hv)

/-- The sum of the improvements of rounds whose searches returned non-negative values is
not negative. -/
theorem sum_improvements_nonneg {X : Type} (log : List (RoundRecord X))
    (h : ∀ record ∈ log, ∃ x, record.search.outcome = Outcome.returned x ∧ 0 ≤ x) :
    0 ≤ sum_improvements log := by
  unfold sum_improvements
  apply List.sum_nonneg
  intro y hy
  obtain ⟨record, hrec, rfl⟩ := List.mem_map.mp hy
  obtain ⟨x, hx, h0⟩ := h record hrec
  simp only [RoundRecord.improvement, hx]
  exact h0

/-- A run of the rounds loop with the `int` accumulator that returns, returns the `int`
of the value on entry plus the improvements of the searches it made. -/
theorem rounds_int_improvements {A X : Type} (env : Collaborators A X)
    (config m_config : PartitionConfig A) (i : Bool) (setup : X → List NodeID) (c : Bool)
    (fuel n : Nat) (w : World X) (tb : TouchedBlocks) (overall : Int)
    (log : List (RoundRecord X)) (v : Int) (hfit : fits_int overall)
    (h : (refinement_rounds_int env config m_config i setup c fuel n w tb overall log).outcome
      = Outcome.returned v) :
    v = int_wrap (overall +
        (sum_improvements
            (refinement_rounds_int env config m_config i setup c fuel n w tb overall log).rounds
          - sum_improvements log)) := by
  revert h hfit
  refine refinement_rounds_int_cases env config m_config i setup c fuel
    (fun _ _ _ overall log R =>
      fits_int overall → R.outcome = Outcome.returned v →
        v = int_wrap (overall + (sum_improvements R.rounds - sum_improvements log)))
    ?_ ?_ ?_ ?_ ?_ n w tb overall log
  · intro w tb overall log hfit h
    have hv : overall = v := by simpa using h
    subst hv
    simp only [sub_self, add_zero]
    exact (int_wrap_of_fits _ hfit).symm
  · intro n w tb overall log _ hfit h
    have hv : overall = v := by simpa using h
    subst hv
    simp only [sub_self, add_zero]
    exact (int_wrap_of_fits _ hfit).symm
  · intro n w tb overall log r _ _ hr hfit h
    have hv : overall = v := by simpa using h
    subst hv
    simp only [sum_improvements_append, improvement_of_returned _ r 0 hr]
    have h0 : overall + (sum_improvements log + 0 - sum_improvements log) = overall := by
      omega
    rw [h0]
    exact (int_wrap_of_fits _ hfit).symm
  · intro n w tb overall log r improvement _ _ hr _ R ih hfit h
    have h1 := ih (fits_int_wrap _) h
    rw [h1, sum_improvements_append, improvement_of_returned _ r improvement hr]
    unfold int_add
    have h2 := int_add_wrap (overall + improvement)
      (sum_improvements R.rounds - (sum_improvements log + improvement))
    unfold int_add at h2
    rw [h2]
    congr 1
    omega
  · intro n w tb overall log r _ _ hr _ h
    exact absurd h (hr v)

/-- In a run of the rounds loop with the `int` accumulator that returns, every search
returned, and returned a value that is not negative. -/
theorem rounds_int_all_returned {A X : Type} (env : Collaborators A X)
    (config m_config : PartitionConfig A) (i : Bool) (setup : X → List NodeID) (c : Bool)
    (fuel n : Nat) (w : World X) (tb : TouchedBlocks) (overall : Int)
    (log : List (RoundRecord X)) (v : Int)
    (hlog : ∀ record ∈ log, ∃ x, record.search.outcome = Outcome.returned x ∧ 0 ≤ x)
    (h : (refinement_rounds_int env config m_config i setup c fuel n w tb overall log).outcome
      = Outcome.returned v) :
    ∀ record ∈
        (refinement_rounds_int env config m_config i setup c fuel n w tb overall log).rounds,
      ∃ x, record.search.outcome = Outcome.returned x ∧ 0 ≤ x := by
  revert h hlog
  have key : ∀ (start_nodes : List NodeID) (log : List (RoundRecord X)) (r : SearchRun X)
      (x : Int), r.outcome = Outcome.returned x → 0 ≤ x →
      (∀ record ∈ log, ∃ x, record.search.outcome = Outcome.returned x ∧ 0 ≤ x) →
      ∀ record ∈ log ++ [(⟨start_nodes, r⟩ : RoundRecord X)],
        ∃ x, record.search.outcome = Outcome.returned x ∧ 0 ≤ x := by
    intro start_nodes log r x hr h0 hlog record hrec
    rcases List.mem_append.mp hrec with hrec | hrec
    · exact hlog record hrec
    · have : record = ⟨start_nodes, r⟩ := by simpa using hrec
      subst this
      exact ⟨x, hr, h0⟩
  refine refinement_rounds_int_cases env config m_config i setup c fuel
    (fun _ _ _ _ log R =>
      (∀ record ∈ log, ∃ x, record.search.outcome = Outcome.returned x ∧ 0 ≤ x) →
      R.outcome = Outcome.returned v →
        ∀ record ∈ R.rounds, ∃ x, record.search.outcome = Outcome.returned x ∧ 0 ≤ x)
    ?_ ?_ ?_ ?_ ?_ n w tb overall log
  · intro w tb overall log hlog _
    exact hlog
  · intro n w tb overall log _ hlog _
    exact hlog
  · intro n w tb overall log r _ _ hr hlog _
    exact key _ log r 0 hr (le_refl 0) hlog
  · intro n w tb overall log r improvement _ hreq hr _ R ih hlog h
    have hpos : 0 ≤ improvement := by
      rw [hreq] at hr
      exact (search_int_returned env config m_config i c _ _ fuel w improvement hr).2.2
    exact ih (key _ log r improvement hr hpos hlog) h
  · intro n w tb overall log r _ _ hr _ h
    exact absurd h (hr v)

/-- When `perform_refinement` with the `int` accumulator returns, its rounds loop
returned the same value, and its rounds are those of the loop. -/
theorem perform_refinement_int_returned {A X : Type} (env : Collaborators A X)
    (config m_config : PartitionConfig A) (w : World X) (rounds : Nat) (i : Bool)
    (alpha fuel : Nat) (v : Int)
    (h : (perform_refinement_int env config m_config w rounds i alpha fuel).outcome
      = Outcome.returned v) :
    (refinement_rounds_int env (override_config env config alpha) m_config i
        env.setup_start_nodes_all false fuel rounds w [] 0 []).outcome = Outcome.returned v ∧
      (perform_refinement_int env config m_config w rounds i alpha fuel).rounds =
        (refinement_rounds_int env (override_config env config alpha) m_config i
          env.setup_start_nodes_all false fuel rounds w [] 0 []).rounds ∧
      (env.assert_true_active = true → 0 ≤ v) := by
  simp only [perform_refinement_int] at h ⊢
  split at h
  · rename_i overall hR
    split at h
    · cases h
    · rename_i hassert
      have hv : overall = v := by simpa using h
      subst hv
      refine ⟨hR, ?_, ?_⟩
      · simp only [hR, hassert]
        rfl
      · intro hactive
        simp only [hactive, Bool.true_and, decide_eq_true_eq] at hassert
        omega
  · cases h
  · cases h
  · cases h

/-- When `perform_refinement_around_parts` with the `int` accumulator returns, its rounds
loop returned the same value, and its rounds are those of the loop. -/
theorem around_parts_int_returned {A X : Type} (env : Collaborators A X)
    (config m_config : PartitionConfig A) (w : World X) (i : Bool) (alpha : Nat)
    (lhs rhs : PartitionID) (tb : TouchedBlocks) (fuel : Nat) (v : Int)
    (h : (perform_refinement_around_parts_int env config m_config w i alpha lhs rhs tb
      fuel).outcome = Outcome.returned v) :
    (refinement_rounds_int env (override_config env config alpha) m_config i
        (fun x => env.setup_start_nodes_around_blocks x lhs rhs) true fuel
        (override_config env config alpha).local_multitry_rounds w tb 0 []).outcome
        = Outcome.returned v ∧
      (perform_refinement_around_parts_int env config m_config w i alpha lhs rhs tb
          fuel).rounds =
        (refinement_rounds_int env (override_config env config alpha) m_config i
          (fun x => env.setup_start_nodes_around_blocks x lhs rhs) true fuel
          (override_config env config alpha).local_multitry_rounds w tb 0 []).rounds ∧
      (env.assert_true_active = true → 0 ≤ v) := by
  simp only [perform_refinement_around_parts_int] at h ⊢
  split at h
  · rename_i overall hR
    split at h
    · cases h
    · rename_i hassert
      have hv : overall = v := by simpa using h
      subst hv
      refine ⟨hR, ?_, ?_⟩
      · simp only [hR, hassert]
        rfl
      · intro hactive
        simp only [hactive, Bool.true_and, decide_eq_true_eq] at hassert
        omega
  · cases h
  · cases h
  · cases h

end MultitryKwayFM
